import Mathlib

/-!
Keycloak directory synchronisation: reader and incremental reconciler.

A shallow embedding of `dist/lib/read.cjs.js`, `dist/lib/transformers.cjs.js` and
`dist/providers/KeycloakOrgEntityProvider.cjs.js` of the Keycloak catalog backend module.

Conventions of the embedding.

* A promise that resolves is the value it resolves to; a promise that rejects is `none`.
  `Promise.all` keeps the order of its input, so a concurrent `map` is a `List.map`.
* An optional JavaScript field is an `Option`; a truthiness test on an optional string is
  `truthy` (absent and the empty string are both falsy).
* A JavaScript `Map` is an association list in insertion order (`jsMapSet`, `jsMapGet`).
* The directory adapter and the catalog client are read-only snapshots given as functions.
* A user transformer is the value its call resolves to together with the entity it was handed
  as the call leaves it; the second part is read where the call is not awaited.
* The four entry points of the provider are also given with the steps of their bodies
  (`onUserEventRun`, `onMembershipChangeRun`, `onGroupEventRun`, `readRun`).
* `lib/constants.cjs.js` is not part of the sources at hand, its values are the fields of
  `Constants`; the two annotation keys are the record fields `keycloakId` and `realm`.
-/

namespace Keycloak

/-! ## Data model -/

/-- Values of `lib/constants.cjs.js` that the reader uses. -/
structure Constants where
  KEYCLOAK_ENTITY_QUERY_SIZE : Nat
  KEYCLOAK_BRIEF_REPRESENTATION_DEFAULT : Bool
deriving DecidableEq, Repr

/-- The provider configuration object returned by `readProviderConfig`. -/
structure ProviderConfig where
  id : String
  baseUrl : String
  realm : String
  loginRealm : String
  username : Option String
  password : Option String
  clientId : Option String
  clientSecret : Option String
  userQuerySize : Option Nat
  groupQuerySize : Option Nat
  maxConcurrency : Option Nat
  briefRepresentation : Option Bool
deriving DecidableEq, Repr

/-- JavaScript truthiness of an optional string. -/
def truthy : Option String → Bool
  | none => false
  | some s => s != ""

/-- A directory user record (`UserRepresentation`). -/
structure KUser where
  id : String
  username : String
  email : Option String
  firstName : Option String
  lastName : Option String
deriving DecidableEq, Repr

/-- A directory group record (`GroupRepresentation`).  `subGroupCount` absent is `0` (it is
only compared with `0`), `subGroups` absent is `[]` (every reader applies `?? []`). -/
inductive KGroup where
  | mk (id name : String) (parentId parent : Option String) (subGroupCount : Nat)
      (subGroups : List KGroup) (members : Option (List String))
deriving Repr

namespace KGroup

def id : KGroup → String
  | mk i _ _ _ _ _ _ => i

def name : KGroup → String
  | mk _ n _ _ _ _ _ => n

def parentId : KGroup → Option String
  | mk _ _ p _ _ _ _ => p

def parent : KGroup → Option String
  | mk _ _ _ p _ _ _ => p

def subGroupCount : KGroup → Nat
  | mk _ _ _ _ c _ _ => c

def subGroups : KGroup → List KGroup
  | mk _ _ _ _ _ s _ => s

def members : KGroup → Option (List String)
  | mk _ _ _ _ _ _ m => m

/-- The assignment `g.parent = p`. -/
def setParent (p : Option String) : KGroup → KGroup
  | mk i n pid _ c s m => mk i n pid p c s m

/-- The assignment `g.subGroups = s`. -/
def setSubGroups (s : List KGroup) : KGroup → KGroup
  | mk i n pid p c _ m => mk i n pid p c s m

/-- The assignment `g.members = m`. -/
def setMembers (m : List String) : KGroup → KGroup
  | mk i n pid p c s _ => mk i n pid p c s (some m)

end KGroup

/-- A relation of a catalog entity. -/
structure Relation where
  relType : String
  targetRef : String
deriving DecidableEq, Repr

/-- A catalog entity, user or group (`ns` is `metadata.namespace`, `specType` is `spec.type`,
`relType` of a relation is its `type`).  `keycloakId` and `realm` are the two annotations
`KEYCLOAK_ID_ANNOTATION` and `KEYCLOAK_REALM_ANNOTATION`; `location` and `originLocation` are
the two location annotations that `withLocations` fills in. -/
structure Entity where
  apiVersion : String
  kind : String
  ns : Option String
  name : String
  keycloakId : Option String
  realm : Option String
  location : Option String
  originLocation : Option String
  email : Option String
  displayName : Option String
  memberOf : Option (List String)
  specType : Option String
  children : Option (List String)
  parent : Option String
  members : Option (List String)
  relations : Option (List Relation)
deriving DecidableEq, Repr

/-- The object `{ ...g, entity }` of a parsed group. -/
structure ParsedGroup where
  group : KGroup
  entity : Entity

/-- The object `{ ...u, entity }` of a parsed user. -/
structure ParsedUser where
  user : KUser
  entity : Entity
deriving DecidableEq, Repr

/-- A group transformer: `(entity, group, realm) => entity | undefined`. -/
abbrev GroupTransformer := Entity → KGroup → String → Option Entity

/-- A user transformer, `(entity, user, realm, groups) => entity | undefined`: the value its
call resolves to, and the entity object it was handed as the call leaves it (the object itself
is passed, so an assignment to `entity.metadata.name` changes the object of the caller). -/
structure UserTransformer where
  resolved : Entity → KUser → String → List ParsedGroup → Option Entity
  inPlace : Entity → KUser → String → List ParsedGroup → Entity

/-- A user transformer applied to its arguments is the value its call resolves to. -/
instance : CoeFun UserTransformer
    (fun _ => Entity → KUser → String → List ParsedGroup → Option Entity) :=
  ⟨UserTransformer.resolved⟩

/-- The transformer `noopGroupTransformer`. -/
def noopGroupTransformer : GroupTransformer := fun entity _ _ => some entity

/-- The transformer `noopUserTransformer`. -/
def noopUserTransformer : UserTransformer :=
  { resolved := fun entity _ _ _ => some entity
    inPlace := fun entity _ _ _ => entity }

/-- The replacement `name.replace(/[^a-zA-Z0-9]/g, "-")`.  The expression has no `u` flag, so
it replaces UTF-16 code units: a character outside the basic plane, which is two code units,
gives two hyphens. -/
def sanitizeName (name : String) : String :=
  String.mk (name.data.flatMap fun c =>
    if c.isAlphanum then [c] else if c.toNat < 65536 then ['-'] else ['-', '-'])

/-- The transformer `sanitizeEmailTransformer`: it assigns the new name to the entity it was
handed and returns that entity. -/
def sanitizeEmailTransformer : UserTransformer :=
  { resolved := fun entity _ _ _ => some { entity with name := sanitizeName entity.name }
    inPlace := fun entity _ _ _ => { entity with name := sanitizeName entity.name } }

/-! ## JavaScript `Map` as an association list -/

/-- The lookup `map.get(k)`. -/
def jsMapGet {β : Type} : List (String × β) → String → Option β
  | [], _ => none
  | (k, v) :: rest, key => if k = key then some v else jsMapGet rest key

/-- The update `map.set(k, v)`: an existing key keeps its position. -/
def jsMapSet {β : Type} : List (String × β) → String → β → List (String × β)
  | [], key, v => [(key, v)]
  | (k, w) :: rest, key, v => if k = key then (k, v) :: rest else (k, w) :: jsMapSet rest key v

/-- The constructor `new Map(pairs)`: the pairs are set one after the other. -/
def jsMapOfPairs {β : Type} (pairs : List (String × β)) : List (String × β) :=
  pairs.foldl (fun m kv => jsMapSet m kv.1 kv.2) []

/-! ## `getEntities` -/

/-- The argument of `find`. -/
structure FindQuery where
  realm : String
  max : Nat
  first : Nat
  briefRepresentation : Bool
deriving DecidableEq, Repr

/-- What `count` resolves to: a number, or an object with a `count` field. -/
inductive RawCount where
  | num (n : Nat)
  | obj (count : Nat)
deriving DecidableEq, Repr

/-- The `users` or `groups` API of the admin client; `find` answers `none` when the page
request rejects. -/
structure EntitiesAPI (α : Type) where
  count : String → RawCount
  find : FindQuery → Option (List α)

/-- What one run of `getEntities` does: the `find` call of every page (by page index), the
returned records, and the tag of every increment of `dataBatchFailureCounter`. -/
structure GetEntitiesResult (α : Type) where
  calls : List FindQuery
  entities : List α
  failures : List String

/-- The line `typeof rawEntityCount === "number" ? rawEntityCount : rawEntityCount.count`. -/
def entityCountOf : RawCount → Nat
  | .num n => n
  | .obj c => c

/-- The value `Math.ceil(entityCount / entityQuerySize)` as an array length: `0 / 0` is `NaN`
(length `0`), `n / 0` is `Infinity` (`Array.from` throws). -/
def pageCountOf (entityCount entityQuerySize : Nat) : Option Nat :=
  if entityQuerySize = 0 then (if entityCount = 0 then some 0 else none)
  else some ((entityCount + entityQuerySize - 1) / entityQuerySize)

/-- The function `getEntities` of `read.cjs.js`.  The token guard inside `getEntitiesFn` is
taken to succeed; `limit` only bounds concurrency and `Promise.all` keeps page order. -/
def getEntities {α : Type} (api : EntitiesAPI α) (config : ProviderConfig)
    (taskInstanceId : String) (K : Constants) (entityQuerySize : Option Nat) :
    Option (GetEntitiesResult α) :=
  let entityCount := entityCountOf (api.count config.realm)
  let size := entityQuerySize.getD K.KEYCLOAK_ENTITY_QUERY_SIZE
  match pageCountOf entityCount size with
  | none => none
  | some pageCount =>
    let brief := config.briefRepresentation.getD K.KEYCLOAK_BRIEF_REPRESENTATION_DEFAULT
    let queries : List FindQuery := (List.range pageCount).map fun i =>
      { realm := config.realm, max := size, first := i * size, briefRepresentation := brief }
    let pages := queries.map api.find
    some
      { calls := queries
        entities := (pages.map fun p => p.getD []).flatten
        failures := (pages.filter fun p => p.isNone).map fun _ => taskInstanceId }

/-! ## The admin client -/

/-- The argument of `groups.listSubGroups`. -/
structure SubGroupQuery where
  parentId : String
  first : Nat
  max : Nat
  briefRepresentation : Bool
  realm : String
deriving DecidableEq, Repr

/-- The argument of `groups.findOne` (`realm` is passed by some callers only). -/
structure FindOneQuery where
  id : Option String
  realm : Option String
deriving DecidableEq, Repr

/-- The argument of `groups.listMembers` and of `users.listGroups`. -/
structure PageQuery where
  id : Option String
  max : Nat
  realm : String
  first : Nat
deriving DecidableEq, Repr

/-- A snapshot of the directory behind the admin client.  `serverInfo` is `none` when
`serverInfo.find()` rejects, otherwise `systemInfo?.version`. -/
structure KcAdminClient where
  users : EntitiesAPI KUser
  groups : EntitiesAPI KGroup
  listSubGroups : SubGroupQuery → List KGroup
  findOneGroup : FindOneQuery → Option KGroup
  findOneUser : Option String → Option KUser
  listMembers : PageQuery → List KUser
  listGroups : PageQuery → List KGroup
  serverInfo : Option (Option String)

/-! ## `getAllGroupMembers`, `getAllGroups` -/

/-- The expression `size || 100`. -/
def querySizeOr100 : Option Nat → Nat
  | none => 100
  | some n => if n = 0 then 100 else n

/-- The `do ... while (total > 0)` loop shared by `getAllGroupMembers` and `getAllGroups`:
returns the issued queries and the accumulated records, `none` when the fuel runs out. -/
def pageLoop {α β : Type} (list : PageQuery → List α) (f : α → β) (id : Option String)
    (realm : String) (querySize : Nat) : Nat → Nat → List PageQuery → List β →
    Option (List PageQuery × List β)
  | 0, _, _, _ => none
  | fuel + 1, page, calls, acc =>
    let q : PageQuery := { id := id, max := querySize, realm := realm, first := page * querySize }
    let items := list q
    if items.length > 0 then
      pageLoop list f id realm querySize fuel (page + 1) (calls ++ [q]) (acc ++ items.map f)
    else some (calls ++ [q], acc)

/-- The function `getAllGroupMembers` with the list of `listMembers` calls it issues. -/
def getAllGroupMembersTrace (client : KcAdminClient) (groupId : Option String)
    (config : ProviderConfig) (userQuerySize : Option Nat) (fuel : Nat) :
    Option (List PageQuery × List String) :=
  pageLoop client.listMembers (fun m => m.username) groupId config.realm
    (querySizeOr100 userQuerySize) fuel 0 [] []

/-- The function `getAllGroupMembers` of `read.cjs.js`. -/
def getAllGroupMembers (client : KcAdminClient) (groupId : Option String)
    (config : ProviderConfig)
    (userQuerySize : Option Nat) (fuel : Nat) : Option (List String) :=
  (getAllGroupMembersTrace client groupId config userQuerySize fuel).map Prod.snd

/-- The function `getAllGroups` of `read.cjs.js`. -/
def getAllGroups (client : KcAdminClient) (userId : Option String) (config : ProviderConfig)
    (groupQuerySize : Option Nat) (fuel : Nat) : Option (List KGroup) :=
  (pageLoop client.listGroups (fun g => g) userId config.realm
    (querySizeOr100 groupQuerySize) fuel 0 [] []).map Prod.snd

/-! ## `getServerVersion` -/

/-- White space skipped by `parseInt`. -/
def isJsWhiteSpace (c : Char) : Bool :=
  let n := c.toNat
  n = 9 || n = 10 || n = 11 || n = 12 || n = 13 || n = 32 || n = 160 || n = 5760 ||
  (8192 ≤ n && n ≤ 8202) || n = 8232 || n = 8233 || n = 8239 || n = 8287 || n = 12288 ||
  n = 65279

/-- Value of a run of decimal digits. -/
def digitsValue (ds : List Char) : Nat :=
  ds.foldl (fun acc c => acc * 10 + (c.toNat - 48)) 0

/-- The call `parseInt(s, 10)`; `none` is `NaN`. -/
def parseInt10 (s : List Char) : Option Int :=
  let t := s.dropWhile isJsWhiteSpace
  let negative := t.head? = some '-'
  let body := if t.head? = some '-' ∨ t.head? = some '+' then t.tail else t
  let ds := body.takeWhile Char.isDigit
  if ds = [] then none
  else if negative then some (-(digitsValue ds : Int)) else some (digitsValue ds : Int)

/-- The function `getServerVersion` on the version string: `parseInt(version?.slice(0, 2) || "", 10)`. -/
def getServerVersion (version : Option String) : Option Int :=
  match version with
  | none => parseInt10 []
  | some v => parseInt10 (v.data.take 2)

/-- The test `serverVersion >= 23` (false on `NaN`). -/
def isVersion23orHigher (version : Option String) : Bool :=
  match getServerVersion version with
  | none => false
  | some n => decide (23 ≤ n)

/-! ## Group hierarchy -/

/-- The value `config.briefRepresentation ?? KEYCLOAK_BRIEF_REPRESENTATION_DEFAULT`. -/
def briefOf (config : ProviderConfig) (K : Constants) : Bool :=
  config.briefRepresentation.getD K.KEYCLOAK_BRIEF_REPRESENTATION_DEFAULT

/-- The call `listSubGroups({parentId: g.id, first: 0, max: g.subGroupCount, ...})`. -/
def subGroupQueryOf (config : ProviderConfig) (K : Constants) (g : KGroup) : SubGroupQuery :=
  { parentId := g.id, first := 0, max := g.subGroupCount,
    briefRepresentation := briefOf config K, realm := config.realm }

/-- Runs `f` on every element in order and concatenates what it pushes. -/
def collectEach {α β : Type} (f : α → Option (List β)) : List α → Option (List β)
  | [] => some []
  | a :: rest =>
    match f a, collectEach f rest with
    | some x, some y => some (x ++ y)
    | _, _ => none

/-- The function `processGroupsRecursively` of `read.cjs.js`; the fuel bounds the depth of
the recursion into `listSubGroups`. -/
def processGroupsRecursively (client : KcAdminClient) (config : ProviderConfig) (K : Constants) :
    Nat → List KGroup → Option (List KGroup)
  | 0, _ => none
  | fuel + 1, topLevelGroups =>
    collectEach (fun group =>
      if group.subGroupCount > 0 then
        (processGroupsRecursively client config K fuel
          (client.listSubGroups (subGroupQueryOf config K group))).map fun sub => group :: sub
      else some [group]) topLevelGroups

/-- The `parent` of a yielded group: the name stamped by the caller, or the value it had. -/
def stampedParent (stamp current : Option String) : Option String :=
  match stamp with
  | some p => some p
  | none => current

mutual
/-- The generator `traverseGroups`, started with the parent stamp the caller just wrote
(`none` at the root, whose `parent` is left as it is).  The copies nested in `subGroups` stay
as listed: the reader takes only their `name`. -/
def traverseFrom (stamp : Option String) : KGroup → List KGroup
  | .mk i n pid par c subs m =>
    .mk i n pid (stampedParent stamp par) c subs m :: traverseSubGroups n subs
/-- The loop `for (const g of group.subGroups ?? [])` of `traverseGroups`. -/
def traverseSubGroups (parentName : String) : List KGroup → List KGroup
  | [] => []
  | g :: rest => traverseFrom (some parentName) g ++ traverseSubGroups parentName rest
end

/-- The generator `traverseGroups` of `read.cjs.js`, fully consumed. -/
def traverseGroups (group : KGroup) : List KGroup := traverseFrom none group

/-- The reduction `groups.reduce((acc, g) => acc.concat(...traverseGroups(g)), [])`. -/
def flattenEmbedded (topLevel : List KGroup) : List KGroup :=
  topLevel.foldl (fun acc g => acc ++ traverseGroups g) []

/-- The per-group enrichment of `readKeycloakRealm` and `createGroupEntities`: members, then on
version 23 and later the listed subgroups and the parent name. -/
def enrichGroup (client : KcAdminClient) (config : ProviderConfig) (K : Constants)
    (userQuerySize : Option Nat) (v23 : Bool) (fuelPages : Nat) (g : KGroup) : Option KGroup :=
  match getAllGroupMembers client (some g.id) config userQuerySize fuelPages with
  | none => none
  | some members =>
    let g1 := g.setMembers members
    if v23 then
      let g2 := if g1.subGroupCount > 0 then
          g1.setSubGroups (client.listSubGroups (subGroupQueryOf config K g1)) else g1
      let g3 := if truthy g2.parentId then
          g2.setParent ((client.findOneGroup
            { id := g2.parentId, realm := some config.realm }).map KGroup.name)
        else g2
      some g3
    else some g1

/-- All of `f`'s results in order, `none` as soon as one is `none`. -/
def allOrNone {α β : Type} (f : α → Option β) : List α → Option (List β)
  | [] => some []
  | a :: rest =>
    match f a, allOrNone f rest with
    | some x, some y => some (x :: y)
    | _, _ => none

/-- The group part shared by `readKeycloakRealm` and `createGroupEntities`: flatten by the
strategy of the server version, then enrich every group (`kGroups`). -/
def resolveHierarchy (client : KcAdminClient) (config : ProviderConfig) (K : Constants)
    (userQuerySize : Option Nat) (v23 : Bool) (fuelDepth fuelPages : Nat)
    (topLevel : List KGroup) : Option (List KGroup) :=
  let rawKGroups :=
    if v23 then processGroupsRecursively client config K fuelDepth topLevel
    else some (flattenEmbedded topLevel)
  match rawKGroups with
  | none => none
  | some raw => allOrNone (enrichGroup client config K userQuerySize v23 fuelPages) raw

/-! ## Entity builder -/

/-- The function `parseGroup` of `read.cjs.js`. -/
def parseGroup (keycloakGroup : KGroup) (realm : String)
    (groupTransformer : Option GroupTransformer) : Option Entity :=
  let transformer := groupTransformer.getD noopGroupTransformer
  let entity : Entity :=
    { apiVersion := "backstage.io/v1beta1"
      kind := "Group"
      ns := none
      name := keycloakGroup.name
      keycloakId := some keycloakGroup.id
      realm := some realm
      location := none
      originLocation := none
      email := none
      displayName := some keycloakGroup.name
      memberOf := none
      specType := some "group"
      children := some (keycloakGroup.subGroups.map KGroup.name)
      parent := keycloakGroup.parent
      members := keycloakGroup.members
      relations := none }
  transformer entity keycloakGroup realm

/-- The expression `[firstName, lastName].filter(Boolean).join(" ")`, present when one of the
two is truthy. -/
def displayNameOf (firstName lastName : Option String) : Option String :=
  if truthy firstName || truthy lastName then
    some (" ".intercalate ([firstName, lastName].filterMap fun x =>
      if truthy x then x else none))
  else none

/-- The entity literal shared by `parseUser` and `updateUserEntitiesAfterGroupDelete`. -/
def userEntityOf (user : KUser) (realm : String) (memberOf : List String) : Entity :=
  { apiVersion := "backstage.io/v1beta1"
    kind := "User"
    ns := none
    name := user.username
    keycloakId := some user.id
    realm := some realm
    location := none
    originLocation := none
    email := user.email
    displayName := displayNameOf user.firstName user.lastName
    memberOf := some memberOf
    specType := none
    children := none
    parent := none
    members := none
    relations := none }

/-- The function `parseUser` of `read.cjs.js`. -/
def parseUser (user : KUser) (realm : String) (keycloakGroups : List ParsedGroup)
    (groupIndex : List (String × List String)) (userTransformer : Option UserTransformer) :
    Option Entity :=
  let transformer := userTransformer.getD noopUserTransformer
  transformer (userEntityOf user realm ((jsMapGet groupIndex user.username).getD []))
    user realm keycloakGroups

/-! ## `readKeycloakRealm` -/

/-- The `options` argument of `readKeycloakRealm`. -/
structure ReadOptions where
  userQuerySize : Option Nat
  groupQuerySize : Option Nat
  userTransformer : Option UserTransformer
  groupTransformer : Option GroupTransformer

/-- The ways a run ends without a result. -/
inductive Failure where
  | outOfFuel
  | rangeError
  | serverInfoError
  | notInitialized
  | typeError
  | parseError
  | inputError
  | authRejected
  | configError
deriving DecidableEq, Repr

/-- The value `readKeycloakRealm` resolves to, with the batch failures it counted. -/
structure RealmResult where
  users : List Entity
  groups : List Entity
  batchFailures : List String
deriving DecidableEq, Repr

/-- The lists `parsedGroups` and `filteredParsedGroups`: every group the transformer accepts,
paired with its entity. -/
def parseGroups (kGroups : List KGroup) (realm : String)
    (groupTransformer : Option GroupTransformer) : List ParsedGroup :=
  kGroups.filterMap fun g =>
    (parseGroup g realm groupTransformer).map fun entity => { group := g, entity := entity }

/-- The map `groupIndex`: member user name to the entity names of the groups listing it. -/
def buildGroupIndex (filteredParsedGroups : List ParsedGroup) : List (String × List String) :=
  filteredParsedGroups.foldl (fun index group =>
    match group.group.members with
    | none => index
    | some members =>
      members.foldl (fun index member =>
        jsMapSet index member ((jsMapGet index member).getD [] ++ [group.entity.name])) index) []

/-- The lists `parsedUsers` and `filteredParsedUsers`. -/
def parseUsers (kUsers : List KUser) (realm : String) (filteredParsedGroups : List ParsedGroup)
    (groupIndex : List (String × List String)) (userTransformer : Option UserTransformer) :
    List ParsedUser :=
  kUsers.filterMap fun u =>
    (parseUser u realm filteredParsedGroups groupIndex userTransformer).map fun entity =>
      { user := u, entity := entity }

/-- The map `userMap`: directory user name to entity name. -/
def userMapOf (filteredParsedUsers : List ParsedUser) : List (String × String) :=
  jsMapOfPairs (filteredParsedUsers.map fun user => (user.user.username, user.entity.name))

/-- The map `groupMap`: directory group name to entity name. -/
def groupMapOf (filteredParsedGroups : List ParsedGroup) : List (String × String) :=
  jsMapOfPairs (filteredParsedGroups.map fun group => (group.group.name, group.entity.name))

/-- The body of the last `filteredParsedGroups.map`: members, children and parent are
rewritten through the two maps, a reference without an entry is dropped. -/
def resolveGroupEntity (userMap groupMap : List (String × String)) (entity : Entity) : Entity :=
  { entity with
    members := some ((entity.members.getD []).filterMap (jsMapGet userMap))
    children := some ((entity.children.getD []).filterMap (jsMapGet groupMap))
    parent := entity.parent.bind (jsMapGet groupMap) }

/-- The part of `readKeycloakRealm` after the fetches: parse groups, index, parse users,
resolve the group references. -/
def assembleRealm (kUsers : List KUser) (kGroups : List KGroup) (realm : String)
    (options : ReadOptions) (batchFailures : List String) : RealmResult :=
  let filteredParsedGroups := parseGroups kGroups realm options.groupTransformer
  let groupIndex := buildGroupIndex filteredParsedGroups
  let filteredParsedUsers :=
    parseUsers kUsers realm filteredParsedGroups groupIndex options.userTransformer
  let userMap := userMapOf filteredParsedUsers
  let groupMap := groupMapOf filteredParsedGroups
  { users := filteredParsedUsers.map fun u => u.entity
    groups := filteredParsedGroups.map fun g => resolveGroupEntity userMap groupMap g.entity
    batchFailures := batchFailures }

/-- The list `kGroups` of `readKeycloakRealm`, with the fetched users and the batch failures. -/
def fetchRealm (client : KcAdminClient) (config : ProviderConfig) (K : Constants)
    (taskInstanceId : String) (options : ReadOptions) (fuelDepth fuelPages : Nat) :
    Except Failure (List KUser × List KGroup × List String) :=
  match getEntities client.users config taskInstanceId K options.userQuerySize with
  | none => .error .rangeError
  | some kUsers =>
    match getEntities client.groups config taskInstanceId K options.groupQuerySize with
    | none => .error .rangeError
    | some topLevelKGroups =>
      match client.serverInfo with
      | none => .error .serverInfoError
      | some version =>
        match resolveHierarchy client config K options.userQuerySize
            (isVersion23orHigher version) fuelDepth fuelPages topLevelKGroups.entities with
        | none => .error .outOfFuel
        | some kGroups =>
          .ok (kUsers.entities, kGroups, kUsers.failures ++ topLevelKGroups.failures)

/-- The function `readKeycloakRealm` of `read.cjs.js`. -/
def readKeycloakRealm (client : KcAdminClient) (config : ProviderConfig) (K : Constants)
    (taskInstanceId : String) (options : ReadOptions) (fuelDepth fuelPages : Nat) :
    Except Failure RealmResult :=
  match fetchRealm client config K taskInstanceId options fuelDepth fuelPages with
  | .error e => .error e
  | .ok (kUsers, kGroups, failures) =>
    .ok (assembleRealm kUsers kGroups config.realm options failures)

/-! ## Adapter and tree: consistency of the two listings -/

mutual
/-- Height of the tree embedded in a legacy record. -/
def treeHeight : KGroup → Nat
  | .mk _ _ _ _ _ subs _ => forestHeight subs + 1
/-- Height of a list of legacy records. -/
def forestHeight : List KGroup → Nat
  | [] => 0
  | g :: rest => max (treeHeight g) (forestHeight rest)
end

mutual
/-- The record `r` that a version 23 adapter lists for the node `t` of the tree (`t` is the
legacy record, embedding its whole subtree): same name, `subGroupCount` the number of
children, `parentId` the id of the parent, `findOne` of its id answers a record of that name,
and `listSubGroups` of its id answers the records of its children.  A listed record of a
childless node carries no embedded subgroups, and a top-level record the same raw `parent`. -/
def Mirrors (client : KcAdminClient) (config : ProviderConfig) (K : Constants) :
    KGroup → Option String → KGroup → Prop
  | .mk _ n _ par _ subs _, pid, r =>
    r.name = n ∧ r.parentId = pid ∧ r.subGroupCount = subs.length ∧
    (pid = none → r.parent = par) ∧
    (subs = [] → r.subGroups = []) ∧
    (subs ≠ [] →
      (client.findOneGroup { id := some r.id, realm := some config.realm }).map KGroup.name
        = some n ∧
      MirrorsList client config K subs (some r.id)
        (client.listSubGroups (subGroupQueryOf config K r)))
/-- The records `rs` mirror the nodes `ts` one by one, under the parent id `pid`. -/
def MirrorsList (client : KcAdminClient) (config : ProviderConfig) (K : Constants) :
    List KGroup → Option String → List KGroup → Prop
  | [], _, rs => rs = []
  | t :: ts, pid, rs =>
    match rs with
    | [] => False
    | r :: rest => Mirrors client config K t pid r ∧ MirrorsList client config K ts pid rest
end

/-- The records of a version 23 listing: the top-level records and, below a record that
counts subgroups, the records that `listSubGroups` answers for it. -/
inductive Listed (client : KcAdminClient) (config : ProviderConfig) (K : Constants)
    (top : List KGroup) : KGroup → Prop
  | atTop (r : KGroup) : r ∈ top → Listed client config K top r
  | under (r s : KGroup) : Listed client config K top r → 0 < r.subGroupCount →
      s ∈ client.listSubGroups (subGroupQueryOf config K r) → Listed client config K top s

/-- The triples `(name, parent, children)` of the entities built from a list of resolved
groups with the default transformer. -/
def hierarchyTriples (kGroups : List KGroup) (realm : String) :
    List (String × Option String × Option (List String)) :=
  (parseGroups kGroups realm none).map fun p => (p.entity.name, p.entity.parent, p.entity.children)

/-- The triple `(name, parent, children)` that `parseGroup` reads from a resolved group. -/
def tripleOf (g : KGroup) : String × Option String × Option (List String) :=
  (g.name, g.parent, some (g.subGroups.map KGroup.name))

/-- The triple of a listed record once enriched by the version 23 branch of `enrichGroup`. -/
def listedTriple (client : KcAdminClient) (config : ProviderConfig) (K : Constants)
    (r : KGroup) : String × Option String × Option (List String) :=
  (r.name,
   if truthy r.parentId then
     (client.findOneGroup { id := r.parentId, realm := some config.realm }).map KGroup.name
   else r.parent,
   some (if r.subGroupCount > 0 then
     (client.listSubGroups (subGroupQueryOf config K r)).map KGroup.name
   else r.subGroups.map KGroup.name))

/-- What the traversal needs from the parent of a list of nodes: no parent and no stamp, or a
non-empty parent id whose `findOne` answers the stamped name. -/
def ParentLink (client : KcAdminClient) (config : ProviderConfig) :
    Option String → Option String → Prop
  | none, stamp => stamp = none
  | some i, stamp => i ≠ "" ∧ ∃ pname, stamp = some pname ∧
      (client.findOneGroup { id := some i, realm := some config.realm }).map KGroup.name
        = some pname

/-- The value of the last pair with the given key: what `new Map(pairs).get(key)` answers. -/
def lastEntry {β : Type} : List (String × β) → String → Option β
  | [], _ => none
  | (k, v) :: rest, key =>
    match lastEntry rest key with
    | some x => some x
    | none => if k = key then some v else none

/-! ## The entity provider -/

/-- The catalog client: `getEntities` filtered by kind and by the directory id annotation, and
`getEntityByRef`. -/
structure CatalogApi where
  getEntities : String → Option String → List Entity
  getEntityByRef : String → Option Entity

/-- An entity with the location key of its provider. -/
structure DeferredEntity where
  locationKey : String
  entity : Entity
deriving DecidableEq, Repr

/-- The argument of `connection.applyMutation`. -/
inductive Mutation where
  | full (entities : List DeferredEntity)
  | delta (added removed : List DeferredEntity)
deriving DecidableEq, Repr

/-- The constructor options the handlers read. -/
structure ProviderOptions where
  id : String
  provider : ProviderConfig
  userTransformer : Option UserTransformer
  groupTransformer : Option GroupTransformer

/-- The state of a `KeycloakOrgEntityProvider`: its options, whether `connect` has stored a
connection, and the catalog client. -/
structure Provider where
  options : ProviderOptions
  connected : Bool
  catalogApi : CatalogApi

/-- The function `withLocations`: `lodash.merge` keeps a location annotation the entity
already carries. -/
def withLocations (baseUrl realm : String) (entity : Entity) : Entity :=
  let kind := if entity.kind = "Group" then "groups" else "users"
  let location := "url:" ++ baseUrl ++ "/admin/realms/" ++ realm ++ "/" ++ kind ++ "/"
    ++ entity.keycloakId.getD "undefined"
  { entity with
    location := some (entity.location.getD location)
    originLocation := some (entity.originLocation.getD location) }

/-- The wrapping shared by `addEntitiesOperation` and `removeEntitiesOperation`. -/
def deferred (P : Provider) (entity : Entity) : DeferredEntity :=
  { locationKey := "keycloak-org-provider:" ++ P.options.id
    entity := withLocations P.options.provider.baseUrl P.options.provider.realm entity }

/-- The field `added` of `addEntitiesOperation(entities)`. -/
def addEntitiesOperation (P : Provider) (entities : List Entity) : List DeferredEntity :=
  entities.map (deferred P)

/-- The field `removed` of `removeEntitiesOperation(entities)`. -/
def removeEntitiesOperation (P : Provider) (entities : List Entity) : List DeferredEntity :=
  entities.map (deferred P)

/-- The method `createGroupEntities`: the server version, the hierarchy of `allGroups` by the
strategy of that version, and the parsed groups the transformer accepts. -/
def createGroupEntities (P : Provider) (client : KcAdminClient) (K : Constants)
    (allGroups : List KGroup) (fuelDepth fuelPages : Nat) : Except Failure (List ParsedGroup) :=
  match client.serverInfo with
  | none => .error .serverInfoError
  | some version =>
    match resolveHierarchy client P.options.provider K P.options.provider.userQuerySize
        (isVersion23orHigher version) fuelDepth fuelPages allGroups with
    | none => .error .outOfFuel
    | some kGroups =>
      .ok (parseGroups kGroups P.options.provider.realm P.options.groupTransformer)

/-- The target refs of the relations of a given type (`[]` without relations). -/
def relationTargets (relType : String) (entity : Entity) : List String :=
  ((entity.relations.getD []).filter fun r => r.relType = relType).map fun r => r.targetRef

/-- The method `getParentEntityRef`. -/
def getParentEntityRef (group : Entity) : Option String :=
  (relationTargets "childOf" group).head?

/-- The method `getSubgroupRefs`. -/
def getSubgroupRefs (group : Entity) : List String :=
  relationTargets "parentOf" group

/-- The method `getEntitiesByRefs`: the refs that resolve, in order. -/
def getEntitiesByRefs (P : Provider) (refs : List String) : List Entity :=
  refs.filterMap P.catalogApi.getEntityByRef

/-- Lower case of the ASCII letters, standing for `toLowerCase`. -/
def jsToLowerCase (s : String) : String :=
  String.mk (s.data.map Char.toLower)

/-- The string `${kind}:${namespace}/${name}` in lower case. -/
def entityRefOf (entity : Entity) : String :=
  jsToLowerCase (entity.kind ++ ":" ++ entity.ns.getD "undefined" ++ "/" ++ entity.name)

/-- The method `collectUserMemberships`: a map from the `hasMember` targets of the deleted
group and of the given subgroups to the refs of the groups they are a member of. -/
def collectUserMemberships (deletedGroup : Entity) (validSubgroupEntities : List Entity) :
    List (String × List String) :=
  validSubgroupEntities.foldl (fun m subgroup =>
    (relationTargets "hasMember" subgroup).foldl (fun m ref =>
      jsMapSet m ref ((jsMapGet m ref).getD [] ++ [entityRefOf subgroup])) m)
    (jsMapOfPairs ((relationTargets "hasMember" deletedGroup).map fun ref =>
      (ref, [entityRefOf deletedGroup])))

/-- The names `allGroups.flatMap((g) => g?.name ? [g.name] : [])`. -/
def truthyNames (allGroups : List KGroup) : List String :=
  (allGroups.map KGroup.name).filter fun n => n != ""

/-- One turn of the loop of `updateUserEntitiesAfterGroupDelete`: the old entity to remove and
the new entity to add for one user ref, if any.  The transformer is called without `await` and
what it resolves to is not used; the built entity is pushed as the call has left it. -/
def updateUserEntity (P : Provider) (client : KcAdminClient) (K : Constants)
    (fuelDepth fuelPages : Nat) (userEntityRef : String) :
    Except Failure (Option Entity × Option Entity) :=
  match P.catalogApi.getEntityByRef userEntityRef with
  | none => .ok (none, none)
  | some userEntityInCatalog =>
    if truthy userEntityInCatalog.keycloakId then
      match client.findOneUser userEntityInCatalog.keycloakId with
      | none => .ok (some userEntityInCatalog, none)
      | some userFromKeycloak =>
        match getAllGroups client userEntityInCatalog.keycloakId P.options.provider
            P.options.provider.groupQuerySize fuelPages with
        | none => .error .outOfFuel
        | some allGroups =>
          match createGroupEntities P client K allGroups fuelDepth fuelPages with
          | .error e => .error e
          | .ok filteredParsedGroups =>
            let transformer := P.options.userTransformer.getD noopUserTransformer
            .ok (some userEntityInCatalog,
              some (transformer.inPlace
                (userEntityOf userFromKeycloak P.options.provider.realm
                  (truthyNames allGroups))
                userFromKeycloak P.options.provider.realm filteredParsedGroups))
    else .ok (none, none)

/-- The method `updateUserEntitiesAfterGroupDelete` on the keys of the membership map:
`(oldUserEntities, newUserEntities)`. -/
def updateUserEntitiesAfterGroupDelete (P : Provider) (client : KcAdminClient) (K : Constants)
    (fuelDepth fuelPages : Nat) : List String → Except Failure (List Entity × List Entity)
  | [] => .ok ([], [])
  | ref :: rest =>
    match updateUserEntity P client K fuelDepth fuelPages ref with
    | .error e => .error e
    | .ok (old, new) =>
      match updateUserEntitiesAfterGroupDelete P client K fuelDepth fuelPages rest with
      | .error e => .error e
      | .ok (olds, news) => .ok (old.toList ++ olds, new.toList ++ news)

/-- The constant `oldParentEntity` of `handleGroupDelete`. -/
def oldParentEntityOf (P : Provider) (deletedGroup : Entity) : Option Entity :=
  if truthy (getParentEntityRef deletedGroup) then
    P.catalogApi.getEntityByRef ((getParentEntityRef deletedGroup).getD "")
  else none

/-- The variable `newParent` of `handleGroupDelete`: the parent fetched again from the
directory when the old parent entity carries a directory id. -/
def refetchParent (P : Provider) (client : KcAdminClient) (deletedGroup : Entity) :
    Option KGroup :=
  match oldParentEntityOf P deletedGroup with
  | none => none
  | some parent =>
    if truthy parent.keycloakId then
      client.findOneGroup { id := parent.keycloakId, realm := none }
    else none

/-- The method `handleGroupDelete`; the result is the list of mutations applied to the sink.
Without a catalog entity for the group, `getParentEntityRef(undefined)` throws. -/
def handleGroupDelete (P : Provider) (client : KcAdminClient) (K : Constants)
    (resourcePath : List String) (fuelDepth fuelPages : Nat) : Except Failure (List Mutation) :=
  match (P.catalogApi.getEntities "Group" (resourcePath.get? 1)).head? with
  | none => .error .typeError
  | some deletedGroup =>
    let oldParentEntity := oldParentEntityOf P deletedGroup
    let validSubgroupEntities := getEntitiesByRefs P (getSubgroupRefs deletedGroup)
    let newParent := refetchParent P client deletedGroup
    match createGroupEntities P client K newParent.toList fuelDepth fuelPages with
    | .error e => .error e
    | .ok parsedParents =>
      let newParentEntity := parsedParents.head?
      let userMembershipsToUpdate := collectUserMemberships deletedGroup validSubgroupEntities
      match updateUserEntitiesAfterGroupDelete P client K fuelDepth fuelPages
          (userMembershipsToUpdate.map Prod.fst) with
      | .error e => .error e
      | .ok (oldUserEntities, newUserEntities) =>
        .ok [Mutation.delta
          (addEntitiesOperation P
            ((newParentEntity.map fun p => p.entity).toList ++ newUserEntities))
          (removeEntitiesOperation P
            ([deletedGroup] ++ oldParentEntity.toList ++ validSubgroupEntities
              ++ oldUserEntities))]

/-- The event types of the membership topic. -/
def TOPIC_USER_ADD_GROUP : String := "admin.GROUP_MEMBERSHIP-CREATE"

/-- The event type of a membership removal. -/
def TOPIC_USER_REMOVE_GROUP : String := "admin.GROUP_MEMBERSHIP-DELETE"

/-- The payload of an event.  `eventType` is its `type`; `representationId` is
`JSON.parse(representation).id`, `none` when the parse throws. -/
structure EventPayload where
  eventType : String
  resourcePath : String
  representationId : Option (Option String)

/-- Splits a list of characters at every `/`. -/
def splitSlash : List Char → List Char → List (List Char)
  | [], current => [current.reverse]
  | c :: rest, current =>
    if c = '/' then current.reverse :: splitSlash rest [] else splitSlash rest (c :: current)

/-- The call `resourcePath.split("/")`. -/
def splitPath (resourcePath : String) : List String :=
  (splitSlash resourcePath.data []).map String.mk

/-- Every result in order, or the first error. -/
def allOk {α : Type} : List (Except Failure α) → Except Failure (List α)
  | [] => .ok []
  | x :: rest =>
    match x, allOk rest with
    | .ok a, .ok as => .ok (a :: as)
    | .error e, _ => .error e
    | _, .error e => .error e

/-- The method `onUserEdit`.  The filter `(entity) => !entity` keeps the refs that did not
resolve, so `oldGroupEntities` holds only `undefined`: the map over it throws on
`group.metadata`, and a group list that still held `undefined` would make
`createGroupEntities` throw on its first field access. -/
def onUserEdit (P : Provider) (client : KcAdminClient) (K : Constants)
    (userId : Option String) (fuelDepth fuelPages : Nat) : Except Failure (List Mutation) :=
  let oldUserEntity := (P.catalogApi.getEntities "User" userId).head?
  let oldGroupEntityRefs := (oldUserEntity.map (relationTargets "memberOf")).getD []
  let oldGroupEntities :=
    (oldGroupEntityRefs.map P.catalogApi.getEntityByRef).filter fun entity => entity.isNone
  let fetched : Except Failure (List (Option KGroup)) :=
    allOk (oldGroupEntities.map fun group =>
      match group with
      | none => .error .typeError
      | some g =>
        .ok (client.findOneGroup { id := g.keycloakId, realm := some P.options.provider.realm }))
  match fetched with
  | .error e => .error e
  | .ok groups =>
    let allGroups := groups.filter fun g => g.isNone
    if allGroups.length > 0 then .error .typeError
    else
      match createGroupEntities P client K [] fuelDepth fuelPages with
      | .error e => .error e
      | .ok filteredParsedGroups =>
        match client.findOneUser userId with
        | none => .ok []
        | some newUser =>
          let userToGroupMapping : List (String × List String) :=
            if truthy (some newUser.username) then
              jsMapSet [] newUser.username (filteredParsedGroups.map fun g => g.entity.name)
            else []
          match parseUser newUser P.options.provider.realm filteredParsedGroups
              userToGroupMapping P.options.userTransformer, oldUserEntity with
          | some newUserEntity, some old =>
            .ok [Mutation.delta (addEntitiesOperation P [newUserEntity])
              (removeEntitiesOperation P [old])]
          | _, _ => .ok []

/-- The group-record part of `{ ...parsedGroup, entity: parsedGroup }`: the spread is of the
entity, so the object has none of the fields of a group record (absent strings are empty
here). -/
def entitySpreadRecord : KGroup :=
  KGroup.mk "" "" none none 0 [] none

/-- The method `onMembershipChange`.  `currentGroupMemberships` is the `memberOf` array of
the old entity itself when it has one, so `push` and `splice` change the old entity too.  The
groups handed to the user transformer are `[{ ...parsedGroup, entity: parsedGroup }]`. -/
def onMembershipChange (P : Provider) (client : KcAdminClient)
    (eventPayload : EventPayload) (fuelPages : Nat) : Except Failure (List Mutation) :=
  if !P.connected then .error .notInitialized
  else
    let userId := (splitPath eventPayload.resourcePath).get? 1
    let groupId := (splitPath eventPayload.resourcePath).get? 3
    let oldUserEntity := (P.catalogApi.getEntities "User" userId).head?
    match client.findOneUser userId with
    | none => .ok []
    | some newUser =>
      match client.findOneGroup { id := groupId, realm := none } with
      | none => .error .typeError
      | some fetchedGroup =>
        match getAllGroupMembers client groupId P.options.provider
            P.options.provider.userQuerySize fuelPages with
        | none => .error .outOfFuel
        | some members =>
          let newGroup := fetchedGroup.setMembers members
          match parseGroup newGroup P.options.provider.realm P.options.groupTransformer with
          | none => .ok []
          | some parsedGroup =>
            match oldUserEntity with
            | none => .error .typeError
            | some old =>
              let currentGroupMemberships :=
                if eventPayload.eventType = TOPIC_USER_ADD_GROUP then
                  old.memberOf.getD [] ++ [parsedGroup.name]
                else (old.memberOf.getD []).erase parsedGroup.name
              let memberToGroupMap := jsMapSet [] old.name currentGroupMemberships
              match parseUser newUser P.options.provider.realm
                  [{ group := entitySpreadRecord, entity := parsedGroup }] memberToGroupMap
                  P.options.userTransformer with
              | none => .ok []
              | some newUserEntity =>
                .ok [Mutation.delta (addEntitiesOperation P [newUserEntity])
                  (removeEntitiesOperation P
                    [{ old with memberOf := old.memberOf.map fun _ => currentGroupMemberships }])]

/-- The method `handleGroupCreate`. -/
def handleGroupCreate (P : Provider) (client : KcAdminClient) (K : Constants)
    (resourcePath : List String) (eventPayload : EventPayload) (fuelDepth fuelPages : Nat) :
    Except Failure (List Mutation) :=
  if resourcePath.length = 2 then
    match client.findOneGroup { id := resourcePath.get? 1, realm := none } with
    | none => .ok []
    | some group =>
      match parseGroup group P.options.provider.realm P.options.groupTransformer with
      | none => .ok []
      | some groupEntity => .ok [Mutation.delta (addEntitiesOperation P [groupEntity]) []]
  else if resourcePath.length = 3 then
    match eventPayload.representationId with
    | none => .error .parseError
    | some subgroupId =>
      match client.findOneGroup { id := resourcePath.get? 1, realm := none } with
      | none => .ok []
      | some newParentGroup =>
        match client.findOneGroup { id := subgroupId, realm := none } with
        | none => .ok []
        | some subgroup =>
          match (P.catalogApi.getEntities "Group" (resourcePath.get? 1)).head? with
          | none => .ok []
          | some oldParentGroupEntity =>
            match createGroupEntities P client K [subgroup, newParentGroup]
                fuelDepth fuelPages with
            | .error e => .error e
            | .ok filteredParsedGroups =>
              if filteredParsedGroups.length = 0 then .ok []
              else
                .ok [Mutation.delta
                  (addEntitiesOperation P (filteredParsedGroups.map fun g => g.entity))
                  (removeEntitiesOperation P [oldParentGroupEntity])]
  else .ok []

/-! ## The delta of a group deletion, as the specification words it -/

/-- Appends to `seen` every element not met before. -/
def firstOccurrencesFrom (seen : List String) (l : List String) : List String :=
  l.foldl (fun acc x => if x ∈ acc then acc else acc ++ [x]) seen

/-- The distinct elements of a list, in the order of their first occurrence. -/
def firstOccurrences (l : List String) : List String :=
  firstOccurrencesFrom [] l

/-- The users a group deletion affects: the `hasMember` targets of the deleted group and of
the given subgroups, each once. -/
def affectedUserRefs (deletedGroup : Entity) (subgroups : List Entity) : List String :=
  firstOccurrences (relationTargets "hasMember" deletedGroup
    ++ (subgroups.map (relationTargets "hasMember")).flatten)

/-- The old user entity of an affected user: its catalog entity, when it carries a directory
id. -/
def oldUserEntityOf (P : Provider) (ref : String) : Option Entity :=
  match P.catalogApi.getEntityByRef ref with
  | none => none
  | some e => if truthy e.keycloakId then some e else none

/-- The recomputed entity of an affected user: built from the directory record, when the
directory still returns one, with the names of the groups the directory lists for the user,
and then as the call of the user transformer has left it (what the call resolves to is not
read). -/
def recomputedUserOf (P : Provider) (client : KcAdminClient) (K : Constants)
    (fuelDepth fuelPages : Nat) (ref : String) : Option Entity :=
  match oldUserEntityOf P ref with
  | none => none
  | some e =>
    match client.findOneUser e.keycloakId with
    | none => none
    | some u =>
      match getAllGroups client e.keycloakId P.options.provider
          P.options.provider.groupQuerySize fuelPages with
      | none => none
      | some allGroups =>
        match createGroupEntities P client K allGroups fuelDepth fuelPages with
        | .error _ => none
        | .ok filteredParsedGroups =>
          some ((P.options.userTransformer.getD noopUserTransformer).inPlace
            (userEntityOf u P.options.provider.realm (truthyNames allGroups))
            u P.options.provider.realm filteredParsedGroups)

/-- The first entity that `createGroupEntities` derives from the parent fetched again. -/
def newParentEntityOf (P : Provider) (client : KcAdminClient) (K : Constants)
    (deletedGroup : Entity) (fuelDepth fuelPages : Nat) : Option Entity :=
  match createGroupEntities P client K (refetchParent P client deletedGroup).toList
      fuelDepth fuelPages with
  | .ok parsed => parsed.head?.map fun p => p.entity
  | .error _ => none

/-- The group lists that a group deletion hands to `createGroupEntities`: the parent fetched
again, and the groups the directory lists for a user. -/
def DeleteGroupList (P : Provider) (client : KcAdminClient) (deletedGroup : Entity)
    (fuelPages : Nat) (gs : List KGroup) : Prop :=
  gs = (refetchParent P client deletedGroup).toList ∨
  ∃ id, getAllGroups client id P.options.provider P.options.provider.groupQuerySize fuelPages
    = some gs

/-- Names of the added and of the removed entities of a mutation. -/
def mutationSummary : Mutation → List String × List String
  | .full entities => (entities.map fun d => d.entity.name, [])
  | .delta added removed =>
    (added.map fun d => d.entity.name, removed.map fun d => d.entity.name)

/-! ## Reference resolution, as the specification words it -/

/-- The entity name of the emitted user with the directory user name `m` (of the last one,
should several share it). -/
def nameOfEmittedUser (users : List ParsedUser) (m : String) : String :=
  (lastEntry (users.map fun u => (u.user.username, u.entity.name)) m).getD ""

/-- The entity name of the emitted group with the directory name `c` (of the last one, should
several share it). -/
def nameOfEmittedGroup (groups : List ParsedGroup) (c : String) : String :=
  (lastEntry (groups.map fun g => (g.group.name, g.entity.name)) c).getD ""

/-- The second resolution step as the specification describes it: of the directory names held
by a group entity, those of an emitted user or group are kept, in order, and replaced by the
entity name; the others are dropped; the parent is kept only when it was emitted. -/
def resolvedGroupReferences (users : List ParsedUser) (groups : List ParsedGroup)
    (entity : Entity) : Entity :=
  { entity with
    members := some (((entity.members.getD []).filter fun m =>
      decide (m ∈ users.map fun u => u.user.username)).map (nameOfEmittedUser users))
    children := some (((entity.children.getD []).filter fun c =>
      decide (c ∈ groups.map fun g => g.group.name)).map (nameOfEmittedGroup groups))
    parent :=
      match entity.parent with
      | none => none
      | some c =>
        if c ∈ groups.map fun g => g.group.name then some (nameOfEmittedGroup groups c)
        else none }

/-- The emitted groups of a run: `filteredParsedGroups`. -/
def emittedGroups (kGroups : List KGroup) (realm : String) (options : ReadOptions) :
    List ParsedGroup :=
  parseGroups kGroups realm options.groupTransformer

/-- The emitted users of a run: `filteredParsedUsers`. -/
def emittedUsers (kUsers : List KUser) (kGroups : List KGroup) (realm : String)
    (options : ReadOptions) : List ParsedUser :=
  parseUsers kUsers realm (emittedGroups kGroups realm options)
    (buildGroupIndex (emittedGroups kGroups realm options)) options.userTransformer

/-! ## Concrete inputs -/

/-- A provider configuration used by the concrete runs. -/
def demoConfig : ProviderConfig :=
  { id := "default", baseUrl := "http://kc", realm := "demo", loginRealm := "master",
    username := some "admin", password := some "secret", clientId := none, clientSecret := none,
    userQuerySize := none, groupQuerySize := none, maxConcurrency := none,
    briefRepresentation := none }

/-- The constants used by the concrete runs. -/
def demoConstants : Constants :=
  { KEYCLOAK_ENTITY_QUERY_SIZE := 100, KEYCLOAK_BRIEF_REPRESENTATION_DEFAULT := true }

/-- An entities API over a fixed list: `find` answers the slice `[first, first + max)`. -/
def sliceApi {α : Type} (records : List α) : EntitiesAPI α :=
  { count := fun _ => .num records.length
    find := fun q => some ((records.drop q.first).take q.max) }

/-- Three user names paged two by two. -/
def threeNames : List String := ["u1", "u2", "u3"]

/-- A version 23 adapter over the tree `r > c`, the root having the id `rootId`; no group
has a member. -/
def pairClient (rootId : String) : KcAdminClient :=
  { users := sliceApi []
    groups := sliceApi [KGroup.mk rootId "r" none none 1 [] none]
    listSubGroups := fun q =>
      if q.parentId = rootId then [KGroup.mk "c1" "c" (some rootId) none 0 [] none] else []
    findOneGroup := fun q =>
      if q.id = some rootId then some (KGroup.mk rootId "r" none none 1 [] none) else none
    findOneUser := fun _ => none
    listMembers := fun _ => []
    listGroups := fun _ => []
    serverInfo := some (some "23.0.1") }

/-- The top-level listing of `pairClient`. -/
def pairTop (rootId : String) : List KGroup := [KGroup.mk rootId "r" none none 1 [] none]

/-- The legacy listing of the tree `r > c`: the root embeds its subgroup. -/
def pairTree (rootId : String) : List KGroup :=
  [KGroup.mk rootId "r" none none 0 [KGroup.mk "c1" "c" none none 0 [] none] none]

/-- A directory user used by the concrete runs. -/
def alice : KUser :=
  { id := "u-1", username := "alice", email := some "alice@example.org",
    firstName := some "Alice", lastName := none }

/-- The legacy listing `P > [G > [k], g]`. -/
def rejectTree : List KGroup :=
  [KGroup.mk "id-P" "P" none none 0
    [KGroup.mk "id-G" "G" none none 0 [KGroup.mk "id-k" "k" none none 0 [] none] none,
     KGroup.mk "id-g" "g" none none 0 [] none] none]

/-- A version 22 adapter over `rejectTree`; `alice` is a member of `G` and of `g`. -/
def rejectClient : KcAdminClient :=
  { users := sliceApi [alice]
    groups := sliceApi rejectTree
    listSubGroups := fun _ => []
    findOneGroup := fun _ => none
    findOneUser := fun _ => none
    listMembers := fun q =>
      if (q.id = some "id-G" ∨ q.id = some "id-g") ∧ q.first = 0 then [alice] else []
    listGroups := fun _ => []
    serverInfo := some (some "22.0.5") }

/-- The resolved groups of `rejectClient`: `rejectTree` flattened, stamped and enriched. -/
def rejectGroups : List KGroup :=
  [KGroup.mk "id-P" "P" none none 0
    [KGroup.mk "id-G" "G" none none 0 [KGroup.mk "id-k" "k" none none 0 [] none] none,
     KGroup.mk "id-g" "g" none none 0 [] none] (some []),
   KGroup.mk "id-G" "G" none (some "P") 0 [KGroup.mk "id-k" "k" none none 0 [] none]
    (some ["alice"]),
   KGroup.mk "id-k" "k" none (some "G") 0 [] (some []),
   KGroup.mk "id-g" "g" none (some "P") 0 [] (some ["alice"])]

/-- A group transformer that rejects the group `G` and leaves the others as they are. -/
def rejectOnly : GroupTransformer := fun entity group _ =>
  if group.name = "G" then none else some entity

/-- A group transformer that rejects the group `G` and upper-cases the name of `g`. -/
def rejectAndRename : GroupTransformer := fun entity group _ =>
  if group.name = "G" then none
  else if group.name = "g" then some { entity with name := "G" }
  else some entity

/-- Read options with the given group transformer and the default user transformer. -/
def optionsWith (gt : GroupTransformer) : ReadOptions :=
  { userQuerySize := none, groupQuerySize := none, userTransformer := none,
    groupTransformer := some gt }

/-- The names and references of a realm result. -/
def realmSummary (r : RealmResult) :
    List (String × Option (List String)) ×
      List (String × Option String × Option (List String) × Option (List String)) :=
  (r.users.map fun e => (e.name, e.memberOf),
   r.groups.map fun e => (e.name, e.parent, e.children, e.members))

/-- A catalog group entity with the given relations. -/
def catalogGroup (name id : String) (relations : List Relation) : Entity :=
  { apiVersion := "backstage.io/v1beta1", kind := "Group", ns := some "default", name := name,
    keycloakId := some id, realm := some "demo", location := none, originLocation := none,
    email := none, displayName := some name, memberOf := none, specType := some "group",
    children := some [], parent := none, members := some [], relations := some relations }

/-- A catalog user entity with the given memberships and relations. -/
def catalogUser (name id : String) (memberOf : List String) (relations : List Relation) :
    Entity :=
  { apiVersion := "backstage.io/v1beta1", kind := "User", ns := some "default", name := name,
    keycloakId := some id, realm := some "demo", location := none, originLocation := none,
    email := none, displayName := none, memberOf := some memberOf, specType := none,
    children := none, parent := none, members := none, relations := some relations }

/-- A directory user without profile fields. -/
def plainUser (id username : String) : KUser :=
  { id := id, username := username, email := none, firstName := none, lastName := none }

/-- The catalog before the deletion of `d`: `p > d > s > t`, with `bob` and `carol` in `d`,
`bob` and `dave` in `s`, `erin` in `t`. -/
def deleteCatalogEntities : List (String × Entity) :=
  [("group:default/p", catalogGroup "p" "id-p" [⟨"parentOf", "group:default/d"⟩]),
   ("group:default/d", catalogGroup "d" "id-d"
      [⟨"childOf", "group:default/p"⟩, ⟨"parentOf", "group:default/s"⟩,
       ⟨"hasMember", "user:default/bob"⟩, ⟨"hasMember", "user:default/carol"⟩]),
   ("group:default/s", catalogGroup "s" "id-s"
      [⟨"childOf", "group:default/d"⟩, ⟨"parentOf", "group:default/t"⟩,
       ⟨"hasMember", "user:default/bob"⟩, ⟨"hasMember", "user:default/dave"⟩]),
   ("group:default/t", catalogGroup "t" "id-t"
      [⟨"childOf", "group:default/s"⟩, ⟨"hasMember", "user:default/erin"⟩]),
   ("user:default/bob", catalogUser "bob" "u-bob" ["d", "s"] []),
   ("user:default/carol", catalogUser "carol" "u-carol" ["d"] []),
   ("user:default/dave", catalogUser "dave" "u-dave" ["s"] []),
   ("user:default/erin", catalogUser "erin" "u-erin" ["t"] [])]

/-- The catalog client over `deleteCatalogEntities`. -/
def deleteCatalog : CatalogApi :=
  { getEntities := fun kind id =>
      (deleteCatalogEntities.map Prod.snd).filter fun e => e.kind = kind ∧ e.keycloakId = id
    getEntityByRef := jsMapGet deleteCatalogEntities }

/-- The provider over `deleteCatalog` with the given user transformer. -/
def deleteProvider (userTransformer : Option UserTransformer) : Provider :=
  { options :=
      { id := "default", provider := demoConfig, userTransformer := userTransformer,
        groupTransformer := none }
    connected := true
    catalogApi := deleteCatalog }

/-- The directory after the deletion of `d`: the group `p` without subgroups and the given
users, none of them in a group. -/
def deleteClient (present : List KUser) : KcAdminClient :=
  { users := sliceApi present
    groups := sliceApi [KGroup.mk "id-p" "p" none none 0 [] none]
    listSubGroups := fun _ => []
    findOneGroup := fun q =>
      if q.id = some "id-p" then some (KGroup.mk "id-p" "p" none none 0 [] none) else none
    findOneUser := fun id => present.find? fun u => some u.id = id
    listMembers := fun _ => []
    listGroups := fun _ => []
    serverInfo := some (some "24.0.0") }

/-- The directory users `bob`, `carol` and `dave`. -/
def threeUsers : List KUser :=
  [plainUser "u-bob" "bob", plainUser "u-carol" "carol", plainUser "u-dave" "dave"]

/-- A user transformer that rejects every user, `async () => undefined`. -/
def rejectAllUsers : UserTransformer :=
  { resolved := fun _ _ _ _ => none
    inPlace := fun entity _ _ _ => entity }

/-- Names and memberships of the added and of the removed entities of a mutation. -/
def membershipSummary : Mutation →
    List (String × Option (List String)) × List (String × Option (List String))
  | .full entities => (entities.map fun d => (d.entity.name, d.entity.memberOf), [])
  | .delta added removed =>
    (added.map fun d => (d.entity.name, d.entity.memberOf),
     removed.map fun d => (d.entity.name, d.entity.memberOf))

/-- A catalog in which `bob` is a member of the group `d`, through the given ref. -/
def editCatalog (groupRef : String) : CatalogApi :=
  { getEntities := fun kind id =>
      if kind = "User" ∧ id = some "u-bob" then
        [catalogUser "bob" "u-bob" ["d"] [⟨"memberOf", groupRef⟩]]
      else []
    getEntityByRef := fun ref =>
      if ref = "group:default/d" then some (catalogGroup "d" "id-d" []) else none }

/-- The provider over `editCatalog`, with the default transformers. -/
def editProvider (groupRef : String) : Provider :=
  { options :=
      { id := "default", provider := demoConfig, userTransformer := none,
        groupTransformer := none }
    connected := true
    catalogApi := editCatalog groupRef }

/-- A directory in which `bob` and the group `d` are live. -/
def editClient : KcAdminClient :=
  { users := sliceApi [plainUser "u-bob" "bob"]
    groups := sliceApi [KGroup.mk "id-d" "d" none none 0 [] none]
    listSubGroups := fun _ => []
    findOneGroup := fun q =>
      if q.id = some "id-d" then some (KGroup.mk "id-d" "d" none none 0 [] none) else none
    findOneUser := fun id => if id = some "u-bob" then some (plainUser "u-bob" "bob") else none
    listMembers := fun _ => []
    listGroups := fun _ => []
    serverInfo := some (some "24.0.0") }

/-- A catalog whose user entity for `u-bob` carries the given name and is a member of `d`. -/
def membershipCatalog (entityName : String) : CatalogApi :=
  { getEntities := fun kind id =>
      if kind = "User" ∧ id = some "u-bob" then [catalogUser entityName "u-bob" ["d"] []]
      else []
    getEntityByRef := fun _ => none }

/-- The provider over `membershipCatalog` with the given user transformer. -/
def membershipProvider (entityName : String) (userTransformer : Option UserTransformer) :
    Provider :=
  { options :=
      { id := "default", provider := demoConfig, userTransformer := userTransformer,
        groupTransformer := none }
    connected := true
    catalogApi := membershipCatalog entityName }

/-- A directory with the user `u-bob` of the given user name and the group `s`. -/
def membershipClient (username : String) : KcAdminClient :=
  { users := sliceApi [plainUser "u-bob" username]
    groups := sliceApi [KGroup.mk "id-s" "s" none none 0 [] none]
    listSubGroups := fun _ => []
    findOneGroup := fun q =>
      if q.id = some "id-s" then some (KGroup.mk "id-s" "s" none none 0 [] none) else none
    findOneUser := fun id =>
      if id = some "u-bob" then some (plainUser "u-bob" username) else none
    listMembers := fun q =>
      if q.id = some "id-s" ∧ q.first = 0 then [plainUser "u-bob" username] else []
    listGroups := fun _ => []
    serverInfo := some (some "24.0.0") }

/-- The event of adding the user `u-bob` to the group `id-s`. -/
def addToGroupEvent : EventPayload :=
  { eventType := "admin.GROUP_MEMBERSHIP-CREATE", resourcePath := "users/u-bob/groups/id-s",
    representationId := none }

/-- A version 24 directory in which the group `p` has the new subgroup `n`. -/
def createClient : KcAdminClient :=
  { users := sliceApi []
    groups := sliceApi [KGroup.mk "id-p" "p" none none 1 [] none]
    listSubGroups := fun q =>
      if q.parentId = "id-p" then [KGroup.mk "id-n" "n" (some "id-p") none 0 [] none] else []
    findOneGroup := fun q =>
      if q.id = some "id-p" then some (KGroup.mk "id-p" "p" none none 1 [] none)
      else if q.id = some "id-n" then some (KGroup.mk "id-n" "n" (some "id-p") none 0 [] none)
      else none
    findOneUser := fun _ => none
    listMembers := fun _ => []
    listGroups := fun _ => []
    serverInfo := some (some "24.0.0") }

/-- A catalog that holds the entity of the group `p`. -/
def createCatalog : CatalogApi :=
  { getEntities := fun kind id =>
      if kind = "Group" ∧ id = some "id-p" then [catalogGroup "p" "id-p" []] else []
    getEntityByRef := fun _ => none }

/-- The provider over `createCatalog`, with the default transformers. -/
def createProvider : Provider :=
  { options :=
      { id := "default", provider := demoConfig, userTransformer := none,
        groupTransformer := none }
    connected := true
    catalogApi := createCatalog }

/-- The event of creating the subgroup `id-n` under the group `id-p`. -/
def createSubgroupEvent : EventPayload :=
  { eventType := "admin.GROUP-CREATE", resourcePath := "groups/id-p/children",
    representationId := some (some "id-n") }

/-- Both results, one after the other, when both exist. -/
def bothAppended {α : Type} : Option (List α) → Option (List α) → Option (List α)
  | some x, some y => some (x ++ y)
  | _, _ => none

/-! ## User events and event dispatch -/

/-- The event type of a user creation. -/
def TOPIC_USER_CREATE : String := "admin.USER-CREATE"

/-- The event type of a user deletion. -/
def TOPIC_USER_DELETE : String := "admin.USER-DELETE"

/-- The event type of a user update. -/
def TOPIC_USER_UPDATE : String := "admin.USER-UPDATE"

/-- The event type of a group creation. -/
def TOPIC_GROUP_CREATE : String := "admin.GROUP-CREATE"

/-- The event type of a group deletion. -/
def TOPIC_GROUP_DELETE : String := "admin.GROUP-DELETE"

/-- The event type of a group update. -/
def TOPIC_GROUP_UPDATE : String := "admin.GROUP-UPDATE"

/-- The method `handleUserCreate`. -/
def handleUserCreate (P : Provider) (client : KcAdminClient) (userId : Option String) :
    Except Failure (List Mutation) :=
  match client.findOneUser userId with
  | none => .ok []
  | some userAdded =>
    match parseUser userAdded P.options.provider.realm [] [] P.options.userTransformer with
    | none => .ok []
    | some userEntity => .ok [Mutation.delta (addEntitiesOperation P [userEntity]) []]

/-- The method `handleUserDelete`. -/
def handleUserDelete (P : Provider) (userId : Option String) : Except Failure (List Mutation) :=
  match (P.catalogApi.getEntities "User" userId).head? with
  | none => .ok []
  | some userEntity => .ok [Mutation.delta [] (removeEntitiesOperation P [userEntity])]

/-- The method `onUserEvent`. -/
def onUserEvent (P : Provider) (client : KcAdminClient) (K : Constants)
    (eventPayload : EventPayload) (fuelDepth fuelPages : Nat) : Except Failure (List Mutation) :=
  if !P.connected then .error .notInitialized
  else
    let userId := (splitPath eventPayload.resourcePath).get? 1
    let created :=
      if eventPayload.eventType = TOPIC_USER_CREATE then handleUserCreate P client userId
      else .ok []
    match created with
    | .error e => .error e
    | .ok m1 =>
      let deleted :=
        if eventPayload.eventType = TOPIC_USER_DELETE then handleUserDelete P userId
        else .ok []
      match deleted with
      | .error e => .error e
      | .ok m2 =>
        let edited :=
          if eventPayload.eventType = TOPIC_USER_UPDATE then
            onUserEdit P client K userId fuelDepth fuelPages
          else .ok []
        match edited with
        | .error e => .error e
        | .ok m3 => .ok (m1 ++ m2 ++ m3)

/-- The method `onGroupEvent`. -/
def onGroupEvent (P : Provider) (client : KcAdminClient) (K : Constants)
    (eventPayload : EventPayload) (fuelDepth fuelPages : Nat) : Except Failure (List Mutation) :=
  if !P.connected then .error .notInitialized
  else
    let resourcePath := splitPath eventPayload.resourcePath
    let created :=
      if eventPayload.eventType = "admin.GROUP-CREATE" then
        handleGroupCreate P client K resourcePath eventPayload fuelDepth fuelPages
      else .ok []
    match created with
    | .error e => .error e
    | .ok m1 =>
      let deleted :=
        if eventPayload.eventType = "admin.GROUP-DELETE" then
          handleGroupDelete P client K resourcePath fuelDepth fuelPages
        else .ok []
      match deleted with
      | .error e => .error e
      | .ok m2 => .ok (m1 ++ m2)

/-! ## Authentication and the token guard -/

/-- What `jwt.decode(accessToken)` yields: nothing usable (`null` or a string), or a payload
object with its `exp` claim in seconds, if any. -/
inductive AccessToken where
  | undecodable
  | payload (exp : Option Nat)
deriving DecidableEq, Repr

/-- The argument of `kcAdminClient.auth`. -/
structure Credentials where
  grantType : String
  clientId : Option String
  username : Option String
  password : Option String
  clientSecret : Option String
deriving DecidableEq, Repr

/-- The credentials that `authenticate` builds, `none` when it throws the input error. -/
def credentialsOf (provider : ProviderConfig) : Option Credentials :=
  if truthy provider.username && truthy provider.password then
    some { grantType := "password", clientId := some (provider.clientId.getD "admin-cli"),
           username := provider.username, password := provider.password, clientSecret := none }
  else if truthy provider.clientId && truthy provider.clientSecret then
    some { grantType := "client_credentials", clientId := provider.clientId,
           username := none, password := none, clientSecret := provider.clientSecret }
  else none

/-- One run of `authenticate`: the calls of `kcAdminClient.auth` it issues and the token the
remote installs, or the error it rethrows. -/
structure AuthRun where
  calls : List Credentials
  result : Except Failure AccessToken

/-- The function `authenticate` of `authenticate.cjs.js`; `remote` is `kcAdminClient.auth`,
answering the token it installs, or `none` when it rejects. -/
def authenticate (remote : Credentials → Option AccessToken) (provider : ProviderConfig) :
    AuthRun :=
  match credentialsOf provider with
  | none => { calls := [], result := .error .inputError }
  | some credentials =>
    match remote credentials with
    | none => { calls := [credentials], result := .error .authRejected }
    | some token => { calls := [credentials], result := .ok token }

/-- The client with the module variable `refreshTokenPromise`: the refresh in flight, if any,
given by what it settles to. -/
structure GuardState where
  accessToken : Option AccessToken
  refreshTokenPromise : Option (Except Failure AccessToken)

/-- The test `decodedToken && typeof decodedToken === "object" && decodedToken.exp`: the
`exp` claim when it is there and not zero. -/
def usableExp : AccessToken → Option Nat
  | .undecodable => none
  | .payload none => none
  | .payload (some exp) => if exp = 0 then none else some exp

/-- The test `now > tokenExpiry - 3e4` with `tokenExpiry = exp * 1e3`, in milliseconds. -/
def needsRefresh (now exp : Nat) : Bool :=
  decide (exp * 1000 < now + 30000)

/-- The statement `await refreshTokenPromise`: nothing in flight resolves at once; a refresh
that settles installs its token, and its `finally` clears the variable. -/
def awaitRefresh (s : GuardState) : Except Failure GuardState :=
  match s.refreshTokenPromise with
  | none => .ok s
  | some (.ok token) => .ok { accessToken := some token, refreshTokenPromise := none }
  | some (.error e) => .error e

/-- One call of `ensureTokenValid` run to its end, at the time `now` (milliseconds), with
the calls of `kcAdminClient.auth` it issues. -/
def ensureTokenValid (remote : Credentials → Option AccessToken) (provider : ProviderConfig)
    (now : Nat) (s : GuardState) : List Credentials × Except Failure GuardState :=
  match s.accessToken with
  | none =>
    let run := authenticate remote provider
    (run.calls,
      match run.result with
      | .ok token => .ok { s with accessToken := some token }
      | .error e => .error e)
  | some token =>
    match usableExp token with
    | none => ([], .ok s)
    | some exp =>
      if needsRefresh now exp then
        let run := authenticate remote provider
        (run.calls, awaitRefresh { s with refreshTokenPromise := some run.result })
      else ([], awaitRefresh s)

/-- The token has strictly more than thirty seconds left at the time `now`. -/
def validBeyond30s (now : Nat) (token : AccessToken) : Prop :=
  ∃ exp, token = .payload (some exp) ∧ now + 30000 < exp * 1000

/-- The token has at least thirty seconds left at the time `now`. -/
def validAtLeast30s (now : Nat) (token : AccessToken) : Prop :=
  ∃ exp, token = .payload (some exp) ∧ now + 30000 ≤ exp * 1000

/-- The guard while several calls of `ensureTokenValid` are under way: the token, the
`authenticate` call whose promise `refreshTokenPromise` holds, the number of `authenticate`
calls so far, and for every caller that has reached its `await` the call it waits for
(`none` for `await null`). -/
structure GuardRun where
  accessToken : Option AccessToken
  refreshTokenPromise : Option Nat
  authenticateCalls : Nat
  awaiting : List (Option Nat)
deriving DecidableEq, Repr

/-- The part of `ensureTokenValid` that runs before its first `await` gives the control
back: a call started while no `authenticate` has settled. -/
def startEnsureTokenValid (now : Nat) (s : GuardRun) : GuardRun :=
  match s.accessToken with
  | none =>
    { s with authenticateCalls := s.authenticateCalls + 1
             awaiting := s.awaiting ++ [some s.authenticateCalls] }
  | some token =>
    match usableExp token with
    | none => s
    | some exp =>
      if needsRefresh now exp then
        { s with refreshTokenPromise := some s.authenticateCalls
                 authenticateCalls := s.authenticateCalls + 1
                 awaiting := s.awaiting ++ [some s.authenticateCalls] }
      else { s with awaiting := s.awaiting ++ [s.refreshTokenPromise] }

/-- The guard after `k` calls started one after the other, none of them resumed. -/
def startCalls (now : Nat) : Nat → GuardRun → GuardRun
  | 0, s => s
  | k + 1, s => startCalls now k (startEnsureTokenValid now s)

/-! ## `readProviderConfig` -/

/-- What the configuration getters answer for one provider (`schedule` left aside). -/
structure RawProviderConfig where
  baseUrl : Option String
  realm : Option String
  loginRealm : Option String
  username : Option String
  password : Option String
  clientId : Option String
  clientSecret : Option String
  userQuerySize : Option Nat
  groupQuerySize : Option Nat
  maxConcurrency : Option Nat
  briefRepresentation : Option Bool
deriving DecidableEq, Repr

/-- The function `readProviderConfig` of `config.cjs.js`; `getString("baseUrl")` throws when
the value is missing. -/
def readProviderConfig (id : String) (raw : RawProviderConfig) : Except Failure ProviderConfig :=
  match raw.baseUrl with
  | none => .error .configError
  | some baseUrl =>
    if truthy raw.clientId && !truthy raw.clientSecret then .error .inputError
    else if truthy raw.clientSecret && !truthy raw.clientId then .error .inputError
    else if truthy raw.username && !truthy raw.password then .error .inputError
    else if truthy raw.password && !truthy raw.username then .error .inputError
    else
      .ok { id := id, baseUrl := baseUrl, loginRealm := raw.loginRealm.getD "master",
            realm := raw.realm.getD "master", username := raw.username,
            password := raw.password, clientId := raw.clientId,
            clientSecret := raw.clientSecret, userQuerySize := raw.userQuerySize,
            groupQuerySize := raw.groupQuerySize, maxConcurrency := raw.maxConcurrency,
            briefRepresentation := raw.briefRepresentation }

/-- A catalog that holds nothing. -/
def emptyCatalog : CatalogApi :=
  { getEntities := fun _ _ => [], getEntityByRef := fun _ => none }

/-- The provider over `emptyCatalog`, with the default transformers. -/
def emptyCatalogProvider : Provider :=
  { options :=
      { id := "default", provider := demoConfig, userTransformer := none,
        groupTransformer := none }
    connected := true
    catalogApi := emptyCatalog }

/-- A directory with the user `u-bob` and no group at all. -/
def grouplessClient : KcAdminClient :=
  { users := sliceApi [plainUser "u-bob" "bob"]
    groups := sliceApi []
    listSubGroups := fun _ => []
    findOneGroup := fun _ => none
    findOneUser := fun id => if id = some "u-bob" then some (plainUser "u-bob" "bob") else none
    listMembers := fun _ => []
    listGroups := fun _ => []
    serverInfo := some (some "24.0.0") }

/-- An event of the given type on the given resource path. -/
def eventOf (eventType resourcePath : String) : EventPayload :=
  { eventType := eventType, resourcePath := resourcePath, representationId := none }

/-- A remote that installs a token expiring at second 1000000. -/
def freshRemote : Credentials → Option AccessToken :=
  fun _ => some (.payload (some 1000000))

/-- A guard whose token expires at second 100, nothing in flight. -/
def guardExpiringAt100 : GuardState :=
  { accessToken := some (.payload (some 100)), refreshTokenPromise := none }

/-- A guard whose token cannot be decoded, nothing in flight. -/
def guardUndecodable : GuardState :=
  { accessToken := some .undecodable, refreshTokenPromise := none }

/-- Several callers about to start on a token that expires at second 100. -/
def runExpiringAt100 : GuardRun :=
  { accessToken := some (.payload (some 100)), refreshTokenPromise := none,
    authenticateCalls := 0, awaiting := [] }

/-- A raw configuration with the given credentials. -/
def rawConfig (username password clientId clientSecret : Option String) : RawProviderConfig :=
  { baseUrl := some "http://kc", realm := some "demo", loginRealm := none,
    username := username, password := password, clientId := clientId,
    clientSecret := clientSecret, userQuerySize := none, groupQuerySize := none,
    maxConcurrency := none, briefRepresentation := none }

/-- The `find` call of page `i` in `getEntities`. -/
def pageQuery (config : ProviderConfig) (K : Constants) (size i : Nat) : FindQuery :=
  { realm := config.realm, max := size, first := i * size, briefRepresentation := briefOf config K }

/-- The `listMembers` call of page `i` in `getAllGroupMembers`. -/
def memberQuery (groupId : Option String) (config : ProviderConfig) (userQuerySize : Option Nat)
    (i : Nat) : PageQuery :=
  { id := groupId, max := querySizeOr100 userQuerySize, realm := config.realm,
    first := i * querySizeOr100 userQuerySize }

/-- A directory whose group `id-s` has the three members `u1`, `u2`, `u3`, listed from any
offset. -/
def threeMemberClient : KcAdminClient :=
  { users := sliceApi []
    groups := sliceApi [KGroup.mk "id-s" "s" none none 0 [] none]
    listSubGroups := fun _ => []
    findOneGroup := fun _ => none
    findOneUser := fun _ => none
    listMembers := fun q =>
      (([plainUser "u-1" "u1", plainUser "u-2" "u2", plainUser "u-3" "u3"].drop q.first).take
        q.max)
    listGroups := fun _ => []
    serverInfo := some (some "24.0.0") }

/-- The directory `createClient` (the group `p` with its listed subgroup `n`) behind a server
that reports the given version. -/
def versionedClient (version : String) : KcAdminClient :=
  { createClient with serverInfo := some (some version) }

/-- An entities API whose pages of the given indices fail, the others being slices of the
records. -/
def flakyApi {α : Type} (records : List α) (size : Nat) (failing : List Nat) : EntitiesAPI α :=
  { count := fun _ => .num records.length
    find := fun q =>
      if q.first / size ∈ failing then none else some ((records.drop q.first).take q.max) }

/-! ## Pre-order of a group tree, as the specification words it -/

mutual
/-- Depth-first pre-order of the tree embedded in a group: the group itself first, then the
subtree of each subgroup in listing order; every node comes with the name of its parent node
(`none` at the root). -/
def preorderWithParent : Option String → KGroup → List (Option String × KGroup)
  | parentName, .mk i n pid par c subs m =>
    (parentName, .mk i n pid par c subs m) :: preorderForest n subs
/-- The pre-order of the subtrees of the subgroups of a node named `parentName`. -/
def preorderForest (parentName : String) : List KGroup → List (Option String × KGroup)
  | [] => []
  | g :: rest => preorderWithParent (some parentName) g ++ preorderForest parentName rest
end

mutual
/-- Number of nodes of the tree embedded in a group. -/
def treeSize : KGroup → Nat
  | .mk _ _ _ _ _ subs _ => forestSize subs + 1
/-- Number of nodes of a list of trees. -/
def forestSize : List KGroup → Nat
  | [] => 0
  | g :: rest => treeSize g + forestSize rest
end

/-- A node as `traverseGroups` yields it: with its `parent` set to the name of its parent
node, the root as it is. -/
def yieldedAs (entry : Option String × KGroup) : KGroup :=
  match entry.1 with
  | none => entry.2
  | some parentName => entry.2.setParent (some parentName)

/-- The legacy listing of two groups named `team`, under `a` and under `b`; `alice` is a
member of both. -/
def twinTree : List KGroup :=
  [KGroup.mk "id-a" "a" none none 0 [KGroup.mk "id-t1" "team" none none 0 [] none] none,
   KGroup.mk "id-b" "b" none none 0 [KGroup.mk "id-t2" "team" none none 0 [] none] none]

/-- A version 22 adapter over `twinTree`. -/
def twinClient : KcAdminClient :=
  { users := sliceApi [alice]
    groups := sliceApi twinTree
    listSubGroups := fun _ => []
    findOneGroup := fun _ => none
    findOneUser := fun _ => none
    listMembers := fun q =>
      if (q.id = some "id-t1" ∨ q.id = some "id-t2") ∧ q.first = 0 then [alice] else []
    listGroups := fun _ => []
    serverInfo := some (some "22.0.5") }

/-- A group transformer that names every entity after the directory id of its group. -/
def nameById : GroupTransformer := fun entity group _ =>
  some { entity with name := group.id }

/-- Read options with the default transformers. -/
def defaultOptions : ReadOptions :=
  { userQuerySize := none, groupQuerySize := none, userTransformer := none,
    groupTransformer := none }

/-- What the index holds once a group named `n` has been read up to the members `done`: lists
without duplicates, made of earlier names and of `n`, with `n` only for the members `done`. -/
def IndexUpTo (names : List String) (n : String) (done : List String)
    (index : List (String × List String)) : Prop :=
  ∀ k v, jsMapGet index k = some v →
    v.Nodup ∧ (∀ x ∈ v, x ∈ names ∨ x = n) ∧ (n ∈ v → k ∈ done)

/-- What the index holds between two groups: lists without duplicates, made of the names of
the groups read so far. -/
def IndexOver (names : List String) (index : List (String × List String)) : Prop :=
  ∀ k v, jsMapGet index k = some v → v.Nodup ∧ ∀ x ∈ v, x ∈ names

/-! ## `read` and the event subscription -/

/-- The first test of `onEvent`: the type is one of the three user events. -/
def isUserEventType (eventType : String) : Bool :=
  eventType = TOPIC_USER_CREATE || eventType = TOPIC_USER_DELETE ||
    eventType = TOPIC_USER_UPDATE

/-- The second test of `onEvent`: the type is one of the two membership events. -/
def isMembershipEventType (eventType : String) : Bool :=
  eventType = TOPIC_USER_ADD_GROUP || eventType = TOPIC_USER_REMOVE_GROUP

/-- The third test of `onEvent`: the type is one of the three group events. -/
def isGroupEventType (eventType : String) : Bool :=
  eventType = TOPIC_GROUP_CREATE || eventType = TOPIC_GROUP_UPDATE ||
    eventType = TOPIC_GROUP_DELETE

/-- The `onEvent` callback that `connect` subscribes: it authenticates a new client, then
hands the event to the handlers whose test holds. -/
def onEvent (P : Provider) (client : KcAdminClient) (remote : Credentials → Option AccessToken)
    (K : Constants) (eventPayload : EventPayload) (fuelDepth fuelPages : Nat) :
    Except Failure (List Mutation) :=
  match (authenticate remote P.options.provider).result with
  | .error e => .error e
  | .ok _ =>
    let user :=
      if isUserEventType eventPayload.eventType then
        onUserEvent P client K eventPayload fuelDepth fuelPages
      else .ok []
    match user with
    | .error e => .error e
    | .ok m1 =>
      let membership :=
        if isMembershipEventType eventPayload.eventType then
          onMembershipChange P client eventPayload fuelPages
        else .ok []
      match membership with
      | .error e => .error e
      | .ok m2 =>
        let group :=
          if isGroupEventType eventPayload.eventType then
            onGroupEvent P client K eventPayload fuelDepth fuelPages
          else .ok []
        match group with
        | .error e => .error e
        | .ok m3 => .ok (m1 ++ m2 ++ m3)

/-- The options that `read` passes to `readKeycloakRealm`. -/
def readOptionsOf (P : Provider) : ReadOptions :=
  { userQuerySize := P.options.provider.userQuerySize
    groupQuerySize := P.options.provider.groupQuerySize
    userTransformer := P.options.userTransformer
    groupTransformer := P.options.groupTransformer }

/-- The constant `concurrency` of `read`: `provider.maxConcurrency ?? 20`. -/
def concurrencyOf (provider : ProviderConfig) : Nat :=
  provider.maxConcurrency.getD 20

/-- The method `read`; the result is the list of mutations applied to the sink.  The limiter
refuses the width zero. -/
def read (P : Provider) (client : KcAdminClient) (remote : Credentials → Option AccessToken)
    (K : Constants) (taskInstanceId : String) (fuelDepth fuelPages : Nat) :
    Except Failure (List Mutation) :=
  if !P.connected then .error .notInitialized
  else
    match (authenticate remote P.options.provider).result with
    | .error e => .error e
    | .ok _ =>
      if concurrencyOf P.options.provider = 0 then .error .typeError
      else
        match readKeycloakRealm client P.options.provider K taskInstanceId (readOptionsOf P)
            fuelDepth fuelPages with
        | .error e => .error e
        | .ok realm =>
          .ok [Mutation.full ((realm.users ++ realm.groups).map fun entity =>
            { locationKey := "keycloak-org-provider:" ++ P.options.id
              entity := withLocations P.options.provider.baseUrl P.options.provider.realm
                entity })]

/-! ## The transformer extension point -/

/-- The two variables `userTransformer` and `groupTransformer` of `register`. -/
structure ExtensionPoint where
  userTransformer : Option UserTransformer
  groupTransformer : Option GroupTransformer

/-- The method `setUserTransformer`; the argument is `none` when the caller passes nothing. -/
def setUserTransformer (transformer : Option UserTransformer) (s : ExtensionPoint) :
    Except Failure ExtensionPoint :=
  if s.userTransformer.isSome then .error .inputError
  else .ok { s with userTransformer := transformer }

/-- The method `setGroupTransformer`; the argument is `none` when the caller passes nothing. -/
def setGroupTransformer (transformer : Option GroupTransformer) (s : ExtensionPoint) :
    Except Failure ExtensionPoint :=
  if s.groupTransformer.isSome then .error .inputError
  else .ok { s with groupTransformer := transformer }

/-- A call on the extension point. -/
inductive SetterCall where
  | user (transformer : Option UserTransformer)
  | group (transformer : Option GroupTransformer)

/-- One call: the state after it (unchanged when the call throws) and whether it threw. -/
def applyCall (s : ExtensionPoint) : SetterCall → ExtensionPoint × Bool
  | .user t =>
    match setUserTransformer t s with
    | .ok s' => (s', false)
    | .error _ => (s, true)
  | .group t =>
    match setGroupTransformer t s with
    | .ok s' => (s', false)
    | .error _ => (s, true)

/-- A sequence of calls: the final state and, call by call, whether it threw. -/
def applyCalls : ExtensionPoint → List SetterCall → ExtensionPoint × List Bool
  | s, [] => (s, [])
  | s, call :: rest =>
    ((applyCalls (applyCall s call).1 rest).1,
      (applyCall s call).2 :: (applyCalls (applyCall s call).1 rest).2)

/-- The call is a call of `setUserTransformer`. -/
def SetterCall.isUser : SetterCall → Bool
  | .user _ => true
  | .group _ => false

/-! ## Entity names -/

/-- A valid catalog entity name: 1 to 63 characters, each among the letters, the digits, `-`,
`_` and `.`, the first and the last a letter or a digit. -/
def isValidEntityName (name : String) : Bool :=
  decide (1 ≤ name.data.length) && decide (name.data.length ≤ 63) &&
    name.data.all (fun c => c.isAlphanum || c = '-' || c = '_' || c = '.') &&
    (name.data.head?.map Char.isAlphanum).getD false &&
    (name.data.getLast?.map Char.isAlphanum).getD false

/-- A user entity with the given name, as `parseUser` builds it. -/
def userNamed (name : String) : Entity :=
  userEntityOf (plainUser "u-1" name) "demo" []

/-- An email address of 72 characters. -/
def longEmail : String :=
  "firstname.lastname.with.a.rather.long.local.part.indeed@mail.example.org"

/-! ## Batches of concurrent tasks -/

/-- How the tasks of a `Promise.all` batch are started: each wrapped in `limit(...)` of the
given width, or by a plain `async` callback. -/
inductive Launch where
  | throughLimit (width : Nat)
  | direct
deriving DecidableEq, Repr

/-- A batch under way: the tasks not started yet, the tasks running (each awaits its fetches
one after the other, so it has at most one fetch in flight) and the tasks settled. -/
structure BatchState where
  waiting : Nat
  running : Nat
  settled : Nat
deriving DecidableEq, Repr

/-- Modelled from the spec: the Bounded Fetch Scheduler (the limiter of `p-limit`, which is
not part of the sources) is a counting semaphore of the given width: of the tasks handed to it
it starts as many as the width allows and keeps the others waiting.  A batch mapped with a
plain `async` callback starts every task at once. -/
def startBatch : Launch → Nat → BatchState
  | .throughLimit width, tasks =>
    { waiting := tasks - min tasks width, running := min tasks width, settled := 0 }
  | .direct, tasks => { waiting := 0, running := tasks, settled := 0 }

/-- Modelled from the spec: one running task settles, and the semaphore starts a waiting task
in its place. -/
def settleOne (s : BatchState) : BatchState :=
  if s.running = 0 then s
  else if s.waiting = 0 then
    { waiting := 0, running := s.running - 1, settled := s.settled + 1 }
  else { waiting := s.waiting - 1, running := s.running, settled := s.settled + 1 }

/-- The batch after `k` tasks have settled. -/
def settleMany : Nat → BatchState → BatchState
  | 0, s => s
  | k + 1, s => settleMany k (settleOne s)

/-- The launch of the page batch of `getEntities`: `limit(() => getEntitiesFn().then(...))`. -/
def getEntitiesLaunch (provider : ProviderConfig) : Launch :=
  .throughLimit (concurrencyOf provider)

/-- The launch of the enrichment batch of `readKeycloakRealm`:
`rawKGroups.map((g) => limit(async () => ...))`. -/
def readKeycloakRealmLaunch (provider : ProviderConfig) : Launch :=
  .throughLimit (concurrencyOf provider)

/-- The launch of the enrichment batch of `createGroupEntities`:
`rawKGroups.map(async (g) => ...)`, no limiter being in scope. -/
def createGroupEntitiesLaunch : Launch :=
  .direct

/-- The list `rawKGroups` of `readKeycloakRealm` and `createGroupEntities`. -/
def rawKGroupsOf (client : KcAdminClient) (config : ProviderConfig) (K : Constants)
    (v23 : Bool) (fuelDepth : Nat) (topLevel : List KGroup) : Option (List KGroup) :=
  if v23 then processGroupsRecursively client config K fuelDepth topLevel
  else some (flattenEmbedded topLevel)

/-- The enrichment batch of `createGroupEntities` when it starts: one task per raw group. -/
def createGroupEntitiesBatch (P : Provider) (client : KcAdminClient) (K : Constants)
    (allGroups : List KGroup) (fuelDepth : Nat) : Option BatchState :=
  match client.serverInfo with
  | none => none
  | some version =>
    (rawKGroupsOf client P.options.provider K (isVersion23orHigher version) fuelDepth
      allGroups).map fun raw => startBatch createGroupEntitiesLaunch raw.length

/-- The enrichment batch of `readKeycloakRealm` when it starts: one task per raw group. -/
def readKeycloakRealmBatch (client : KcAdminClient) (config : ProviderConfig) (K : Constants)
    (topLevel : List KGroup) (fuelDepth : Nat) : Option BatchState :=
  match client.serverInfo with
  | none => none
  | some version =>
    (rawKGroupsOf client config K (isVersion23orHigher version) fuelDepth topLevel).map
      fun raw => startBatch (readKeycloakRealmLaunch config) raw.length

/-- The provider `createProvider` with `maxConcurrency` set to one. -/
def narrowProvider : Provider :=
  { createProvider with
    options := { createProvider.options with
      provider := { demoConfig with maxConcurrency := some 1 } } }

/-- A catalog whose user entity `bob` for `u-bob` has the given memberships. -/
def memberOfCatalog (memberOf : List String) : CatalogApi :=
  { getEntities := fun kind id =>
      if kind = "User" ∧ id = some "u-bob" then [catalogUser "bob" "u-bob" memberOf []]
      else []
    getEntityByRef := fun _ => none }

/-- The provider over `memberOfCatalog`, with the default transformers. -/
def memberOfProvider (memberOf : List String) : Provider :=
  { options :=
      { id := "default", provider := demoConfig, userTransformer := none,
        groupTransformer := none }
    connected := true
    catalogApi := memberOfCatalog memberOf }

/-- The provider `emptyCatalogProvider` before `connect`. -/
def unconnectedProvider : Provider :=
  { emptyCatalogProvider with connected := false }

/-- A remote that rejects every credential. -/
def rejectingRemote : Credentials → Option AccessToken :=
  fun _ => none

/-- The seven event types that the specification names as handled. -/
def namedEventTypes : List String :=
  [TOPIC_USER_CREATE, TOPIC_USER_UPDATE, TOPIC_USER_DELETE, TOPIC_USER_ADD_GROUP,
    TOPIC_USER_REMOVE_GROUP, TOPIC_GROUP_CREATE, TOPIC_GROUP_DELETE]

/-! ## The steps of the entry points -/

/-- A step that the body of an entry point takes: a query of the catalog, a call of the
directory, a call of another method or function (which takes the steps of its own body), or a
mutation applied to the sink.  Logging, metrics and module imports are not steps. -/
inductive Step where
  | catalogQuery (kind : String) (keycloakId : Option String)
  | directoryCall (operation : String) (id : Option String)
  | call (method : String)
  | applyMutation (mutation : Mutation)

/-- A run of an entry point: the steps of its body in the order they are taken, and how the
run ends. -/
structure HandlerRun where
  steps : List Step
  result : Except Failure (List Mutation)

/-- One of the three guarded calls of `onUserEvent` and `onGroupEvent`: when the test holds,
the method is called and awaited. -/
def guardedCall (test : Bool) (method : String) (result : Except Failure (List Mutation)) :
    HandlerRun :=
  if test then { steps := [.call method], result := result }
  else { steps := [], result := .ok [] }

/-- The method `onUserEvent`, with the steps of its body: the test of the connection comes
first. -/
def onUserEventRun (P : Provider) (client : KcAdminClient) (K : Constants)
    (eventPayload : EventPayload) (fuelDepth fuelPages : Nat) : HandlerRun :=
  if !P.connected then { steps := [], result := .error .notInitialized }
  else
    let userId := (splitPath eventPayload.resourcePath).get? 1
    let created := guardedCall (eventPayload.eventType = TOPIC_USER_CREATE) "handleUserCreate"
      (handleUserCreate P client userId)
    match created.result with
    | .error e => { steps := created.steps, result := .error e }
    | .ok m1 =>
      let deleted := guardedCall (eventPayload.eventType = TOPIC_USER_DELETE)
        "handleUserDelete" (handleUserDelete P userId)
      match deleted.result with
      | .error e => { steps := created.steps ++ deleted.steps, result := .error e }
      | .ok m2 =>
        let edited := guardedCall (eventPayload.eventType = TOPIC_USER_UPDATE) "onUserEdit"
          (onUserEdit P client K userId fuelDepth fuelPages)
        match edited.result with
        | .error e =>
          { steps := created.steps ++ deleted.steps ++ edited.steps, result := .error e }
        | .ok m3 =>
          { steps := created.steps ++ deleted.steps ++ edited.steps
            result := .ok (m1 ++ m2 ++ m3) }

/-- The method `onGroupEvent`, with the steps of its body: the test of the connection comes
first. -/
def onGroupEventRun (P : Provider) (client : KcAdminClient) (K : Constants)
    (eventPayload : EventPayload) (fuelDepth fuelPages : Nat) : HandlerRun :=
  if !P.connected then { steps := [], result := .error .notInitialized }
  else
    let resourcePath := splitPath eventPayload.resourcePath
    let created := guardedCall (eventPayload.eventType = "admin.GROUP-CREATE")
      "handleGroupCreate"
      (handleGroupCreate P client K resourcePath eventPayload fuelDepth fuelPages)
    match created.result with
    | .error e => { steps := created.steps, result := .error e }
    | .ok m1 =>
      let deleted := guardedCall (eventPayload.eventType = "admin.GROUP-DELETE")
        "handleGroupDelete" (handleGroupDelete P client K resourcePath fuelDepth fuelPages)
      match deleted.result with
      | .error e => { steps := created.steps ++ deleted.steps, result := .error e }
      | .ok m2 => { steps := created.steps ++ deleted.steps, result := .ok (m1 ++ m2) }

/-- The method `onMembershipChange`, with the steps of its body: the test of the connection
comes first, then the request token, the catalog query of the old user entity and the
directory calls.  The right-hand side of `newGroup.members = await ...` is awaited before the
assignment can fail. -/
def onMembershipChangeRun (P : Provider) (client : KcAdminClient)
    (eventPayload : EventPayload) (fuelPages : Nat) : HandlerRun :=
  if !P.connected then { steps := [], result := .error .notInitialized }
  else
    let userId := (splitPath eventPayload.resourcePath).get? 1
    let groupId := (splitPath eventPayload.resourcePath).get? 3
    let oldUserEntity := (P.catalogApi.getEntities "User" userId).head?
    let toUser : List Step :=
      [.call "getOwnServiceCredentials", .call "getPluginRequestToken",
        .catalogQuery "User" userId, .call "ensureTokenValid",
        .directoryCall "users.findOne" userId]
    match client.findOneUser userId with
    | none => { steps := toUser, result := .ok [] }
    | some newUser =>
      let toMembers : List Step :=
        toUser ++ [.call "ensureTokenValid", .directoryCall "groups.findOne" groupId,
          .call "getAllGroupMembers"]
      match client.findOneGroup { id := groupId, realm := none } with
      | none => { steps := toMembers, result := .error .typeError }
      | some fetchedGroup =>
        match getAllGroupMembers client groupId P.options.provider
            P.options.provider.userQuerySize fuelPages with
        | none => { steps := toMembers, result := .error .outOfFuel }
        | some members =>
          let newGroup := fetchedGroup.setMembers members
          let toGroup : List Step := toMembers ++ [.call "parseGroup"]
          match parseGroup newGroup P.options.provider.realm P.options.groupTransformer with
          | none => { steps := toGroup, result := .ok [] }
          | some parsedGroup =>
            match oldUserEntity with
            | none => { steps := toGroup, result := .error .typeError }
            | some old =>
              let currentGroupMemberships :=
                if eventPayload.eventType = TOPIC_USER_ADD_GROUP then
                  old.memberOf.getD [] ++ [parsedGroup.name]
                else (old.memberOf.getD []).erase parsedGroup.name
              let memberToGroupMap := jsMapSet [] old.name currentGroupMemberships
              let toEntity : List Step := toGroup ++ [.call "parseUser"]
              match parseUser newUser P.options.provider.realm
                  [{ group := entitySpreadRecord, entity := parsedGroup }] memberToGroupMap
                  P.options.userTransformer with
              | none => { steps := toEntity, result := .ok [] }
              | some newUserEntity =>
                let mutation := Mutation.delta (addEntitiesOperation P [newUserEntity])
                  (removeEntitiesOperation P
                    [{ old with memberOf := old.memberOf.map fun _ => currentGroupMemberships }])
                { steps := toEntity ++ [.applyMutation mutation], result := .ok [mutation] }

/-- The method `read`, with the steps of its body: the test of the connection comes first,
then the authentication of a new client, the limiter, `readKeycloakRealm` and the one
mutation. -/
def readRun (P : Provider) (client : KcAdminClient)
    (remote : Credentials → Option AccessToken) (K : Constants) (taskInstanceId : String)
    (fuelDepth fuelPages : Nat) : HandlerRun :=
  if !P.connected then { steps := [], result := .error .notInitialized }
  else
    match (authenticate remote P.options.provider).result with
    | .error e => { steps := [.call "authenticate"], result := .error e }
    | .ok _ =>
      if concurrencyOf P.options.provider = 0 then
        { steps := [.call "authenticate"], result := .error .typeError }
      else
        match readKeycloakRealm client P.options.provider K taskInstanceId (readOptionsOf P)
            fuelDepth fuelPages with
        | .error e =>
          { steps := [.call "authenticate", .call "readKeycloakRealm"], result := .error e }
        | .ok realm =>
          let mutation := Mutation.full ((realm.users ++ realm.groups).map fun entity =>
            { locationKey := "keycloak-org-provider:" ++ P.options.id
              entity := withLocations P.options.provider.baseUrl P.options.provider.realm
                entity })
          { steps := [.call "authenticate", .call "readKeycloakRealm",
              .applyMutation mutation]
            result := .ok [mutation] }

/-! ## Pagination lemmas -/

theorem join_pages_eq {α : Type} (P : Nat) :
    ∀ (k : Nat) (l : List α), l.length ≤ k * P →
      ((List.range k).map fun i => (l.drop (i * P)).take P).flatten = l := by
  intro k
  induction k with
  | zero =>
    intro l h
    have : l = [] := by
      apply List.eq_nil_of_length_eq_zero
      omega
    simp [this]
  | succ k ih =>
    intro l h
    rw [List.range_succ_eq_map]
    simp only [List.map_cons, List.flatten_cons, List.map_map, Nat.zero_mul, List.drop_zero]
    have hdrop : (l.drop P).length ≤ k * P := by
      rw [List.length_drop]
      have : (k + 1) * P = k * P + P := by ring
      omega
    have hfun : ((fun i => (l.drop (i * P)).take P) ∘ Nat.succ)
        = fun i => ((l.drop P).drop (i * P)).take P := by
      funext i
      simp only [Function.comp, List.drop_drop]
      congr 2
      rw [Nat.succ_mul]
      omega
    rw [hfun, ih (l.drop P) hdrop, List.take_append_drop]

theorem ceil_div_le_iff (N P k : Nat) (hP : 1 ≤ P) : (N + P - 1) / P ≤ k ↔ N ≤ k * P := by
  constructor
  · intro h
    by_contra hlt
    have h1 : k * P + P ≤ N + P - 1 := by omega
    have h2 : k + 1 ≤ (N + P - 1) / P := by
      rw [Nat.le_div_iff_mul_le (by omega)]
      have : (k + 1) * P = k * P + P := by ring
      omega
    omega
  · intro h
    have h1 : (N + P - 1) / P < k + 1 := by
      rw [Nat.div_lt_iff_lt_mul (by omega)]
      have : (k + 1) * P = k * P + P := by ring
      omega
    omega

/-! ## Field access on records -/

@[simp] theorem KGroup.id_mk (i n : String) (pid p : Option String) (c : Nat)
    (s : List KGroup) (m : Option (List String)) : (KGroup.mk i n pid p c s m).id = i := rfl

@[simp] theorem KGroup.name_mk (i n : String) (pid p : Option String) (c : Nat)
    (s : List KGroup) (m : Option (List String)) : (KGroup.mk i n pid p c s m).name = n := rfl

@[simp] theorem KGroup.parentId_mk (i n : String) (pid p : Option String) (c : Nat)
    (s : List KGroup) (m : Option (List String)) :
    (KGroup.mk i n pid p c s m).parentId = pid := rfl

@[simp] theorem KGroup.parent_mk (i n : String) (pid p : Option String) (c : Nat)
    (s : List KGroup) (m : Option (List String)) : (KGroup.mk i n pid p c s m).parent = p := rfl

@[simp] theorem KGroup.subGroupCount_mk (i n : String) (pid p : Option String) (c : Nat)
    (s : List KGroup) (m : Option (List String)) :
    (KGroup.mk i n pid p c s m).subGroupCount = c := rfl

@[simp] theorem KGroup.subGroups_mk (i n : String) (pid p : Option String) (c : Nat)
    (s : List KGroup) (m : Option (List String)) :
    (KGroup.mk i n pid p c s m).subGroups = s := rfl

@[simp] theorem KGroup.members_mk (i n : String) (pid p : Option String) (c : Nat)
    (s : List KGroup) (m : Option (List String)) :
    (KGroup.mk i n pid p c s m).members = m := rfl

/-! ## Hierarchy lemmas -/

theorem hierarchyTriples_eq (gs : List KGroup) (realm : String) :
    hierarchyTriples gs realm = gs.map tripleOf := by
  simp only [hierarchyTriples, parseGroups, parseGroup, noopGroupTransformer,
    Option.getD_none, Option.map_some']
  induction gs with
  | nil => rfl
  | cons g rest ih =>
    simp only [List.filterMap_cons, List.map_cons, tripleOf] at ih ⊢
    rw [ih]

theorem traverseSubGroups_eq (n : String) (ts : List KGroup) :
    traverseSubGroups n ts = (ts.map (traverseFrom (some n))).flatten := by
  induction ts with
  | nil => simp [traverseSubGroups]
  | cons t rest ih => simp [traverseSubGroups, ih]

theorem flattenEmbedded_eq (ts : List KGroup) :
    flattenEmbedded ts = (ts.map (traverseFrom none)).flatten := by
  have key : ∀ (l acc : List KGroup),
      l.foldl (fun acc g => acc ++ traverseFrom none g) acc
        = acc ++ (l.map (traverseFrom none)).flatten := by
    intro l
    induction l with
    | nil => intro acc; simp
    | cons g rest ih =>
      intro acc
      rw [List.foldl_cons, ih]
      simp [List.append_assoc]
  have h := key ts []
  simpa [flattenEmbedded, traverseGroups] using h

theorem mirrors_name (client : KcAdminClient) (config : ProviderConfig) (K : Constants)
    (t : KGroup) (pid : Option String) (r : KGroup) (h : Mirrors client config K t pid r) :
    r.name = t.name := by
  cases t with
  | mk i n p0 par c subs m => exact h.1

theorem mirrorsList_names (client : KcAdminClient) (config : ProviderConfig) (K : Constants) :
    ∀ (ts : List KGroup) (pid : Option String) (rs : List KGroup),
      MirrorsList client config K ts pid rs → rs.map KGroup.name = ts.map KGroup.name := by
  intro ts
  induction ts with
  | nil =>
    intro pid rs h
    simp only [MirrorsList] at h
    simp [h]
  | cons t rest ih =>
    intro pid rs h
    cases rs with
    | nil => simp [MirrorsList] at h
    | cons r rs =>
      simp only [MirrorsList] at h
      simp [mirrors_name client config K t pid r h.1, ih pid rs h.2]

theorem collectEach_mirrors (client : KcAdminClient) (config : ProviderConfig) (K : Constants)
    (F : KGroup → Option (List KGroup)) (pid stamp : Option String) :
    ∀ (ts rs : List KGroup),
      (∀ t r, t ∈ ts → r ∈ rs → Mirrors client config K t pid r →
        ∃ o, F r = some o ∧
          o.map (listedTriple client config K) = (traverseFrom stamp t).map tripleOf) →
      MirrorsList client config K ts pid rs →
      ∃ out, collectEach F rs = some out ∧
        out.map (listedTriple client config K)
          = ((ts.map (traverseFrom stamp)).flatten).map tripleOf := by
  intro ts
  induction ts with
  | nil =>
    intro rs _ h
    simp only [MirrorsList] at h
    subst h
    exact ⟨[], rfl, rfl⟩
  | cons t rest ih =>
    intro rs hF h
    cases rs with
    | nil => simp [MirrorsList] at h
    | cons r rs =>
      simp only [MirrorsList] at h
      obtain ⟨o, ho, hoT⟩ := hF t r (List.mem_cons_self _ _) (List.mem_cons_self _ _) h.1
      obtain ⟨out, hout, houtT⟩ :=
        ih rs (fun t' r' ht' hr' hm =>
          hF t' r' (List.mem_cons_of_mem _ ht') (List.mem_cons_of_mem _ hr') hm) h.2
      refine ⟨o ++ out, by simp [collectEach, ho, hout], ?_⟩
      simp [hoT, houtT]

theorem forestHeight_mem (t : KGroup) (ts : List KGroup) (h : t ∈ ts) :
    treeHeight t ≤ forestHeight ts := by
  induction ts with
  | nil => simp at h
  | cons a rest ih =>
    simp only [forestHeight]
    rcases List.mem_cons.1 h with rfl | h'
    · exact le_max_left _ _
    · exact le_trans (ih h') (le_max_right _ _)

theorem processGroupsRecursively_mirrors (client : KcAdminClient) (config : ProviderConfig)
    (K : Constants) (top : List KGroup)
    (hid : ∀ r, Listed client config K top r → 0 < r.subGroupCount → r.id ≠ "") :
    ∀ (fuel : Nat) (ts rs : List KGroup) (pid stamp : Option String),
      (∀ r ∈ rs, Listed client config K top r) →
      MirrorsList client config K ts pid rs → ParentLink client config pid stamp →
      forestHeight ts < fuel →
      ∃ out, processGroupsRecursively client config K fuel rs = some out ∧
        out.map (listedTriple client config K)
          = ((ts.map (traverseFrom stamp)).flatten).map tripleOf := by
  intro fuel
  induction fuel with
  | zero => intro ts rs pid stamp _ _ _ h; omega
  | succ fuel ih =>
    intro ts rs pid stamp hlisted hm hlink hfuel
    simp only [processGroupsRecursively]
    apply collectEach_mirrors client config K _ pid stamp ts rs _ hm
    intro t r ht hr hmt
    have hht := forestHeight_mem t ts ht
    cases t with
    | mk i n p0 par c subs m =>
      simp only [treeHeight] at hht
      simp only [Mirrors] at hmt
      obtain ⟨hname, hpid, hcount, hpar, hleaf, hsub⟩ := hmt
      have hparent : (if truthy r.parentId then
          (client.findOneGroup { id := r.parentId, realm := some config.realm }).map
            KGroup.name else r.parent)
          = stampedParent stamp par := by
        cases pid with
        | none =>
          simp only [ParentLink] at hlink
          subst hlink
          simp [hpid, truthy, hpar rfl, stampedParent]
        | some pi =>
          simp only [ParentLink] at hlink
          obtain ⟨hne, pname, hst, hfind⟩ := hlink
          subst hst
          simp [hpid, truthy, hne, hfind, stampedParent]
      by_cases hs : subs = []
      · subst hs
        have hc0 : r.subGroupCount = 0 := by simpa using hcount
        refine ⟨[r], by simp [hc0], ?_⟩
        simp [traverseFrom, traverseSubGroups, listedTriple, tripleOf, hname, hparent, hc0,
          hleaf rfl]
      · obtain ⟨hfind, hkids⟩ := hsub hs
        have hpos : 0 < r.subGroupCount := by
          rw [hcount]
          exact List.length_pos.2 hs
        have hidne : r.id ≠ "" := hid r (hlisted r hr) hpos
        obtain ⟨out, hout, houtT⟩ := ih subs _ (some r.id) (some n)
          (fun s hs => Listed.under r s (hlisted r hr) hpos hs) hkids
          ⟨hidne, n, rfl, hfind⟩ (by omega)
        refine ⟨r :: out, by simp [hpos, hout], ?_⟩
        have hnames := mirrorsList_names client config K subs _ _ hkids
        simp [traverseFrom, traverseSubGroups_eq, listedTriple, tripleOf, hname, hparent, hpos,
          hnames, houtT]

theorem enrichGroup_listed (client : KcAdminClient) (config : ProviderConfig) (K : Constants)
    (uqs : Option Nat) (fp : Nat) (r : KGroup)
    (hm : (getAllGroupMembers client (some r.id) config uqs fp).isSome) :
    ∃ g, enrichGroup client config K uqs true fp r = some g ∧
      tripleOf g = listedTriple client config K r := by
  obtain ⟨ms, hms⟩ := Option.isSome_iff_exists.1 hm
  cases r with
  | mk i n pid par c subs m =>
    simp only [KGroup.id_mk] at hms
    by_cases hc : c > 0 <;> by_cases hp : truthy pid = true <;>
      simp [enrichGroup, hms, KGroup.setMembers, KGroup.setSubGroups, KGroup.setParent,
        tripleOf, listedTriple, subGroupQueryOf, hc, hp]

theorem enrichGroup_embedded (client : KcAdminClient) (config : ProviderConfig) (K : Constants)
    (uqs : Option Nat) (fp : Nat) (r : KGroup)
    (hm : (getAllGroupMembers client (some r.id) config uqs fp).isSome) :
    ∃ g, enrichGroup client config K uqs false fp r = some g ∧ tripleOf g = tripleOf r := by
  obtain ⟨ms, hms⟩ := Option.isSome_iff_exists.1 hm
  cases r with
  | mk i n pid par c subs m =>
    simp only [KGroup.id_mk] at hms
    simp [enrichGroup, hms, KGroup.setMembers, tripleOf]

theorem allOrNone_map {α β γ : Type} (f : α → Option β) (h : β → γ) (k : α → γ) :
    ∀ l : List α, (∀ a ∈ l, ∃ b, f a = some b ∧ h b = k a) →
      ∃ bs, allOrNone f l = some bs ∧ bs.map h = l.map k := by
  intro l
  induction l with
  | nil => intro _; exact ⟨[], rfl, rfl⟩
  | cons a rest ih =>
    intro hall
    obtain ⟨b, hb, hbk⟩ := hall a (List.mem_cons_self _ _)
    obtain ⟨bs, hbs, hmap⟩ := ih fun a' ha' => hall a' (List.mem_cons_of_mem _ ha')
    exact ⟨b :: bs, by simp [allOrNone, hb, hbs], by simp [hbk, hmap]⟩

/-! ## Map lemmas -/

theorem jsMapGet_set {β : Type} (m : List (String × β)) (k : String) (v : β) (key : String) :
    jsMapGet (jsMapSet m k v) key = if k = key then some v else jsMapGet m key := by
  induction m with
  | nil => simp [jsMapSet, jsMapGet]
  | cons p rest ih =>
    obtain ⟨k0, w⟩ := p
    by_cases h0 : k0 = k
    · subst h0
      by_cases h1 : k0 = key <;> simp [jsMapSet, jsMapGet, h1]
    · by_cases h1 : k0 = key
      · subst h1
        have : ¬ k = k0 := fun e => h0 e.symm
        simp [jsMapSet, jsMapGet, h0, this]
      · simp [jsMapSet, jsMapGet, h0, h1, ih]

theorem jsMapGet_foldl_set {β : Type} (pairs : List (String × β)) (key : String) :
    ∀ m : List (String × β),
      jsMapGet (pairs.foldl (fun m kv => jsMapSet m kv.1 kv.2) m) key
        = (match lastEntry pairs key with
           | some x => some x
           | none => jsMapGet m key) := by
  induction pairs with
  | nil => intro m; simp [lastEntry]
  | cons p rest ih =>
    intro m
    obtain ⟨k, v⟩ := p
    rw [List.foldl_cons, ih]
    simp only [lastEntry]
    cases hrest : lastEntry rest key with
    | some x => simp
    | none =>
      simp only [jsMapGet_set]
      by_cases hk : k = key <;> simp [hk]

theorem jsMapGet_ofPairs {β : Type} (pairs : List (String × β)) (key : String) :
    jsMapGet (jsMapOfPairs pairs) key = lastEntry pairs key := by
  rw [jsMapOfPairs, jsMapGet_foldl_set]
  cases lastEntry pairs key <;> simp [jsMapGet]

theorem lastEntry_some {β : Type} (pairs : List (String × β)) (key : String) (v : β)
    (h : lastEntry pairs key = some v) : (key, v) ∈ pairs := by
  induction pairs with
  | nil => simp [lastEntry] at h
  | cons p rest ih =>
    obtain ⟨k, w⟩ := p
    simp only [lastEntry] at h
    cases hrest : lastEntry rest key with
    | some x =>
      rw [hrest] at h
      simp only [Option.some.injEq] at h
      subst h
      exact List.mem_cons_of_mem _ (ih hrest)
    | none =>
      rw [hrest] at h
      by_cases hk : k = key
      · simp only [hk, if_true, Option.some.injEq] at h
        subst h
        subst hk
        exact List.mem_cons_self _ _
      · simp [hk] at h

theorem lastEntry_eq_none {β : Type} (pairs : List (String × β)) (key : String) :
    lastEntry pairs key = none ↔ ∀ p ∈ pairs, p.1 ≠ key := by
  induction pairs with
  | nil => simp [lastEntry]
  | cons p rest ih =>
    obtain ⟨k, w⟩ := p
    simp only [lastEntry, List.mem_cons, forall_eq_or_imp]
    cases hrest : lastEntry rest key with
    | some x =>
      have hne : ¬ ∀ p ∈ rest, p.1 ≠ key := fun hall => by
        rw [ih.2 hall] at hrest
        cases hrest
      constructor
      · intro h
        cases h
      · intro h
        exact absurd h.2 hne
    | none =>
      have hall := ih.1 hrest
      by_cases hk : k = key
      · simp [hk]
      · constructor
        · intro _
          exact ⟨hk, hall⟩
        · intro _
          simp [hk]

/-! ## Group index lemmas -/

theorem index_set_preserves (Q : String → Prop) (index : List (String × List String))
    (member n : String)
    (hidx : ∀ k v, jsMapGet index k = some v → ∀ x ∈ v, Q x) (hn : Q n) :
    ∀ k v, jsMapGet (jsMapSet index member ((jsMapGet index member).getD [] ++ [n])) k = some v →
      ∀ x ∈ v, Q x := by
  intro k v hget x hx
  rw [jsMapGet_set] at hget
  by_cases hk : member = k
  · simp only [hk, if_true, Option.some.injEq] at hget
    subst hget
    rcases List.mem_append.1 hx with h1 | h1
    · cases hcur : jsMapGet index k with
      | none => simp [hcur] at h1
      | some cur =>
        simp only [hcur, Option.getD_some] at h1
        exact hidx k cur hcur x h1
    · simp only [List.mem_singleton] at h1
      exact h1 ▸ hn
  · simp only [hk, if_false] at hget
    exact hidx k v hget x hx

theorem index_members_preserve (Q : String → Prop) (n : String) (hn : Q n) :
    ∀ (members : List String) (index : List (String × List String)),
      (∀ k v, jsMapGet index k = some v → ∀ x ∈ v, Q x) →
      ∀ k v, jsMapGet (members.foldl (fun index member =>
        jsMapSet index member ((jsMapGet index member).getD [] ++ [n])) index) k = some v →
        ∀ x ∈ v, Q x := by
  intro members
  induction members with
  | nil => intro index h; simpa using h
  | cons m rest ih =>
    intro index h
    rw [List.foldl_cons]
    exact ih _ (index_set_preserves Q index m n h hn)

theorem buildGroupIndex_values (Q : String → Prop) :
    ∀ (groups : List ParsedGroup) (index : List (String × List String)),
      (∀ p ∈ groups, Q p.entity.name) →
      (∀ k v, jsMapGet index k = some v → ∀ x ∈ v, Q x) →
      ∀ k v, jsMapGet (groups.foldl (fun index group =>
        match group.group.members with
        | none => index
        | some members =>
          members.foldl (fun index member =>
            jsMapSet index member ((jsMapGet index member).getD [] ++ [group.entity.name]))
            index) index) k = some v → ∀ x ∈ v, Q x := by
  intro groups
  induction groups with
  | nil => intro index _ h; simpa using h
  | cons g rest ih =>
    intro index hQ h
    rw [List.foldl_cons]
    apply ih _ (fun p hp => hQ p (List.mem_cons_of_mem _ hp))
    cases hm : g.group.members with
    | none => simpa using h
    | some ms =>
      exact index_members_preserve Q g.entity.name (hQ g (List.mem_cons_self _ _)) ms index h

theorem parseGroups_mem (kGroups : List KGroup) (realm : String)
    (gt : Option GroupTransformer) (p : ParsedGroup) (hp : p ∈ parseGroups kGroups realm gt) :
    p.group ∈ kGroups ∧ parseGroup p.group realm gt = some p.entity := by
  simp only [parseGroups, List.mem_filterMap] at hp
  obtain ⟨g, hg, hmap⟩ := hp
  cases hpe : parseGroup g realm gt with
  | none => simp [hpe] at hmap
  | some e =>
    simp only [hpe, Option.map_some', Option.some.injEq] at hmap
    subst hmap
    exact ⟨hg, hpe⟩

theorem parseUsers_mem (kUsers : List KUser) (realm : String) (gs : List ParsedGroup)
    (index : List (String × List String)) (ut : Option UserTransformer) (p : ParsedUser)
    (hp : p ∈ parseUsers kUsers realm gs index ut) :
    p.user ∈ kUsers ∧ parseUser p.user realm gs index ut = some p.entity := by
  simp only [parseUsers, List.mem_filterMap] at hp
  obtain ⟨u, hu, hmap⟩ := hp
  cases hpe : parseUser u realm gs index ut with
  | none => simp [hpe] at hmap
  | some e =>
    simp only [hpe, Option.map_some', Option.some.injEq] at hmap
    subst hmap
    exact ⟨hu, hpe⟩

theorem groupMapOf_some (groups : List ParsedGroup) (c x : String)
    (h : jsMapGet (groupMapOf groups) c = some x) :
    ∃ p ∈ groups, p.group.name = c ∧ p.entity.name = x := by
  rw [groupMapOf, jsMapGet_ofPairs] at h
  have hmem := lastEntry_some _ _ _ h
  simp only [List.mem_map, Prod.mk.injEq] at hmem
  obtain ⟨p, hp, h1, h2⟩ := hmem
  exact ⟨p, hp, h1, h2⟩

theorem groupMapOf_none (groups : List ParsedGroup) (c : String) :
    jsMapGet (groupMapOf groups) c = none ↔ ∀ p ∈ groups, p.group.name ≠ c := by
  rw [groupMapOf, jsMapGet_ofPairs, lastEntry_eq_none]
  simp

theorem userMapOf_some (users : List ParsedUser) (m x : String)
    (h : jsMapGet (userMapOf users) m = some x) :
    ∃ p ∈ users, p.user.username = m ∧ p.entity.name = x := by
  rw [userMapOf, jsMapGet_ofPairs] at h
  have hmem := lastEntry_some _ _ _ h
  simp only [List.mem_map, Prod.mk.injEq] at hmem
  obtain ⟨p, hp, h1, h2⟩ := hmem
  exact ⟨p, hp, h1, h2⟩

theorem userMapOf_none (users : List ParsedUser) (m : String) :
    jsMapGet (userMapOf users) m = none ↔ ∀ p ∈ users, p.user.username ≠ m := by
  rw [userMapOf, jsMapGet_ofPairs, lastEntry_eq_none]
  simp

theorem readKeycloakRealm_of_fetch (client : KcAdminClient) (config : ProviderConfig)
    (K : Constants) (tid : String) (options : ReadOptions) (fuelDepth fuelPages : Nat)
    (kUsers : List KUser) (kGroups : List KGroup) (fails : List String)
    (hfetch : fetchRealm client config K tid options fuelDepth fuelPages
      = .ok (kUsers, kGroups, fails)) :
    readKeycloakRealm client config K tid options fuelDepth fuelPages
      = .ok (assembleRealm kUsers kGroups config.realm options fails) := by
  simp [readKeycloakRealm, hfetch]

theorem filterMap_eq_filter_map {α β : Type} (f : α → Option β) (d : β) (keep : α → Bool)
    (hkeep : ∀ a, keep a = (f a).isSome) :
    ∀ l : List α, l.filterMap f = (l.filter keep).map fun a => (f a).getD d := by
  intro l
  induction l with
  | nil => rfl
  | cons a rest ih =>
    cases hfa : f a with
    | none =>
      have hk : keep a = false := by rw [hkeep, hfa]; rfl
      simp [List.filterMap_cons, hfa, List.filter_cons, hk, ih]
    | some b =>
      have hk : keep a = true := by rw [hkeep, hfa]; rfl
      simp [List.filterMap_cons, hfa, List.filter_cons, hk, ih]

theorem lastEntry_isSome {β : Type} (pairs : List (String × β)) (key : String) :
    (lastEntry pairs key).isSome = decide (key ∈ pairs.map Prod.fst) := by
  cases h : lastEntry pairs key with
  | none =>
    have := (lastEntry_eq_none pairs key).1 h
    have hnot : key ∉ pairs.map Prod.fst := by
      simp only [List.mem_map, not_exists, not_and]
      intro p hp he
      exact this p hp he
    simp [hnot]
  | some v =>
    have hmem := lastEntry_some pairs key v h
    have hin : key ∈ pairs.map Prod.fst := List.mem_map.2 ⟨(key, v), hmem, rfl⟩
    simp [hin]

theorem resolveGroupEntity_eq (users : List ParsedUser) (groups : List ParsedGroup)
    (entity : Entity) :
    resolveGroupEntity (userMapOf users) (groupMapOf groups) entity
      = resolvedGroupReferences users groups entity := by
  have hu : ∀ m, decide (m ∈ users.map fun u => u.user.username)
      = (jsMapGet (userMapOf users) m).isSome := by
    intro m
    rw [userMapOf, jsMapGet_ofPairs, lastEntry_isSome]
    simp [List.map_map, Function.comp]
  have hg : ∀ c, decide (c ∈ groups.map fun g => g.group.name)
      = (jsMapGet (groupMapOf groups) c).isSome := by
    intro c
    rw [groupMapOf, jsMapGet_ofPairs, lastEntry_isSome]
    simp [List.map_map, Function.comp]
  have hmembers : (entity.members.getD []).filterMap (jsMapGet (userMapOf users))
      = ((entity.members.getD []).filter fun m =>
          decide (m ∈ users.map fun u => u.user.username)).map (nameOfEmittedUser users) := by
    rw [filterMap_eq_filter_map (jsMapGet (userMapOf users)) "" _ hu]
    simp [nameOfEmittedUser, userMapOf, jsMapGet_ofPairs]
  have hchildren : (entity.children.getD []).filterMap (jsMapGet (groupMapOf groups))
      = ((entity.children.getD []).filter fun c =>
          decide (c ∈ groups.map fun g => g.group.name)).map (nameOfEmittedGroup groups) := by
    rw [filterMap_eq_filter_map (jsMapGet (groupMapOf groups)) "" _ hg]
    simp [nameOfEmittedGroup, groupMapOf, jsMapGet_ofPairs]
  have hparent : entity.parent.bind (jsMapGet (groupMapOf groups))
      = (match entity.parent with
         | none => none
         | some c =>
           if c ∈ groups.map fun g => g.group.name then some (nameOfEmittedGroup groups c)
           else none) := by
    cases hp : entity.parent with
    | none => rfl
    | some c =>
      simp only [Option.some_bind]
      have hc := hg c
      cases hget : jsMapGet (groupMapOf groups) c with
      | none =>
        rw [hget] at hc
        have : c ∉ groups.map fun g => g.group.name := by simpa using hc
        simp [this]
      | some x =>
        rw [hget] at hc
        have : c ∈ groups.map fun g => g.group.name := by simpa using hc
        have hx : nameOfEmittedGroup groups c = x := by
          rw [groupMapOf, jsMapGet_ofPairs] at hget
          simp [nameOfEmittedGroup, hget]
        simp only [this, if_true, hx]
  simp only [resolveGroupEntity, resolvedGroupReferences, hmembers, hchildren, hparent]

theorem nameOfEmittedUser_spec (users : List ParsedUser) (m : String)
    (hm : m ∈ users.map fun u => u.user.username) :
    ∃ u ∈ users, u.user.username = m ∧ u.entity.name = nameOfEmittedUser users m := by
  cases h : lastEntry (users.map fun u => (u.user.username, u.entity.name)) m with
  | none =>
    have hall := (lastEntry_eq_none _ _).1 h
    simp only [List.mem_map] at hm
    obtain ⟨u, hu, rfl⟩ := hm
    exact absurd rfl (hall (u.user.username, u.entity.name) (List.mem_map.2 ⟨u, hu, rfl⟩))
  | some x =>
    have hmem := lastEntry_some _ _ _ h
    simp only [List.mem_map, Prod.mk.injEq] at hmem
    obtain ⟨u, hu, h1, h2⟩ := hmem
    exact ⟨u, hu, h1, by simp [nameOfEmittedUser, h, h2]⟩

theorem nameOfEmittedGroup_spec (groups : List ParsedGroup) (c : String)
    (hc : c ∈ groups.map fun g => g.group.name) :
    ∃ g ∈ groups, g.group.name = c ∧ g.entity.name = nameOfEmittedGroup groups c := by
  cases h : lastEntry (groups.map fun g => (g.group.name, g.entity.name)) c with
  | none =>
    have hall := (lastEntry_eq_none _ _).1 h
    simp only [List.mem_map] at hc
    obtain ⟨g, hg, rfl⟩ := hc
    exact absurd rfl (hall (g.group.name, g.entity.name) (List.mem_map.2 ⟨g, hg, rfl⟩))
  | some x =>
    have hmem := lastEntry_some _ _ _ h
    simp only [List.mem_map, Prod.mk.injEq] at hmem
    obtain ⟨g, hg, h1, h2⟩ := hmem
    exact ⟨g, hg, h1, by simp [nameOfEmittedGroup, h, h2]⟩

/-! ## Group deletion lemmas -/

theorem keys_jsMapSet {β : Type} (m : List (String × β)) (k : String) (v : β) :
    (jsMapSet m k v).map Prod.fst
      = if k ∈ m.map Prod.fst then m.map Prod.fst else m.map Prod.fst ++ [k] := by
  induction m with
  | nil => simp [jsMapSet]
  | cons p rest ih =>
    obtain ⟨k0, w⟩ := p
    by_cases h0 : k0 = k
    · subst h0
      simp [jsMapSet]
    · have hne : ¬ k = k0 := fun e => h0 e.symm
      simp only [jsMapSet, if_neg h0, List.map_cons, ih, List.mem_cons, hne, false_or]
      by_cases hk : k ∈ rest.map Prod.fst <;> simp [hk]

theorem keys_foldl_pairs {β : Type} (pairs : List (String × β)) :
    ∀ m : List (String × β),
      (pairs.foldl (fun m kv => jsMapSet m kv.1 kv.2) m).map Prod.fst
        = firstOccurrencesFrom (m.map Prod.fst) (pairs.map Prod.fst) := by
  induction pairs with
  | nil => intro m; rfl
  | cons p rest ih =>
    intro m
    rw [List.foldl_cons, ih, keys_jsMapSet]
    simp [firstOccurrencesFrom]

theorem keys_foldl_refs {β : Type} (val : List (String × β) → String → β)
    (refs : List String) :
    ∀ m : List (String × β),
      (refs.foldl (fun m ref => jsMapSet m ref (val m ref)) m).map Prod.fst
        = firstOccurrencesFrom (m.map Prod.fst) refs := by
  induction refs with
  | nil => intro m; rfl
  | cons r rest ih =>
    intro m
    rw [List.foldl_cons, ih, keys_jsMapSet]
    simp [firstOccurrencesFrom]

theorem firstOccurrencesFrom_append (seen a b : List String) :
    firstOccurrencesFrom seen (a ++ b)
      = firstOccurrencesFrom (firstOccurrencesFrom seen a) b := by
  simp [firstOccurrencesFrom, List.foldl_append]

theorem collectUserMemberships_keys (deletedGroup : Entity) (subgroups : List Entity) :
    (collectUserMemberships deletedGroup subgroups).map Prod.fst
      = affectedUserRefs deletedGroup subgroups := by
  have houter : ∀ (subs : List Entity) (m : List (String × List String)),
      (subs.foldl (fun m subgroup =>
        (relationTargets "hasMember" subgroup).foldl (fun m ref =>
          jsMapSet m ref ((jsMapGet m ref).getD [] ++ [entityRefOf subgroup])) m) m).map
          Prod.fst
        = firstOccurrencesFrom (m.map Prod.fst)
            ((subs.map (relationTargets "hasMember")).flatten) := by
    intro subs
    induction subs with
    | nil => intro m; rfl
    | cons sub rest ih =>
      intro m
      rw [List.foldl_cons, ih,
        keys_foldl_refs (fun m ref => (jsMapGet m ref).getD [] ++ [entityRefOf sub])]
      simp [firstOccurrencesFrom_append]
  have hkeys : ((relationTargets "hasMember" deletedGroup).map fun ref =>
      (ref, [entityRefOf deletedGroup])).map Prod.fst
      = relationTargets "hasMember" deletedGroup := by
    rw [List.map_map]
    exact List.map_id _
  rw [collectUserMemberships, houter, jsMapOfPairs, keys_foldl_pairs, affectedUserRefs,
    firstOccurrences, firstOccurrencesFrom_append, hkeys]
  rfl

theorem mem_firstOccurrencesFrom (x : String) (l : List String) :
    ∀ seen : List String, x ∈ firstOccurrencesFrom seen l ↔ x ∈ seen ∨ x ∈ l := by
  induction l with
  | nil => intro seen; simp [firstOccurrencesFrom]
  | cons a rest ih =>
    intro seen
    have hstep : firstOccurrencesFrom seen (a :: rest)
        = firstOccurrencesFrom (if a ∈ seen then seen else seen ++ [a]) rest := rfl
    rw [hstep, ih]
    by_cases ha : a ∈ seen
    · simp only [ha, if_true, List.mem_cons]
      constructor
      · rintro (h | h)
        · exact Or.inl h
        · exact Or.inr (Or.inr h)
      · rintro (h | h | h)
        · exact Or.inl h
        · exact Or.inl (h ▸ ha)
        · exact Or.inr h
    · simp only [ha, if_false, List.mem_append, List.mem_singleton, List.mem_cons]
      tauto

theorem firstOccurrencesFrom_nodup (l : List String) :
    ∀ seen : List String, seen.Nodup → (firstOccurrencesFrom seen l).Nodup := by
  induction l with
  | nil => intro seen h; simpa [firstOccurrencesFrom] using h
  | cons a rest ih =>
    intro seen h
    have hstep : firstOccurrencesFrom seen (a :: rest)
        = firstOccurrencesFrom (if a ∈ seen then seen else seen ++ [a]) rest := rfl
    rw [hstep]
    apply ih
    by_cases ha : a ∈ seen
    · simpa [ha] using h
    · simp only [ha, if_false]
      rw [List.nodup_append]
      refine ⟨h, List.nodup_singleton a, ?_⟩
      intro x hx hxa
      simp only [List.mem_singleton] at hxa
      exact ha (hxa ▸ hx)

theorem createGroupEntities_ok (P : Provider) (client : KcAdminClient) (K : Constants)
    (gs : List KGroup) (fuelDepth fuelPages : Nat) (version : Option String)
    (hver : client.serverInfo = some version)
    (hres : (resolveHierarchy client P.options.provider K P.options.provider.userQuerySize
      (isVersion23orHigher version) fuelDepth fuelPages gs).isSome) :
    ∃ parsed, createGroupEntities P client K gs fuelDepth fuelPages = .ok parsed := by
  obtain ⟨kg, hkg⟩ := Option.isSome_iff_exists.1 hres
  refine ⟨parseGroups kg P.options.provider.realm P.options.groupTransformer, ?_⟩
  simp [createGroupEntities, hver, hkg]

theorem updateUserEntity_ok (P : Provider) (client : KcAdminClient) (K : Constants)
    (fuelDepth fuelPages : Nat) (version : Option String) (ref : String)
    (hver : client.serverInfo = some version)
    (hgroups : ∀ id, (getAllGroups client id P.options.provider
      P.options.provider.groupQuerySize fuelPages).isSome)
    (hres : ∀ id gs, getAllGroups client id P.options.provider
        P.options.provider.groupQuerySize fuelPages = some gs →
      (resolveHierarchy client P.options.provider K P.options.provider.userQuerySize
        (isVersion23orHigher version) fuelDepth fuelPages gs).isSome) :
    updateUserEntity P client K fuelDepth fuelPages ref
      = .ok (oldUserEntityOf P ref, recomputedUserOf P client K fuelDepth fuelPages ref) := by
  simp only [updateUserEntity, oldUserEntityOf, recomputedUserOf]
  cases hcat : P.catalogApi.getEntityByRef ref with
  | none => rfl
  | some e =>
    by_cases hid : truthy e.keycloakId = true
    · simp only [hid, if_true]
      cases hu : client.findOneUser e.keycloakId with
      | none => rfl
      | some u =>
        obtain ⟨gs, hgs⟩ := Option.isSome_iff_exists.1 (hgroups e.keycloakId)
        obtain ⟨parsed, hparsed⟩ := createGroupEntities_ok P client K gs fuelDepth fuelPages
          version hver (hres e.keycloakId gs hgs)
        simp [hgs, hparsed]
    · simp [hid]

theorem updateUserEntities_ok (P : Provider) (client : KcAdminClient) (K : Constants)
    (fuelDepth fuelPages : Nat) (version : Option String)
    (hver : client.serverInfo = some version)
    (hgroups : ∀ id, (getAllGroups client id P.options.provider
      P.options.provider.groupQuerySize fuelPages).isSome)
    (hres : ∀ id gs, getAllGroups client id P.options.provider
        P.options.provider.groupQuerySize fuelPages = some gs →
      (resolveHierarchy client P.options.provider K P.options.provider.userQuerySize
        (isVersion23orHigher version) fuelDepth fuelPages gs).isSome) :
    ∀ refs : List String,
      updateUserEntitiesAfterGroupDelete P client K fuelDepth fuelPages refs
        = .ok (refs.filterMap (oldUserEntityOf P),
            refs.filterMap (recomputedUserOf P client K fuelDepth fuelPages)) := by
  intro refs
  induction refs with
  | nil => rfl
  | cons ref rest ih =>
    simp only [updateUserEntitiesAfterGroupDelete,
      updateUserEntity_ok P client K fuelDepth fuelPages version ref hver hgroups hres, ih]
    cases h1 : oldUserEntityOf P ref <;> cases h2 : recomputedUserOf P client K fuelDepth fuelPages ref <;>
      simp [List.filterMap_cons, h1, h2]

theorem handleGroupDelete_eq (P : Provider) (client : KcAdminClient) (K : Constants)
    (resourcePath : List String) (fuelDepth fuelPages : Nat) (deletedGroup : Entity)
    (version : Option String)
    (hdel : (P.catalogApi.getEntities "Group" (resourcePath.get? 1)).head? = some deletedGroup)
    (hver : client.serverInfo = some version)
    (hgroups : ∀ id, (getAllGroups client id P.options.provider
      P.options.provider.groupQuerySize fuelPages).isSome)
    (hres : ∀ gs, DeleteGroupList P client deletedGroup fuelPages gs →
      (resolveHierarchy client P.options.provider K P.options.provider.userQuerySize
        (isVersion23orHigher version) fuelDepth fuelPages gs).isSome) :
    handleGroupDelete P client K resourcePath fuelDepth fuelPages
      = .ok [Mutation.delta
          (addEntitiesOperation P
            ((newParentEntityOf P client K deletedGroup fuelDepth fuelPages).toList
              ++ (affectedUserRefs deletedGroup
                    (getEntitiesByRefs P (getSubgroupRefs deletedGroup))).filterMap
                  (recomputedUserOf P client K fuelDepth fuelPages)))
          (removeEntitiesOperation P
            ([deletedGroup] ++ (oldParentEntityOf P deletedGroup).toList
              ++ getEntitiesByRefs P (getSubgroupRefs deletedGroup)
              ++ (affectedUserRefs deletedGroup
                    (getEntitiesByRefs P (getSubgroupRefs deletedGroup))).filterMap
                  (oldUserEntityOf P)))] := by
  obtain ⟨parsed, hparsed⟩ := createGroupEntities_ok P client K
    (refetchParent P client deletedGroup).toList fuelDepth fuelPages version hver
    (hres _ (Or.inl rfl))
  have husers := updateUserEntities_ok P client K fuelDepth fuelPages version hver hgroups
    (fun id gs h => hres gs (Or.inr ⟨id, h⟩))
    (affectedUserRefs deletedGroup (getEntitiesByRefs P (getSubgroupRefs deletedGroup)))
  simp only [handleGroupDelete, hdel, hparsed, collectUserMemberships_keys, husers,
    newParentEntityOf]

/-! ## Group creation lemmas -/

theorem collectEach_append {α β : Type} (f : α → Option (List β)) (l2 : List α) :
    ∀ l1 : List α,
      collectEach f (l1 ++ l2) = bothAppended (collectEach f l1) (collectEach f l2) := by
  intro l1
  induction l1 with
  | nil => cases h : collectEach f l2 <;> simp [collectEach, bothAppended, h]
  | cons a rest ih =>
    have hcons : collectEach f (a :: rest ++ l2)
        = (match f a, collectEach f (rest ++ l2) with
           | some x, some y => some (x ++ y)
           | _, _ => none) := rfl
    rw [hcons, ih]
    simp only [collectEach]
    cases f a <;> cases collectEach f rest <;> cases collectEach f l2 <;>
      simp [bothAppended]

theorem allOrNone_append {α β : Type} (f : α → Option β) (l2 : List α) :
    ∀ l1 : List α,
      allOrNone f (l1 ++ l2) = bothAppended (allOrNone f l1) (allOrNone f l2) := by
  intro l1
  induction l1 with
  | nil => cases h : allOrNone f l2 <;> simp [allOrNone, bothAppended, h]
  | cons a rest ih =>
    have hcons : allOrNone f (a :: rest ++ l2)
        = (match f a, allOrNone f (rest ++ l2) with
           | some x, some y => some (x :: y)
           | _, _ => none) := rfl
    rw [hcons, ih]
    simp only [allOrNone]
    cases f a <;> cases allOrNone f rest <;> cases allOrNone f l2 <;>
      simp [bothAppended]

theorem processGroupsRecursively_append (client : KcAdminClient) (config : ProviderConfig)
    (K : Constants) (fuel : Nat) (l1 l2 : List KGroup) :
    processGroupsRecursively client config K fuel (l1 ++ l2)
      = bothAppended (processGroupsRecursively client config K fuel l1)
          (processGroupsRecursively client config K fuel l2) := by
  cases fuel with
  | zero => rfl
  | succ f => simp only [processGroupsRecursively, collectEach_append]

theorem resolveHierarchy_append (client : KcAdminClient) (config : ProviderConfig)
    (K : Constants) (uqs : Option Nat) (v23 : Bool) (fuelDepth fuelPages : Nat)
    (l1 l2 : List KGroup) :
    resolveHierarchy client config K uqs v23 fuelDepth fuelPages (l1 ++ l2)
      = bothAppended (resolveHierarchy client config K uqs v23 fuelDepth fuelPages l1)
          (resolveHierarchy client config K uqs v23 fuelDepth fuelPages l2) := by
  cases v23 with
  | true =>
    simp only [resolveHierarchy, if_true, processGroupsRecursively_append]
    cases processGroupsRecursively client config K fuelDepth l1 <;>
      cases processGroupsRecursively client config K fuelDepth l2 <;>
      simp [bothAppended, allOrNone_append]
  | false =>
    simp [resolveHierarchy, flattenEmbedded_eq, allOrNone_append]

theorem bothAppended_isSome {α : Type} (a b : Option (List α))
    (h : (bothAppended a b).isSome) : ∃ x y, a = some x ∧ b = some y := by
  cases a <;> cases b <;> simp [bothAppended] at h
  exact ⟨_, _, rfl, rfl⟩

/-! ## Claims -/

/-- C1 (pagination completeness): when `count` answers `N`, no page fails and `find` returns
the slice `[first, first + max)` of a fixed list of `N` records with pairwise distinct ids,
`getEntities` with page size `P ≥ 1` (the given query size, or the default one) issues exactly
`ceil(N / P)` find calls (the least `k` with `N ≤ k * P`), page `i` with `first = i * P` and
`max = P`, counts no failure, and returns exactly the `N` records in list order, each id
once. -/
theorem getEntities_pagination_complete {α : Type} (ident : α → String) (records : List α)
    (P : Nat) (api : EntitiesAPI α) (config : ProviderConfig) (taskInstanceId : String)
    (K : Constants) (entityQuerySize : Option Nat)
    (hP : 1 ≤ P)
    (hsize : entityQuerySize.getD K.KEYCLOAK_ENTITY_QUERY_SIZE = P)
    (hcount : entityCountOf (api.count config.realm) = records.length)
    (hfind : ∀ q, api.find q = some ((records.drop q.first).take q.max))
    (hids : (records.map ident).Nodup) :
    ∃ r, getEntities api config taskInstanceId K entityQuerySize = some r ∧
      (∀ k, r.calls.length ≤ k ↔ records.length ≤ k * P) ∧
      r.calls.map (fun q => (q.first, q.max))
        = (List.range r.calls.length).map (fun i => (i * P, P)) ∧
      r.entities = records ∧
      r.entities.length = records.length ∧
      (r.entities.map ident).Nodup ∧
      r.failures = [] := by
  have hne : P ≠ 0 := by omega
  have hfind2 : api.find = fun q => some ((records.drop q.first).take q.max) := funext hfind
  have hent : (((List.range ((records.length + P - 1) / P)).map fun i =>
      (records.drop (i * P)).take P).flatten) = records :=
    join_pages_eq P _ records ((ceil_div_le_iff _ _ _ hP).1 (le_refl _))
  refine ⟨_, by simp only [getEntities, hcount, pageCountOf, hsize, if_neg hne]; rfl,
    ?_, ?_, ?_, ?_, ?_, ?_⟩
  · intro k
    simp only [List.length_map, List.length_range]
    exact ceil_div_le_iff _ _ _ hP
  · simp [List.map_map, Function.comp]
  · simp only [hfind2, List.map_map, Function.comp, Option.getD_some]
    exact hent
  · simp only [hfind2, List.map_map, Function.comp, Option.getD_some]
    exact congrArg List.length hent
  · simp only [hfind2, List.map_map, Function.comp, Option.getD_some]
    exact hent.symm ▸ hids
  · simp [hfind2, List.filter_eq_nil_iff]

/-- Why the ids of groups with subgroups are taken to be non-empty, as directory ids are: on
the tree `r > c` whose root had the empty id, the recursive-listing strategy would leave the
parent of `c` unset (the guard `if (g.parentId)` is false on the empty string) while the
embedded-subgroup strategy stamps it with `r`. -/
theorem hierarchy_equivalence_fails_on_empty_id :
    MirrorsList (pairClient "") demoConfig demoConstants (pairTree "") none (pairTop "") ∧
    forestHeight (pairTree "") < 3 ∧
    (resolveHierarchy (pairClient "") demoConfig demoConstants none true 3 1 (pairTop "")).map
        (fun gs => hierarchyTriples gs "demo")
      = some [("r", none, some ["c"]), ("c", none, some [])] ∧
    (resolveHierarchy (pairClient "") demoConfig demoConstants none false 3 1 (pairTree "")).map
        (fun gs => hierarchyTriples gs "demo")
      = some [("r", none, some ["c"]), ("c", some "r", some [])] := by
  refine ⟨?_, by decide, by decide, by decide⟩
  simp [MirrorsList, Mirrors, pairClient, pairTree, pairTop, subGroupQueryOf]

/-- C2 (hierarchy equivalence): for every tree (given as the legacy listing `tree`, which
embeds every subtree) and every version 23 adapter consistent with it (`top` mirrors `tree`),
the ids of the listed groups that have subgroups being non-empty as directory ids are, with
enough fuel for the depth of the tree and for the member pages, the recursive-listing strategy
and the embedded-subgroup strategy both resolve, and the entities built from the two results
carry the same `(name, parent, children)` triples in the same order.  Distinct group names are
not needed. -/
theorem hierarchy_equivalence (modern legacy : KcAdminClient) (config : ProviderConfig)
    (K : Constants) (uqs : Option Nat) (tree top : List KGroup) (fuelDepth fuelPages : Nat)
    (hcons : MirrorsList modern config K tree none top)
    (hid : ∀ r, Listed modern config K top r → 0 < r.subGroupCount → r.id ≠ "")
    (hfuel : forestHeight tree < fuelDepth)
    (hmemM : ∀ id, (getAllGroupMembers modern id config uqs fuelPages).isSome)
    (hmemL : ∀ id, (getAllGroupMembers legacy id config uqs fuelPages).isSome) :
    ∃ gm gl,
      resolveHierarchy modern config K uqs true fuelDepth fuelPages top = some gm ∧
      resolveHierarchy legacy config K uqs false fuelDepth fuelPages tree = some gl ∧
      hierarchyTriples gm config.realm = hierarchyTriples gl config.realm := by
  obtain ⟨raw, hraw, hrawT⟩ := processGroupsRecursively_mirrors modern config K top hid
    fuelDepth tree top none none (fun r hr => Listed.atTop r hr) hcons rfl hfuel
  obtain ⟨gm, hgm, hgmT⟩ := allOrNone_map (enrichGroup modern config K uqs true fuelPages)
    tripleOf (listedTriple modern config K) raw
    (fun a _ => enrichGroup_listed modern config K uqs fuelPages a (hmemM (some a.id)))
  obtain ⟨gl, hgl, hglT⟩ := allOrNone_map (enrichGroup legacy config K uqs false fuelPages)
    tripleOf tripleOf (flattenEmbedded tree)
    (fun a _ => enrichGroup_embedded legacy config K uqs fuelPages a (hmemL (some a.id)))
  refine ⟨gm, gl, by simp [resolveHierarchy, hraw, hgm], by simp [resolveHierarchy, hgl], ?_⟩
  rw [hierarchyTriples_eq, hierarchyTriples_eq, hgmT, hglT, hrawT, flattenEmbedded_eq]

/-- Witness of C2 on the tree `r > c` with root id `g1`. -/
theorem hierarchy_equivalence_witness :
    ∃ gm gl,
      resolveHierarchy (pairClient "g1") demoConfig demoConstants none true 3 1 (pairTop "g1")
        = some gm ∧
      resolveHierarchy (pairClient "g1") demoConfig demoConstants none false 3 1
        (pairTree "g1") = some gl ∧
      hierarchyTriples gm demoConfig.realm = hierarchyTriples gl demoConfig.realm :=
  hierarchy_equivalence (pairClient "g1") (pairClient "g1") demoConfig demoConstants none
    (pairTree "g1") (pairTop "g1") 3 1
    (by simp [MirrorsList, Mirrors, pairClient, pairTree, pairTop, subGroupQueryOf])
    (by
      intro r hr hpos
      induction hr with
      | atTop r h =>
        simp only [pairTop, List.mem_singleton] at h
        subst h
        decide
      | under r s _ _ hs _ =>
        simp only [pairClient, subGroupQueryOf] at hs
        split at hs
        · simp only [List.mem_singleton] at hs
          subst hs
          decide
        · cases hs)
    (by decide) (fun _ => rfl) (fun _ => rfl)

/-- C3, as stated, fails: the transformer `rejectAndRename` returns nothing for the group `G`
(the only group of that name), yet the result holds a group entity named `G` (built from `g`),
the entity of `P` lists `G` among its children and the user `alice` is a member of `G`. -/
theorem transformer_rejection_fails_on_rename :
    (∀ e r, rejectAndRename e (KGroup.mk "id-G" "G" none none 0
        [KGroup.mk "id-k" "k" none none 0 [] none] (some ["alice"])) r = none) ∧
    (readKeycloakRealm rejectClient demoConfig demoConstants "t1" (optionsWith rejectAndRename)
        1 2).toOption.map realmSummary
      = some ([("alice", some ["G"])],
          [("P", none, some ["G"], some []),
           ("k", none, some [], some []),
           ("G", some "P", some [], some ["alice"])]) := by
  refine ⟨fun _ _ => rfl, by rfl⟩

/-- C3 (transformer rejection, amended): for every directory snapshot (the fetched users and
resolved groups of a run of `readKeycloakRealm`), when the group transformer returns nothing
for every group named `G`, names no accepted entity `G`, and the user transformer adds no
membership, the run returns a result in which no group entity is built from `G` or named `G`,
no group entity has `G` among its children or as its parent, and no user entity has `G` in
its `memberOf`. -/
theorem transformer_rejection (client : KcAdminClient) (config : ProviderConfig)
    (K : Constants) (tid : String) (options : ReadOptions) (fuelDepth fuelPages : Nat)
    (G : String) (kUsers : List KUser) (kGroups : List KGroup) (fails : List String)
    (hfetch : fetchRealm client config K tid options fuelDepth fuelPages
      = .ok (kUsers, kGroups, fails))
    (hreject : ∀ g ∈ kGroups, g.name = G →
      parseGroup g config.realm options.groupTransformer = none)
    (hrename : ∀ g ∈ kGroups, ∀ e,
      parseGroup g config.realm options.groupTransformer = some e → e.name ≠ G)
    (huser : ∀ e u gs e',
      (options.userTransformer.getD noopUserTransformer) e u config.realm gs = some e' →
      ∀ x ∈ e'.memberOf.getD [], x ∈ e.memberOf.getD []) :
    ∃ r, readKeycloakRealm client config K tid options fuelDepth fuelPages = .ok r ∧
      (∀ p ∈ parseGroups kGroups config.realm options.groupTransformer, p.group.name ≠ G) ∧
      r.groups.length = (parseGroups kGroups config.realm options.groupTransformer).length ∧
      (∀ e ∈ r.groups, e.name ≠ G ∧ G ∉ e.children.getD [] ∧ e.parent ≠ some G) ∧
      (∀ e ∈ r.users, G ∉ e.memberOf.getD []) := by
  have hnames : ∀ p ∈ parseGroups kGroups config.realm options.groupTransformer,
      p.entity.name ≠ G := fun p hp =>
    hrename p.group (parseGroups_mem _ _ _ p hp).1 p.entity (parseGroups_mem _ _ _ p hp).2
  have hmapped : ∀ c x,
      jsMapGet (groupMapOf (parseGroups kGroups config.realm options.groupTransformer)) c
        = some x → x ≠ G := by
    intro c x h
    obtain ⟨p, hp, _, hx⟩ := groupMapOf_some _ c x h
    exact hx ▸ hnames p hp
  refine ⟨_, readKeycloakRealm_of_fetch client config K tid options fuelDepth fuelPages
    kUsers kGroups fails hfetch, ?_, ?_, ?_, ?_⟩
  · intro p hp hG
    have hm := parseGroups_mem _ _ _ p hp
    rw [hreject p.group hm.1 hG] at hm
    cases hm.2
  · simp [assembleRealm]
  · intro e he
    simp only [assembleRealm, List.mem_map] at he
    obtain ⟨p, hp, rfl⟩ := he
    refine ⟨hnames p hp, ?_, ?_⟩
    · simp only [resolveGroupEntity, Option.getD_some, List.mem_filterMap, not_exists, not_and]
      intro c _ hc
      exact hmapped c G hc rfl
    · simp only [resolveGroupEntity]
      intro hpar
      cases hpe : p.entity.parent with
      | none => simp [hpe] at hpar
      | some c =>
        simp only [hpe, Option.some_bind] at hpar
        exact hmapped c G hpar rfl
  · intro e he hG
    simp only [assembleRealm, List.mem_map] at he
    obtain ⟨p, hp, rfl⟩ := he
    have hm := (parseUsers_mem _ _ _ _ _ p hp).2
    simp only [parseUser] at hm
    have hsub := huser _ _ _ _ hm G hG
    simp only [userEntityOf, Option.getD_some] at hsub
    cases hidx : jsMapGet (buildGroupIndex
        (parseGroups kGroups config.realm options.groupTransformer)) p.user.username with
    | none => simp [hidx] at hsub
    | some v =>
      simp only [hidx, Option.getD_some] at hsub
      exact buildGroupIndex_values (fun x => x ≠ G) _ [] hnames
        (fun k v h => by simp [jsMapGet] at h) _ v hidx G hsub rfl

/-- Witness of C3: the transformer `rejectOnly` on the tree `P > [G > [k], g]`, where the
result is `alice` in `g`, and the groups `P` (children `g`), `k` (no parent) and `g`. -/
theorem transformer_rejection_witness :
    (readKeycloakRealm rejectClient demoConfig demoConstants "t1" (optionsWith rejectOnly)
        1 2).toOption.map realmSummary
      = some ([("alice", some ["g"])],
          [("P", none, some ["g"], some []),
           ("k", none, some [], some []),
           ("g", some "P", some [], some ["alice"])]) ∧
    ∃ r, readKeycloakRealm rejectClient demoConfig demoConstants "t1" (optionsWith rejectOnly)
        1 2 = .ok r ∧
      (∀ p ∈ parseGroups rejectGroups demoConfig.realm (optionsWith rejectOnly).groupTransformer,
        p.group.name ≠ "G") ∧
      r.groups.length
        = (parseGroups rejectGroups demoConfig.realm
            (optionsWith rejectOnly).groupTransformer).length ∧
      (∀ e ∈ r.groups, e.name ≠ "G" ∧ "G" ∉ e.children.getD [] ∧ e.parent ≠ some "G") ∧
      (∀ e ∈ r.users, "G" ∉ e.memberOf.getD []) :=
  ⟨by rfl,
   transformer_rejection rejectClient demoConfig demoConstants "t1" (optionsWith rejectOnly)
    1 2 "G" [alice] rejectGroups [] (by rfl)
    (by
      intro g hg hname
      simp only [rejectGroups, List.mem_cons, List.mem_singleton, List.not_mem_nil,
        or_false] at hg
      rcases hg with rfl | rfl | rfl | rfl <;>
        first
          | rfl
          | exact absurd hname (by decide))
    (by
      intro g hg e he
      simp only [rejectGroups, List.mem_cons, List.mem_singleton, List.not_mem_nil,
        or_false] at hg
      rcases hg with rfl | rfl | rfl | rfl <;>
        simp [parseGroup, optionsWith, rejectOnly] at he <;>
        (subst he; decide))
    (by
      intro e u gs e' h x hx
      simp only [optionsWith, noopUserTransformer, Option.getD_none, Option.some.injEq] at h
      exact h ▸ hx)⟩

theorem nameOfEmittedGroup_unique (groups : List ParsedGroup)
    (hnodup : (groups.map fun g => g.group.name).Nodup) (g : ParsedGroup) (hg : g ∈ groups) :
    nameOfEmittedGroup groups g.group.name = g.entity.name := by
  obtain ⟨g', hg', hname, hent⟩ := nameOfEmittedGroup_spec groups g.group.name
    (List.mem_map.2 ⟨g, hg, rfl⟩)
  have := List.inj_on_of_nodup_map hnodup hg' hg hname
  rw [← hent, this]

theorem nameOfEmittedUser_unique (users : List ParsedUser)
    (hnodup : (users.map fun u => u.user.username).Nodup) (u : ParsedUser) (hu : u ∈ users) :
    nameOfEmittedUser users u.user.username = u.entity.name := by
  obtain ⟨u', hu', hname, hent⟩ := nameOfEmittedUser_spec users u.user.username
    (List.mem_map.2 ⟨u, hu, rfl⟩)
  have := List.inj_on_of_nodup_map hnodup hu' hu hname
  rw [← hent, this]

/-- C4, as stated, fails: two groups are named `team`, one under `a` and one under `b`, and
the group transformer names every entity after the id of its group.  The subgroup of `a` is
emitted as `id-t1` (its parent is `id-a`), yet the children of `id-a` are `id-t2`, the entity
of the subgroup of `b`: a name is resolved to the last emitted group that carries it. -/
theorem group_references_follow_the_last_name :
    (readKeycloakRealm twinClient demoConfig demoConstants "t1" (optionsWith nameById)
        1 2).toOption.map realmSummary
      = some ([("alice", some ["id-t1", "id-t2"])],
          [("id-a", none, some ["id-t2"], some []),
           ("id-t1", some "id-a", some [], some ["alice"]),
           ("id-b", none, some ["id-t2"], some []),
           ("id-t2", some "id-b", some [], some ["alice"])]) := by
  rfl

/-- C4 (reference resolution, amended): in the result of `readKeycloakRealm`, every group
entity is the transformed entity of an emitted group with its references rewritten as follows:
`spec.members` lists the entity names of exactly those of its directory user names that belong
to an emitted user, in the original order, the others dropped; `spec.children` the same with
directory group names and emitted groups; `spec.parent` is the entity name of the parent when
a group of that directory name was emitted, and absent otherwise.  A directory name is
resolved to the entity name of the last emitted user or group that carries it; when the
emitted groups (users) have pairwise distinct directory names, this is the entity name of the
one group (user) of that name.  Every name so written is the entity name of an emitted user
or group, so no reference to a non-emitted entity remains; with the default transformer the
directory names are those of the group record itself (`members`, names of `subGroups`,
`parent`). -/
theorem group_references_resolved (client : KcAdminClient) (config : ProviderConfig)
    (K : Constants) (tid : String) (options : ReadOptions) (fuelDepth fuelPages : Nat)
    (kUsers : List KUser) (kGroups : List KGroup) (fails : List String)
    (hfetch : fetchRealm client config K tid options fuelDepth fuelPages
      = .ok (kUsers, kGroups, fails)) :
    ∃ r, readKeycloakRealm client config K tid options fuelDepth fuelPages = .ok r ∧
      r.users = (emittedUsers kUsers kGroups config.realm options).map (fun u => u.entity) ∧
      r.groups = (emittedGroups kGroups config.realm options).map (fun p =>
        resolvedGroupReferences (emittedUsers kUsers kGroups config.realm options)
          (emittedGroups kGroups config.realm options) p.entity) ∧
      (∀ m ∈ (emittedUsers kUsers kGroups config.realm options).map (fun u => u.user.username),
        ∃ u ∈ emittedUsers kUsers kGroups config.realm options, u.user.username = m ∧
          u.entity.name = nameOfEmittedUser (emittedUsers kUsers kGroups config.realm options) m) ∧
      (∀ c ∈ (emittedGroups kGroups config.realm options).map (fun g => g.group.name),
        ∃ g ∈ emittedGroups kGroups config.realm options, g.group.name = c ∧
          g.entity.name = nameOfEmittedGroup (emittedGroups kGroups config.realm options) c) ∧
      (∀ e ∈ r.groups,
        (∀ x ∈ e.members.getD [], x ∈ r.users.map (fun u => u.name)) ∧
        (∀ x ∈ e.children.getD [], x ∈ r.groups.map (fun g => g.name)) ∧
        (∀ x, e.parent = some x → x ∈ r.groups.map (fun g => g.name))) ∧
      (options.groupTransformer = none →
        ∀ p ∈ emittedGroups kGroups config.realm options,
          p.entity.members = p.group.members ∧
          p.entity.children = some (p.group.subGroups.map KGroup.name) ∧
          p.entity.parent = p.group.parent) ∧
      (((emittedGroups kGroups config.realm options).map fun g => g.group.name).Nodup →
        ∀ g ∈ emittedGroups kGroups config.realm options,
          nameOfEmittedGroup (emittedGroups kGroups config.realm options) g.group.name
            = g.entity.name) ∧
      (((emittedUsers kUsers kGroups config.realm options).map fun u => u.user.username).Nodup →
        ∀ u ∈ emittedUsers kUsers kGroups config.realm options,
          nameOfEmittedUser (emittedUsers kUsers kGroups config.realm options) u.user.username
            = u.entity.name) := by
  have hgroups : (assembleRealm kUsers kGroups config.realm options fails).groups
      = (emittedGroups kGroups config.realm options).map (fun p =>
        resolvedGroupReferences (emittedUsers kUsers kGroups config.realm options)
          (emittedGroups kGroups config.realm options) p.entity) := by
    simp only [assembleRealm, emittedGroups, emittedUsers, resolveGroupEntity_eq]
  have hgname : ∀ c ∈ (emittedGroups kGroups config.realm options).map (fun g => g.group.name),
      nameOfEmittedGroup (emittedGroups kGroups config.realm options) c
        ∈ (assembleRealm kUsers kGroups config.realm options fails).groups.map
            (fun g => g.name) := by
    intro c hc
    obtain ⟨g, hg, _, hname⟩ := nameOfEmittedGroup_spec _ c hc
    rw [hgroups]
    simp only [List.map_map, List.mem_map, Function.comp]
    exact ⟨g, hg, by simpa [resolvedGroupReferences] using hname⟩
  refine ⟨_, readKeycloakRealm_of_fetch client config K tid options fuelDepth fuelPages
    kUsers kGroups fails hfetch, rfl, hgroups,
    fun m hm => nameOfEmittedUser_spec _ m hm,
    fun c hc => nameOfEmittedGroup_spec _ c hc, ?_, ?_,
    fun hnodup g hg => nameOfEmittedGroup_unique _ hnodup g hg,
    fun hnodup u hu => nameOfEmittedUser_unique _ hnodup u hu⟩
  · intro e he
    rw [hgroups] at he
    simp only [List.mem_map] at he
    obtain ⟨p, _, rfl⟩ := he
    refine ⟨?_, ?_, ?_⟩
    · intro x hx
      simp only [resolvedGroupReferences, Option.getD_some, List.mem_map, List.mem_filter,
        decide_eq_true_eq] at hx
      obtain ⟨m, ⟨_, hm⟩, rfl⟩ := hx
      obtain ⟨u, hu, _, hname⟩ := nameOfEmittedUser_spec _ m (List.mem_map.2 hm)
      exact List.mem_map.2 ⟨u.entity, List.mem_map.2 ⟨u, hu, rfl⟩, hname⟩
    · intro x hx
      simp only [resolvedGroupReferences, Option.getD_some, List.mem_map, List.mem_filter,
        decide_eq_true_eq] at hx
      obtain ⟨c, ⟨_, hc⟩, rfl⟩ := hx
      exact hgname c (List.mem_map.2 hc)
    · intro x hx
      simp only [resolvedGroupReferences] at hx
      cases hp : p.entity.parent with
      | none => simp [hp] at hx
      | some c =>
        simp only [hp] at hx
        by_cases hc : c ∈ (emittedGroups kGroups config.realm options).map
            (fun g => g.group.name)
        · simp only [hc, if_true, Option.some.injEq] at hx
          exact hx ▸ hgname c hc
        · simp [hc] at hx
  · intro hnone p hp
    have hm := (parseGroups_mem _ _ _ p hp).2
    simp only [hnone, parseGroup, noopGroupTransformer, Option.getD_none,
      Option.some.injEq] at hm
    rw [← hm]
    exact ⟨rfl, rfl, rfl⟩

/-- Witness of C4: the run of `rejectClient` with the transformer `rejectOnly`. -/
theorem group_references_resolved_witness :
    ∃ r, readKeycloakRealm rejectClient demoConfig demoConstants "t1" (optionsWith rejectOnly)
        1 2 = .ok r ∧
      realmSummary r = ([("alice", some ["g"])],
          [("P", none, some ["g"], some []),
           ("k", none, some [], some []),
           ("g", some "P", some [], some ["alice"])]) ∧
      r.groups = (emittedGroups rejectGroups demoConfig.realm (optionsWith rejectOnly)).map
        (fun p => resolvedGroupReferences
          (emittedUsers [alice] rejectGroups demoConfig.realm (optionsWith rejectOnly))
          (emittedGroups rejectGroups demoConfig.realm (optionsWith rejectOnly)) p.entity) := by
  obtain ⟨r, hr, _, hg, _⟩ := group_references_resolved rejectClient demoConfig demoConstants
    "t1" (optionsWith rejectOnly) 1 2 [alice] rejectGroups [] (by rfl)
  refine ⟨r, hr, ?_, hg⟩
  have hrun : readKeycloakRealm rejectClient demoConfig demoConstants "t1"
      (optionsWith rejectOnly) 1 2
      = .ok (assembleRealm [alice] rejectGroups demoConfig.realm (optionsWith rejectOnly) []) :=
    by rfl
  rw [hrun] at hr
  cases hr
  rfl

/-- C5, as stated, fails: `carol` is a member of the deleted group `d` but the directory no
longer returns her; her old entity is removed and no recomputed entity is added for her. -/
theorem group_delete_fails_on_missing_user :
    (handleGroupDelete (deleteProvider none)
        (deleteClient [plainUser "u-bob" "bob", plainUser "u-dave" "dave"]) demoConstants
        ["groups", "id-d"] 2 2).toOption.map (List.map mutationSummary)
      = some [(["p", "bob", "dave"], ["d", "p", "s", "bob", "carol", "dave"])] := by
  rfl

/-- C5 (cascading delete, amended): for every GROUP_DELETE event whose group has a catalog
entity, when the server version is known and the sub-fetches end within the fuel, exactly one
delta is applied.  It removes exactly the deleted group's entity, the old parent entity (if
any), every subgroup entity that resolves, and the old entity of every distinct affected user
whose catalog entity resolves with a directory id; it adds exactly the entity derived from
the parent fetched again (if any) and the recomputed entity of every such user that the
directory still returns, as the call of the user transformer has left it (what the call
resolves to is not read).  The affected users are the `hasMember` targets of the deleted
group and of its subgroups, each once. -/
theorem group_delete_delta (P : Provider) (client : KcAdminClient) (K : Constants)
    (resourcePath : List String) (fuelDepth fuelPages : Nat) (deletedGroup : Entity)
    (version : Option String)
    (hdel : (P.catalogApi.getEntities "Group" (resourcePath.get? 1)).head? = some deletedGroup)
    (hver : client.serverInfo = some version)
    (hgroups : ∀ id, (getAllGroups client id P.options.provider
      P.options.provider.groupQuerySize fuelPages).isSome)
    (hres : ∀ gs, DeleteGroupList P client deletedGroup fuelPages gs →
      (resolveHierarchy client P.options.provider K P.options.provider.userQuerySize
        (isVersion23orHigher version) fuelDepth fuelPages gs).isSome) :
    handleGroupDelete P client K resourcePath fuelDepth fuelPages
      = .ok [Mutation.delta
          (addEntitiesOperation P
            ((newParentEntityOf P client K deletedGroup fuelDepth fuelPages).toList
              ++ (affectedUserRefs deletedGroup
                    (getEntitiesByRefs P (getSubgroupRefs deletedGroup))).filterMap
                  (recomputedUserOf P client K fuelDepth fuelPages)))
          (removeEntitiesOperation P
            ([deletedGroup] ++ (oldParentEntityOf P deletedGroup).toList
              ++ getEntitiesByRefs P (getSubgroupRefs deletedGroup)
              ++ (affectedUserRefs deletedGroup
                    (getEntitiesByRefs P (getSubgroupRefs deletedGroup))).filterMap
                  (oldUserEntityOf P)))] ∧
    (affectedUserRefs deletedGroup (getEntitiesByRefs P (getSubgroupRefs deletedGroup))).Nodup ∧
    (∀ ref, ref ∈ affectedUserRefs deletedGroup
          (getEntitiesByRefs P (getSubgroupRefs deletedGroup)) ↔
        ref ∈ relationTargets "hasMember" deletedGroup ∨
        ∃ sub ∈ getEntitiesByRefs P (getSubgroupRefs deletedGroup),
          ref ∈ relationTargets "hasMember" sub) := by
  refine ⟨handleGroupDelete_eq P client K resourcePath fuelDepth fuelPages deletedGroup version
    hdel hver hgroups hres, firstOccurrencesFrom_nodup _ [] List.nodup_nil, ?_⟩
  intro ref
  simp only [affectedUserRefs, firstOccurrences, mem_firstOccurrencesFrom, List.not_mem_nil,
    false_or, List.mem_append, List.mem_flatten, List.mem_map]
  constructor
  · rintro (h | ⟨l, ⟨sub, hsub, rfl⟩, hl⟩)
    · exact Or.inl h
    · exact Or.inr ⟨sub, hsub, hl⟩
  · rintro (h | ⟨sub, hsub, hl⟩)
    · exact Or.inl h
    · exact Or.inr ⟨_, ⟨sub, hsub, rfl⟩, hl⟩

/-- Witness of C5: the deletion of `d` with `bob`, `carol` and `dave` in the directory; `bob`,
a member of `d` and of `s`, appears once on each side.  With the transformer
`sanitizeEmailTransformer` and the directory user `bob@example.org`, the added entity is named
`bob-example-org`. -/
theorem group_delete_delta_witness :
    (handleGroupDelete (deleteProvider none) (deleteClient threeUsers) demoConstants
        ["groups", "id-d"] 2 2).toOption.map (List.map mutationSummary)
      = some [(["p", "bob", "carol", "dave"], ["d", "p", "s", "bob", "carol", "dave"])] ∧
    (handleGroupDelete (deleteProvider (some sanitizeEmailTransformer))
        (deleteClient [plainUser "u-bob" "bob@example.org"]) demoConstants
        ["groups", "id-d"] 2 2).toOption.map (List.map mutationSummary)
      = some [(["p", "bob-example-org"], ["d", "p", "s", "bob", "carol", "dave"])] ∧
    (affectedUserRefs (catalogGroup "d" "id-d"
        [⟨"childOf", "group:default/p"⟩, ⟨"parentOf", "group:default/s"⟩,
         ⟨"hasMember", "user:default/bob"⟩, ⟨"hasMember", "user:default/carol"⟩])
      (getEntitiesByRefs (deleteProvider none) ["group:default/s"])).Nodup := by
  have h := group_delete_delta (deleteProvider none) (deleteClient threeUsers) demoConstants
    ["groups", "id-d"] 2 2
    (catalogGroup "d" "id-d"
        [⟨"childOf", "group:default/p"⟩, ⟨"parentOf", "group:default/s"⟩,
         ⟨"hasMember", "user:default/bob"⟩, ⟨"hasMember", "user:default/carol"⟩])
    (some "24.0.0") (by rfl) rfl (fun _ => rfl)
    (by
      rintro gs (rfl | ⟨id, hid⟩)
      · rfl
      · have : gs = [] := by
          simp [getAllGroups, pageLoop, deleteClient] at hid
          exact hid
        subst this
        rfl)
  exact ⟨by rfl, by rfl, h.2.1⟩

/-- C6, as stated, fails: the catalog holds `t`, a subgroup of the subgroup `s` of the deleted
group `d`, and `erin`, a member of `t`; the delta of the deletion of `d` removes neither `t`
nor `erin` and adds nothing for `erin`. -/
theorem group_delete_misses_deeper_descendants :
    (deleteCatalog.getEntityByRef "group:default/s").map (relationTargets "parentOf")
      = some ["group:default/t"] ∧
    (deleteCatalog.getEntityByRef "group:default/t").map (relationTargets "hasMember")
      = some ["user:default/erin"] ∧
    (deleteCatalog.getEntityByRef "user:default/erin").map (fun e => e.name) = some "erin" ∧
    (handleGroupDelete (deleteProvider none)
        (deleteClient (threeUsers ++ [plainUser "u-erin" "erin"])) demoConstants
        ["groups", "id-d"] 2 2).toOption.map (List.map mutationSummary)
      = some [(["p", "bob", "carol", "dave"], ["d", "p", "s", "bob", "carol", "dave"])] := by
  refine ⟨by rfl, by rfl, by rfl, by rfl⟩

/-- C6 (cascade, amended to one level): for every GROUP_DELETE event whose group has a catalog
entity, when the server version is known and the sub-fetches end within the fuel, the applied
delta removes the deleted group and every catalog group that is a direct subgroup of it (a
`parentOf` target that resolves), and for every user who is a member (`hasMember` target) of
the deleted group or of one of these direct subgroups and whose catalog entity resolves with a
directory id, it removes the old user entity and, when the directory still returns the user,
adds the entity rebuilt from the directory record, as the call of the user transformer has left
it.  Nothing else is part of the delta: a removed entity is the deleted group, its old parent,
a direct subgroup or the old entity of such a member, and an added entity is the one derived
from the parent fetched again or the rebuilt entity of such a member. -/
theorem group_delete_covers_direct_members (P : Provider) (client : KcAdminClient)
    (K : Constants) (resourcePath : List String) (fuelDepth fuelPages : Nat)
    (deletedGroup : Entity) (version : Option String)
    (hdel : (P.catalogApi.getEntities "Group" (resourcePath.get? 1)).head? = some deletedGroup)
    (hver : client.serverInfo = some version)
    (hgroups : ∀ id, (getAllGroups client id P.options.provider
      P.options.provider.groupQuerySize fuelPages).isSome)
    (hres : ∀ gs, DeleteGroupList P client deletedGroup fuelPages gs →
      (resolveHierarchy client P.options.provider K P.options.provider.userQuerySize
        (isVersion23orHigher version) fuelDepth fuelPages gs).isSome) :
    ∃ added removed,
      handleGroupDelete P client K resourcePath fuelDepth fuelPages
        = .ok [Mutation.delta added removed] ∧
      deferred P deletedGroup ∈ removed ∧
      (∀ ref ∈ getSubgroupRefs deletedGroup, ∀ sub,
        P.catalogApi.getEntityByRef ref = some sub → deferred P sub ∈ removed) ∧
      (∀ g, (g = deletedGroup ∨ g ∈ getEntitiesByRefs P (getSubgroupRefs deletedGroup)) →
        ∀ ref ∈ relationTargets "hasMember" g, ∀ old,
          P.catalogApi.getEntityByRef ref = some old → truthy old.keycloakId = true →
          deferred P old ∈ removed ∧
          ∀ u, client.findOneUser old.keycloakId = some u →
            ∃ allGroups parsed,
              getAllGroups client old.keycloakId P.options.provider
                P.options.provider.groupQuerySize fuelPages = some allGroups ∧
              createGroupEntities P client K allGroups fuelDepth fuelPages = .ok parsed ∧
              deferred P ((P.options.userTransformer.getD noopUserTransformer).inPlace
                (userEntityOf u P.options.provider.realm (truthyNames allGroups))
                u P.options.provider.realm parsed) ∈ added) ∧
      (∀ d ∈ removed,
        d = deferred P deletedGroup ∨
        d ∈ (oldParentEntityOf P deletedGroup).toList.map (deferred P) ∨
        d ∈ (getEntitiesByRefs P (getSubgroupRefs deletedGroup)).map (deferred P) ∨
        ∃ g ref, (g = deletedGroup ∨ g ∈ getEntitiesByRefs P (getSubgroupRefs deletedGroup)) ∧
          ref ∈ relationTargets "hasMember" g ∧
          (oldUserEntityOf P ref).map (deferred P) = some d) ∧
      (∀ d ∈ added,
        d ∈ (newParentEntityOf P client K deletedGroup fuelDepth fuelPages).toList.map
            (deferred P) ∨
        ∃ g ref, (g = deletedGroup ∨ g ∈ getEntitiesByRefs P (getSubgroupRefs deletedGroup)) ∧
          ref ∈ relationTargets "hasMember" g ∧
          (recomputedUserOf P client K fuelDepth fuelPages ref).map (deferred P) = some d) := by
  have hmem : ∀ ref, ref ∈ affectedUserRefs deletedGroup
        (getEntitiesByRefs P (getSubgroupRefs deletedGroup)) ↔
      ∃ g, (g = deletedGroup ∨ g ∈ getEntitiesByRefs P (getSubgroupRefs deletedGroup)) ∧
        ref ∈ relationTargets "hasMember" g := by
    intro ref
    simp only [affectedUserRefs, firstOccurrences, mem_firstOccurrencesFrom,
      List.not_mem_nil, false_or, List.mem_append, List.mem_flatten, List.mem_map]
    constructor
    · rintro (h | ⟨l, ⟨sub, hsub, rfl⟩, hl⟩)
      · exact ⟨deletedGroup, Or.inl rfl, h⟩
      · exact ⟨sub, Or.inr hsub, hl⟩
    · rintro ⟨g, rfl | hg, href⟩
      · exact Or.inl href
      · exact Or.inr ⟨_, ⟨g, hg, rfl⟩, href⟩
  refine ⟨_, _, handleGroupDelete_eq P client K resourcePath fuelDepth fuelPages deletedGroup
    version hdel hver hgroups hres, ?_, ?_, ?_, ?_, ?_⟩
  · simp [removeEntitiesOperation]
  · intro ref href sub hsub
    simp only [removeEntitiesOperation, List.mem_map]
    refine ⟨sub, ?_, rfl⟩
    simp only [List.mem_append, getEntitiesByRefs, List.mem_filterMap]
    exact Or.inl (Or.inr ⟨ref, href, hsub⟩)
  · intro g hg ref href old hold hid
    have haff := (hmem ref).2 ⟨g, hg, href⟩
    have hOld : oldUserEntityOf P ref = some old := by
      simp [oldUserEntityOf, hold, hid]
    refine ⟨?_, ?_⟩
    · simp only [removeEntitiesOperation, List.mem_map]
      refine ⟨old, ?_, rfl⟩
      simp only [List.mem_append, List.mem_filterMap]
      exact Or.inr ⟨ref, haff, hOld⟩
    · intro u hu
      obtain ⟨gs, hgs⟩ := Option.isSome_iff_exists.1 (hgroups old.keycloakId)
      obtain ⟨parsed, hparsed⟩ := createGroupEntities_ok P client K gs fuelDepth fuelPages
        version hver (hres gs (Or.inr ⟨old.keycloakId, hgs⟩))
      refine ⟨gs, parsed, hgs, hparsed, ?_⟩
      simp only [addEntitiesOperation, List.mem_map]
      refine ⟨_, ?_, rfl⟩
      simp only [List.mem_append, List.mem_filterMap]
      exact Or.inr ⟨ref, haff, by simp [recomputedUserOf, hOld, hu, hgs, hparsed]⟩
  · intro d hd
    simp only [removeEntitiesOperation, List.map_append, List.mem_append, List.map_cons,
      List.map_nil, List.mem_singleton, List.mem_map, List.mem_filterMap] at hd
    rcases hd with ((hd | hd) | hd) | hd
    · exact Or.inl hd
    · exact Or.inr (Or.inl (List.mem_map.2 hd))
    · exact Or.inr (Or.inr (Or.inl (List.mem_map.2 hd)))
    · obtain ⟨e, ⟨ref, haff, he⟩, rfl⟩ := hd
      obtain ⟨g, hg, href⟩ := (hmem ref).1 haff
      exact Or.inr (Or.inr (Or.inr ⟨g, ref, hg, href, by simp [he]⟩))
  · intro d hd
    simp only [addEntitiesOperation, List.map_append, List.mem_append, List.mem_map,
      List.mem_filterMap] at hd
    rcases hd with hd | hd
    · exact Or.inl (List.mem_map.2 hd)
    · obtain ⟨e, ⟨ref, haff, he⟩, rfl⟩ := hd
      obtain ⟨g, hg, href⟩ := (hmem ref).1 haff
      exact Or.inr ⟨g, ref, hg, href, by simp [he]⟩

/-- Witness of C6: the deletion of `d` with `bob`, `carol` and `dave` in the directory. -/
theorem group_delete_covers_direct_members_witness :
    ∃ added removed,
      handleGroupDelete (deleteProvider none) (deleteClient threeUsers) demoConstants
        ["groups", "id-d"] 2 2 = .ok [Mutation.delta added removed] ∧
      added.map (fun d => d.entity.name) = ["p", "bob", "carol", "dave"] ∧
      removed.map (fun d => d.entity.name) = ["d", "p", "s", "bob", "carol", "dave"] := by
  obtain ⟨added, removed, hrun, _⟩ := group_delete_covers_direct_members (deleteProvider none)
    (deleteClient threeUsers) demoConstants ["groups", "id-d"] 2 2
    (catalogGroup "d" "id-d"
        [⟨"childOf", "group:default/p"⟩, ⟨"parentOf", "group:default/s"⟩,
         ⟨"hasMember", "user:default/bob"⟩, ⟨"hasMember", "user:default/carol"⟩])
    (some "24.0.0") (by rfl) rfl (fun _ => rfl)
    (by
      rintro gs (rfl | ⟨id, hid⟩)
      · rfl
      · have : gs = [] := by
          simp [getAllGroups, pageLoop, deleteClient] at hid
          exact hid
        subst this
        rfl)
  refine ⟨added, removed, hrun, ?_, ?_⟩
  · have hsum : (handleGroupDelete (deleteProvider none) (deleteClient threeUsers)
        demoConstants ["groups", "id-d"] 2 2).toOption.map (List.map mutationSummary)
        = some [(["p", "bob", "carol", "dave"], ["d", "p", "s", "bob", "carol", "dave"])] := by
      rfl
    rw [hrun] at hsum
    simp only [Except.toOption, Option.map_some', List.map_cons, List.map_nil, mutationSummary,
      Option.some.injEq, List.cons.injEq, Prod.mk.injEq, and_true] at hsum
    exact hsum.1
  · have hsum : (handleGroupDelete (deleteProvider none) (deleteClient threeUsers)
        demoConstants ["groups", "id-d"] 2 2).toOption.map (List.map mutationSummary)
        = some [(["p", "bob", "carol", "dave"], ["d", "p", "s", "bob", "carol", "dave"])] := by
      rfl
    rw [hrun] at hsum
    simp only [Except.toOption, Option.map_some', List.map_cons, List.map_nil, mutationSummary,
      Option.some.injEq, List.cons.injEq, Prod.mk.injEq, and_true] at hsum
    exact hsum.2

/-- C10 at the failing input: the user transformer `rejectAllUsers` returns nothing for every
user, yet the delta that `handleGroupDelete` applies adds the rebuilt entities of `bob`,
`carol` and `dave` (the entity of `p` is a group entity). -/
theorem group_delete_adds_rejected_users :
    (∀ e u r gs, rejectAllUsers e u r gs = none) ∧
    (handleGroupDelete (deleteProvider (some rejectAllUsers)) (deleteClient threeUsers)
        demoConstants ["groups", "id-d"] 2 2).toOption.map (List.map mutationSummary)
      = some [(["p", "bob", "carol", "dave"], ["d", "p", "s", "bob", "carol", "dave"])] := by
  refine ⟨fun _ _ _ _ => rfl, by rfl⟩

/-- C7 at the failing input: the old entity of `bob` is a member of the group `d`, which
resolves in the catalog and is live in the directory, yet the added entity has an empty
`memberOf`; and when the membership ref does not resolve, the handler throws. -/
theorem user_edit_drops_live_memberships :
    ((editCatalog "group:default/d").getEntityByRef "group:default/d").map
        (fun e => e.keycloakId) = some (some "id-d") ∧
    (editClient.findOneGroup { id := some "id-d", realm := some "demo" }).map KGroup.name
      = some "d" ∧
    (onUserEdit (editProvider "group:default/d") editClient demoConstants (some "u-bob")
        2 2).toOption.map (List.map membershipSummary)
      = some [([("bob", some [])], [("bob", some ["d"])])] ∧
    onUserEdit (editProvider "group:default/gone") editClient demoConstants (some "u-bob") 2 2
      = .error .typeError := by
  refine ⟨by rfl, by rfl, by rfl, by rfl⟩

/-- C8 at the failing input: the user transformer `sanitizeEmailTransformer` names the entity
of the user `bob@example.org` as `bob-example-org`; the old entity is a member of `d` and the
user is added to the group `s`, yet the added entity has an empty `memberOf` (the map is keyed
by the entity name and read by the user name).  With the default transformer and the user
name `bob` the result is `d`, `s`. -/
theorem membership_change_loses_memberships_on_rename :
    (onMembershipChange (membershipProvider "bob-example-org" (some sanitizeEmailTransformer))
        (membershipClient "bob@example.org") addToGroupEvent 2).toOption.map
        (List.map membershipSummary)
      = some [([("bob-example-org", some [])], [("bob-example-org", some ["d", "s"])])] ∧
    (onMembershipChange (membershipProvider "bob" none) (membershipClient "bob")
        addToGroupEvent 2).toOption.map (List.map membershipSummary)
      = some [([("bob", some ["d", "s"])], [("bob", some ["d", "s"])])] := by
  refine ⟨by rfl, by rfl⟩

theorem allOrNone_cons_some {α β : Type} (f : α → Option β) (a : α) (rest : List α)
    (l : List β) (h : allOrNone f (a :: rest) = some l) :
    ∃ b bs, f a = some b ∧ allOrNone f rest = some bs ∧ l = b :: bs := by
  simp only [allOrNone] at h
  cases hb : f a with
  | none => simp [hb] at h
  | some b =>
    cases hbs : allOrNone f rest with
    | none => simp [hb, hbs] at h
    | some bs =>
      simp only [hb, hbs, Option.some.injEq] at h
      exact ⟨b, bs, rfl, rfl, h.symm⟩

theorem allOrNone_mem {α β : Type} (f : α → Option β) :
    ∀ (l : List α) (out : List β), allOrNone f l = some out →
      ∀ a ∈ l, ∃ b ∈ out, f a = some b := by
  intro l
  induction l with
  | nil => intro out _ a ha; cases ha
  | cons x rest ih =>
    intro out h a ha
    obtain ⟨b, bs, hb, hbs, rfl⟩ := allOrNone_cons_some f x rest out h
    rcases List.mem_cons.1 ha with rfl | ha
    · exact ⟨b, List.mem_cons_self _ _, hb⟩
    · obtain ⟨b', hb', hfb⟩ := ih bs hbs a ha
      exact ⟨b', List.mem_cons_of_mem _ hb', hfb⟩

theorem collectEach_mem_head {α : Type} (f : α → Option (List α))
    (hf : ∀ a x, f a = some x → a ∈ x) :
    ∀ (l out : List α), collectEach f l = some out → ∀ a ∈ l, a ∈ out := by
  intro l
  induction l with
  | nil => intro out _ a ha; cases ha
  | cons x rest ih =>
    intro out h a ha
    have hcons : collectEach f (x :: rest)
        = (match f x, collectEach f rest with
           | some p, some q => some (p ++ q)
           | _, _ => none) := rfl
    rw [hcons] at h
    cases hx : f x with
    | none => simp [hx] at h
    | some p =>
      cases hr : collectEach f rest with
      | none => simp [hx, hr] at h
      | some q =>
        simp only [hx, hr, Option.some.injEq] at h
        subst h
        rcases List.mem_cons.1 ha with rfl | ha
        · exact List.mem_append_left _ (hf _ _ hx)
        · exact List.mem_append_right _ (ih q hr a ha)

theorem processGroupsRecursively_mem (client : KcAdminClient) (config : ProviderConfig)
    (K : Constants) (fuel : Nat) (l out : List KGroup)
    (h : processGroupsRecursively client config K fuel l = some out) :
    ∀ s ∈ l, s ∈ out := by
  cases fuel with
  | zero => simp [processGroupsRecursively] at h
  | succ fuel =>
    simp only [processGroupsRecursively] at h
    refine collectEach_mem_head _ ?_ l out h
    intro a x hx
    by_cases hc : a.subGroupCount > 0
    · simp only [hc, if_true, Option.map_eq_some'] at hx
      obtain ⟨sub, _, rfl⟩ := hx
      exact List.mem_cons_self _ _
    · simp only [hc, if_false, Option.some.injEq] at hx
      subst hx
      exact List.mem_singleton_self _

/-- The raw list of one group: the group itself first; on version 23 and later the groups
listed under it are among the others. -/
theorem rawKGroupsOf_single (client : KcAdminClient) (config : ProviderConfig) (K : Constants)
    (v23 : Bool) (fuelDepth : Nat) (g : KGroup) (raw : List KGroup)
    (h : rawKGroupsOf client config K v23 fuelDepth [g] = some raw) :
    ∃ rest, raw = g :: rest ∧
      (v23 = true → 0 < g.subGroupCount →
        ∀ s ∈ client.listSubGroups (subGroupQueryOf config K g), s ∈ rest) := by
  cases v23 with
  | false =>
    simp only [rawKGroupsOf, Bool.false_eq_true, if_false, Option.some.injEq] at h
    subst h
    cases g with
    | mk i n pid par c subs m =>
      exact ⟨traverseSubGroups n subs,
        by simp [flattenEmbedded, traverseGroups, traverseFrom, stampedParent],
        fun h => by cases h⟩
  | true =>
    simp only [rawKGroupsOf, if_true] at h
    cases fuelDepth with
    | zero => simp [processGroupsRecursively] at h
    | succ fuel =>
      simp only [processGroupsRecursively] at h
      simp only [collectEach] at h
      by_cases hc : g.subGroupCount > 0
      · simp only [hc, if_true] at h
        cases hsub : processGroupsRecursively client config K fuel
            (client.listSubGroups (subGroupQueryOf config K g)) with
        | none => simp [hsub] at h
        | some sub =>
          simp only [hsub, Option.map_some', List.append_nil, Option.some.injEq] at h
          subst h
          exact ⟨sub, rfl, fun _ _ s hs =>
            processGroupsRecursively_mem client config K fuel _ sub hsub s hs⟩
      · simp only [hc, if_false, List.append_nil, Option.some.injEq] at h
        subst h
        exact ⟨[], rfl, fun _ hpos => absurd hpos hc⟩

theorem resolveHierarchy_eq_raw (client : KcAdminClient) (config : ProviderConfig)
    (K : Constants) (uqs : Option Nat) (v23 : Bool) (fuelDepth fuelPages : Nat)
    (topLevel : List KGroup) :
    resolveHierarchy client config K uqs v23 fuelDepth fuelPages topLevel
      = (rawKGroupsOf client config K v23 fuelDepth topLevel).bind
          (allOrNone (enrichGroup client config K uqs v23 fuelPages)) := by
  simp only [resolveHierarchy, rawKGroupsOf]
  cases (if v23 = true then processGroupsRecursively client config K fuelDepth topLevel
    else some (flattenEmbedded topLevel)) <;> rfl

/-- The resolved list of one group: the enriched group itself first; on version 23 and later
the enriched groups listed under it are among the others. -/
theorem resolveHierarchy_single (client : KcAdminClient) (config : ProviderConfig)
    (K : Constants) (uqs : Option Nat) (v23 : Bool) (fuelDepth fuelPages : Nat) (g : KGroup)
    (out : List KGroup)
    (h : resolveHierarchy client config K uqs v23 fuelDepth fuelPages [g] = some out) :
    ∃ k rest, out = k :: rest ∧
      enrichGroup client config K uqs v23 fuelPages g = some k ∧
      (v23 = true → 0 < g.subGroupCount →
        ∀ s ∈ client.listSubGroups (subGroupQueryOf config K g),
          ∃ k' ∈ rest, enrichGroup client config K uqs v23 fuelPages s = some k') := by
  rw [resolveHierarchy_eq_raw] at h
  cases hraw : rawKGroupsOf client config K v23 fuelDepth [g] with
  | none => simp [hraw] at h
  | some raw =>
    simp only [hraw, Option.some_bind] at h
    obtain ⟨rest, rfl, hlisted⟩ := rawKGroupsOf_single client config K v23 fuelDepth g raw hraw
    obtain ⟨k, ks, hk, hks, rfl⟩ := allOrNone_cons_some _ g rest out h
    exact ⟨k, ks, rfl, hk, fun hv hpos s hs =>
      allOrNone_mem _ rest ks hks s (hlisted hv hpos s hs)⟩

theorem enrichGroup_id_name (client : KcAdminClient) (config : ProviderConfig) (K : Constants)
    (uqs : Option Nat) (v23 : Bool) (fuelPages : Nat) (g k : KGroup)
    (h : enrichGroup client config K uqs v23 fuelPages g = some k) :
    k.id = g.id ∧ k.name = g.name := by
  cases g with
  | mk i n pid par c subs m =>
    simp only [enrichGroup, KGroup.id_mk] at h
    cases hm : getAllGroupMembers client (some i) config uqs fuelPages with
    | none => simp [hm] at h
    | some ms =>
      simp only [hm] at h
      cases v23 <;> by_cases hc : c > 0 <;> by_cases hp : truthy pid = true <;>
        simp [KGroup.setMembers, KGroup.setSubGroups, KGroup.setParent, hc, hp] at h <;>
        (subst h; exact ⟨rfl, rfl⟩)

theorem parseGroups_default (kGroups : List KGroup) (realm : String) :
    (parseGroups kGroups realm none).map (fun p => p.entity.name)
      = kGroups.map KGroup.name := by
  induction kGroups with
  | nil => rfl
  | cons g rest ih =>
    simp only [parseGroups, List.filterMap_cons, parseGroup, Option.getD_none,
      noopGroupTransformer, Option.map_some', List.map_cons] at ih ⊢
    rw [ih]

/-- C9, as stated, fails: the parent `p`, the new subgroup `n` and the old entity of `p` all
resolve, and the applied delta adds three entities, the one of `n` twice (once for the
subgroup itself, once as a subgroup listed under `p`). -/
theorem subgroup_create_adds_more_than_two :
    (handleGroupCreate createProvider createClient demoConstants
        (splitPath createSubgroupEvent.resourcePath) createSubgroupEvent 2 2).toOption.map
        (List.map mutationSummary)
      = some [(["n", "p", "n"], ["p"])] := by
  rfl

/-- C9 (subgroup creation, amended): for every subgroup GROUP_CREATE event (resource path of
depth 3) where the parent, the subgroup and the old parent entity all resolve, when the server
version is known and the hierarchy resolves within the fuel, `createGroupEntities` resolves
the two groups into the enriched subgroup, the groups below it, the enriched parent and the
groups below the parent, in this order; on version 23 and later every group that the
directory lists under the parent is among the last ones.  If the group transformer accepts
none of these groups no delta is applied; otherwise exactly one delta is applied, whose
removed list consists of exactly the old parent entity and whose added list holds, in this
order, the entity of every group that the transformer accepts.  With the default transformer
the added entities are named after all these groups, the subgroup first. -/
theorem subgroup_create_delta (P : Provider) (client : KcAdminClient) (K : Constants)
    (resourcePath : List String) (eventPayload : EventPayload) (fuelDepth fuelPages : Nat)
    (subgroupId version : Option String) (newParentGroup subgroup : KGroup)
    (oldParentGroupEntity : Entity)
    (hdepth : resourcePath.length = 3)
    (hrep : eventPayload.representationId = some subgroupId)
    (hparent : client.findOneGroup { id := resourcePath.get? 1, realm := none }
      = some newParentGroup)
    (hsub : client.findOneGroup { id := subgroupId, realm := none } = some subgroup)
    (hold : (P.catalogApi.getEntities "Group" (resourcePath.get? 1)).head?
      = some oldParentGroupEntity)
    (hver : client.serverInfo = some version)
    (hres : (resolveHierarchy client P.options.provider K P.options.provider.userQuerySize
      (isVersion23orHigher version) fuelDepth fuelPages [subgroup, newParentGroup]).isSome) :
    ∃ kSub belowSub kParent belowParent,
      enrichGroup client P.options.provider K P.options.provider.userQuerySize
        (isVersion23orHigher version) fuelPages subgroup = some kSub ∧
      enrichGroup client P.options.provider K P.options.provider.userQuerySize
        (isVersion23orHigher version) fuelPages newParentGroup = some kParent ∧
      kSub.id = subgroup.id ∧ kSub.name = subgroup.name ∧
      kParent.id = newParentGroup.id ∧ kParent.name = newParentGroup.name ∧
      resolveHierarchy client P.options.provider K P.options.provider.userQuerySize
          (isVersion23orHigher version) fuelDepth fuelPages [subgroup, newParentGroup]
        = some (kSub :: belowSub ++ kParent :: belowParent) ∧
      (isVersion23orHigher version = true → 0 < newParentGroup.subGroupCount →
        ∀ s ∈ client.listSubGroups (subGroupQueryOf P.options.provider K newParentGroup),
          ∃ k ∈ belowParent,
            enrichGroup client P.options.provider K P.options.provider.userQuerySize
              (isVersion23orHigher version) fuelPages s = some k) ∧
      handleGroupCreate P client K resourcePath eventPayload fuelDepth fuelPages
        = (if (parseGroups (kSub :: belowSub ++ kParent :: belowParent)
              P.options.provider.realm P.options.groupTransformer).length = 0 then .ok []
           else .ok [Mutation.delta
              (addEntitiesOperation P
                ((parseGroups (kSub :: belowSub ++ kParent :: belowParent)
                  P.options.provider.realm P.options.groupTransformer).map fun g => g.entity))
              (removeEntitiesOperation P [oldParentGroupEntity])]) ∧
      (P.options.groupTransformer = none →
        (parseGroups (kSub :: belowSub ++ kParent :: belowParent)
            P.options.provider.realm P.options.groupTransformer).map (fun g => g.entity.name)
          = subgroup.name :: belowSub.map KGroup.name
              ++ newParentGroup.name :: belowParent.map KGroup.name) := by
  have happ := resolveHierarchy_append client P.options.provider K
    P.options.provider.userQuerySize (isVersion23orHigher version) fuelDepth fuelPages
    [subgroup] [newParentGroup]
  simp only [List.singleton_append] at happ
  have hres2 := hres
  rw [happ] at hres2
  obtain ⟨x, y, hx, hy⟩ := bothAppended_isSome _ _ hres2
  obtain ⟨kSub, belowSub, rfl, hkSub, _⟩ := resolveHierarchy_single client P.options.provider K
    P.options.provider.userQuerySize (isVersion23orHigher version) fuelDepth fuelPages subgroup
    x hx
  obtain ⟨kParent, belowParent, rfl, hkParent, hlisted⟩ := resolveHierarchy_single client
    P.options.provider K P.options.provider.userQuerySize (isVersion23orHigher version)
    fuelDepth fuelPages newParentGroup y hy
  rw [hx, hy] at happ
  simp only [bothAppended] at happ
  obtain ⟨hsid, hsname⟩ := enrichGroup_id_name _ _ _ _ _ _ _ _ hkSub
  obtain ⟨hpid, hpname⟩ := enrichGroup_id_name _ _ _ _ _ _ _ _ hkParent
  have h32 : ¬ (3 : Nat) = 2 := by decide
  refine ⟨kSub, belowSub, kParent, belowParent, hkSub, hkParent, hsid, hsname, hpid, hpname,
    happ, hlisted, ?_, ?_⟩
  · simp only [handleGroupCreate, hdepth, if_neg h32, if_true, hrep, hparent, hsub, hold,
      createGroupEntities, hver, happ]
  · intro hnone
    rw [hnone, parseGroups_default]
    simp [hsname, hpname]

/-- Witness of C9: the creation of the subgroup `n` under `p`; the added entities are those of
`n`, of `p` and of `n` again, as listed under `p`. -/
theorem subgroup_create_delta_witness :
    ∃ kSub belowSub kParent belowParent,
      resolveHierarchy createClient createProvider.options.provider demoConstants none true
          2 2 [KGroup.mk "id-n" "n" (some "id-p") none 0 [] none,
            KGroup.mk "id-p" "p" none none 1 [] none]
        = some (kSub :: belowSub ++ kParent :: belowParent) ∧
      (kSub :: belowSub ++ kParent :: belowParent).map KGroup.name = ["n", "p", "n"] ∧
      handleGroupCreate createProvider createClient demoConstants
          (splitPath createSubgroupEvent.resourcePath) createSubgroupEvent 2 2
        = .ok [Mutation.delta
            (addEntitiesOperation createProvider
              ((parseGroups (kSub :: belowSub ++ kParent :: belowParent) "demo" none).map
                fun g => g.entity))
            (removeEntitiesOperation createProvider [catalogGroup "p" "id-p" []])] :=
  match subgroup_create_delta createProvider createClient demoConstants
    (splitPath createSubgroupEvent.resourcePath) createSubgroupEvent 2 2 (some "id-n")
    (some "24.0.0") (KGroup.mk "id-p" "p" none none 1 [] none)
    (KGroup.mk "id-n" "n" (some "id-p") none 0 [] none) (catalogGroup "p" "id-p" [])
    (by rfl) rfl (by rfl) (by rfl) (by rfl) rfl (by rfl) with
  | ⟨kSub, belowSub, kParent, belowParent, _, _, _, _, _, _, hres, _, hrun, _⟩ =>
    ⟨kSub, belowSub, kParent, belowParent, hres, by
      have h2 : resolveHierarchy createClient createProvider.options.provider demoConstants
          none true 2 2 [KGroup.mk "id-n" "n" (some "id-p") none 0 [] none,
            KGroup.mk "id-p" "p" none none 1 [] none] = some _ := rfl
      have h3 := hres
      rw [show createProvider.options.provider.userQuerySize = none from rfl,
        show isVersion23orHigher (some "24.0.0") = true from rfl] at h3
      rw [h2] at h3
      injection h3 with h3
      rw [← h3]
      rfl, by
      rw [hrun]
      have hlen : (parseGroups (kSub :: belowSub ++ kParent :: belowParent)
          createProvider.options.provider.realm createProvider.options.groupTransformer).length
          ≠ 0 := by
        show (parseGroups _ createProvider.options.provider.realm none).length ≠ 0
        have := congrArg List.length (parseGroups_default
          (kSub :: belowSub ++ kParent :: belowParent) createProvider.options.provider.realm)
        simp only [List.length_map] at this
        rw [this]
        simp
      rw [if_neg hlen]
      rfl⟩

/-- C11 at the failing inputs: a membership event whose user has no catalog entity, a
membership event whose group the directory does not return, a GROUP_DELETE event whose group
has no catalog entity and a USER_UPDATE event with a membership ref that does not resolve all
end with a thrown `TypeError`; the USER_CREATE and GROUP_CREATE handlers do drop the event
when the directory returns no record. -/
theorem missing_record_makes_handlers_throw :
    onMembershipChange emptyCatalogProvider (membershipClient "bob") addToGroupEvent 2
      = .error .typeError ∧
    onMembershipChange (membershipProvider "bob" none) grouplessClient addToGroupEvent 2
      = .error .typeError ∧
    onGroupEvent emptyCatalogProvider (deleteClient threeUsers) demoConstants
      (eventOf "admin.GROUP-DELETE" "groups/id-d") 2 2 = .error .typeError ∧
    onUserEvent (editProvider "group:default/gone") editClient demoConstants
      (eventOf "admin.USER-UPDATE" "users/u-bob") 2 2 = .error .typeError ∧
    onUserEvent emptyCatalogProvider (deleteClient []) demoConstants
      (eventOf "admin.USER-CREATE" "users/u-bob") 2 2 = .ok [] ∧
    onGroupEvent emptyCatalogProvider grouplessClient demoConstants
      (eventOf "admin.GROUP-CREATE" "groups/id-x") 2 2 = .ok [] := by
  refine ⟨by rfl, by rfl, by rfl, by rfl, by rfl, by rfl⟩

/-- C12 at the failing input: five calls of `ensureTokenValid` started at millisecond 90000
on a token that expires at second 100, none of them resumed, invoke `authenticate` five times,
and each caller awaits the promise of its own call. -/
theorem token_refresh_is_not_single_flight :
    needsRefresh 90000 100 = true ∧
    (startCalls 90000 5 runExpiringAt100).authenticateCalls = 5 ∧
    (startCalls 90000 5 runExpiringAt100).awaiting
      = [some 0, some 1, some 2, some 3, some 4] ∧
    (startCalls 90000 5 runExpiringAt100).accessToken = some (.payload (some 100)) := by
  refine ⟨by decide, by decide, by decide, by decide⟩

/-- C13, as stated, fails: at millisecond 70000 a token that expires at second 100 has exactly
thirty seconds left, is not refreshed, and the guard returns with it; and a token that cannot
be decoded is never refreshed. -/
theorem token_guard_keeps_boundary_and_undecodable_tokens :
    ensureTokenValid freshRemote demoConfig 70000 guardExpiringAt100
      = ([], .ok guardExpiringAt100) ∧
    ¬ validBeyond30s 70000 (.payload (some 100)) ∧
    ensureTokenValid freshRemote demoConfig 70000 guardUndecodable
      = ([], .ok guardUndecodable) ∧
    ¬ validBeyond30s 70000 .undecodable := by
  refine ⟨by rfl, ?_, by rfl, ?_⟩
  · rintro ⟨exp, h, hlt⟩
    cases h
    omega
  · rintro ⟨exp, h, _⟩
    cases h

theorem usableExp_eq_some (token : AccessToken) (exp : Nat) (h : usableExp token = some exp) :
    token = .payload (some exp) := by
  cases token with
  | undecodable => simp [usableExp] at h
  | payload e =>
    cases e with
    | none => simp [usableExp] at h
    | some x =>
      by_cases hx : x = 0
      · simp [usableExp, hx] at h
      · simp only [usableExp, if_neg hx, Option.some.injEq] at h
        rw [h]

theorem authenticate_ok (remote : Credentials → Option AccessToken) (provider : ProviderConfig)
    (token : AccessToken) (h : (authenticate remote provider).result = .ok token) :
    ∃ c, credentialsOf provider = some c ∧ remote c = some token ∧
      (authenticate remote provider).calls = [c] := by
  simp only [authenticate] at h ⊢
  cases hc : credentialsOf provider with
  | none => simp [hc] at h
  | some c =>
    cases hr : remote c with
    | none => simp [hc, hr] at h
    | some t =>
      simp only [hc, hr, Except.ok.injEq] at h
      exact ⟨c, rfl, by rw [← h]; exact hr, by simp [hr]⟩

/-- C13 (token guard, amended): for every client whose token, when it has one, decodes to a
payload with a non-zero `exp`, and every current time, assuming `authenticate` (and a refresh
already in flight) installs a token with more than thirty seconds of remaining validity, when
`ensureTokenValid` returns normally the client holds a token with at least thirty seconds of
remaining validity; a client without a token, or with a token within thirty seconds of its
expiry, has called the remote exactly once. -/
theorem token_valid_after_guard (remote : Credentials → Option AccessToken)
    (provider : ProviderConfig) (now : Nat) (s s' : GuardState) (calls : List Credentials)
    (hdec : ∀ token, s.accessToken = some token → (usableExp token).isSome)
    (hauth : ∀ c token, remote c = some token → validBeyond30s now token)
    (hflight : ∀ token, s.refreshTokenPromise = some (.ok token) → validBeyond30s now token)
    (hrun : ensureTokenValid remote provider now s = (calls, .ok s')) :
    (∃ token, s'.accessToken = some token ∧ validAtLeast30s now token) ∧
    ((s.accessToken = none ∨
        ∃ token exp, s.accessToken = some token ∧ usableExp token = some exp ∧
          needsRefresh now exp = true) → calls.length = 1) := by
  have hweak : ∀ token, validBeyond30s now token → validAtLeast30s now token := by
    rintro token ⟨exp, h, hlt⟩
    exact ⟨exp, h, Nat.le_of_lt hlt⟩
  cases htok : s.accessToken with
  | none =>
    simp only [ensureTokenValid, htok, Prod.mk.injEq] at hrun
    obtain ⟨hcalls, hres⟩ := hrun
    cases hauthRes : (authenticate remote provider).result with
    | error e => simp [hauthRes] at hres
    | ok token =>
      simp only [hauthRes, Except.ok.injEq] at hres
      obtain ⟨c, _, hrem, hc⟩ := authenticate_ok remote provider token hauthRes
      refine ⟨⟨token, by rw [← hres], hweak token (hauth c token hrem)⟩, ?_⟩
      intro _
      rw [← hcalls, hc]
      rfl
  | some token =>
    obtain ⟨exp, hexp⟩ := Option.isSome_iff_exists.1 (hdec token htok)
    have htoken := usableExp_eq_some token exp hexp
    simp only [ensureTokenValid, htok, hexp] at hrun
    by_cases hneed : needsRefresh now exp = true
    · simp only [hneed, if_true, Prod.mk.injEq] at hrun
      obtain ⟨hcalls, hres⟩ := hrun
      cases hauthRes : (authenticate remote provider).result with
      | error e => simp [awaitRefresh, hauthRes] at hres
      | ok t =>
        simp only [awaitRefresh, hauthRes, Except.ok.injEq] at hres
        obtain ⟨c, _, hrem, hc⟩ := authenticate_ok remote provider t hauthRes
        refine ⟨⟨t, by rw [← hres], hweak t (hauth c t hrem)⟩, ?_⟩
        intro _
        rw [← hcalls, hc]
        rfl
    · have hres : awaitRefresh s = .ok s' := by
        have h2 := congrArg Prod.snd hrun
        simpa [hneed] using h2
      refine ⟨?_, ?_⟩
      · cases hfl : s.refreshTokenPromise with
        | none =>
          simp only [awaitRefresh, hfl, Except.ok.injEq] at hres
          refine ⟨token, by rw [← hres, htok], exp, htoken, ?_⟩
          simp only [needsRefresh, decide_eq_true_eq] at hneed
          omega
        | some settled =>
          cases settled with
          | error e => simp [awaitRefresh, hfl] at hres
          | ok t =>
            simp only [awaitRefresh, hfl, Except.ok.injEq] at hres
            exact ⟨t, by rw [← hres], hweak t (hflight t hfl)⟩
      · rintro (hnone | ⟨token', exp', htok', hexp', hneed'⟩)
        · cases hnone
        · cases htok'
          rw [hexp] at hexp'
          cases hexp'
          exact absurd hneed' hneed

/-- Witness of C13: at millisecond 90000 a token that expires at second 100 is refreshed. -/
theorem token_valid_after_guard_witness :
    ensureTokenValid freshRemote demoConfig 90000 guardExpiringAt100
      = ([{ grantType := "password", clientId := some "admin-cli", username := some "admin",
            password := some "secret", clientSecret := none }],
         .ok { accessToken := some (.payload (some 1000000)), refreshTokenPromise := none }) ∧
    ∃ token, some (AccessToken.payload (some 1000000)) = some token ∧
      validAtLeast30s 90000 token :=
  ⟨by rfl,
   (token_valid_after_guard freshRemote demoConfig 90000 guardExpiringAt100
    { accessToken := some (.payload (some 1000000)), refreshTokenPromise := none }
    [{ grantType := "password", clientId := some "admin-cli", username := some "admin",
       password := some "secret", clientSecret := none }]
    (by
      intro token h
      simp only [guardExpiringAt100, Option.some.injEq] at h
      subst h
      rfl)
    (by
      intro c token h
      simp only [freshRemote, Option.some.injEq] at h
      subst h
      exact ⟨1000000, rfl, by omega⟩)
    (by
      intro token h
      simp [guardExpiringAt100] at h)
    (by rfl)).1⟩

/-- C14, as stated, fails: a configuration without any credential is accepted at load, and so
is one with both the user name and password and the client id and secret. -/
theorem config_without_or_with_both_modes_is_accepted :
    (readProviderConfig "default" (rawConfig none none none none)).toOption.map
        (fun c => (c.username, c.password, c.clientId, c.clientSecret))
      = some (none, none, none, none) ∧
    (readProviderConfig "default"
        (rawConfig (some "admin") (some "secret") (some "cli") (some "s3"))).toOption.map
        (fun c => (c.username, c.password, c.clientId, c.clientSecret))
      = some (some "admin", some "secret", some "cli", some "s3") := by
  refine ⟨by rfl, by rfl⟩

/-- C14 (credential modes, amended): `readProviderConfig` accepts a configuration exactly when
the base URL is there and each credential mode is complete or absent (the user name is set if
and only if the password is, the client id if and only if the client secret); a configuration
with a half-set mode is rejected at load with the input error, and an accepted configuration
carries the four credential fields as read. -/
theorem config_accepted_iff_modes_complete (id : String) (raw : RawProviderConfig) :
    ((∃ c, readProviderConfig id raw = .ok c) ↔
      raw.baseUrl.isSome = true ∧ truthy raw.username = truthy raw.password ∧
        truthy raw.clientId = truthy raw.clientSecret) ∧
    ((raw.baseUrl.isSome = true ∧
        (truthy raw.username ≠ truthy raw.password ∨
          truthy raw.clientId ≠ truthy raw.clientSecret)) →
      readProviderConfig id raw = .error .inputError) ∧
    (∀ c, readProviderConfig id raw = .ok c →
      c.username = raw.username ∧ c.password = raw.password ∧ c.clientId = raw.clientId ∧
        c.clientSecret = raw.clientSecret) := by
  cases hb : raw.baseUrl with
  | none => simp [readProviderConfig, hb]
  | some b =>
    cases hu : truthy raw.username <;> cases hp : truthy raw.password <;>
      cases hc : truthy raw.clientId <;> cases hs : truthy raw.clientSecret <;>
      simp [readProviderConfig, hb, hu, hp, hc, hs]

/-- Witness of C14: a configuration with a user name and no password is rejected. -/
theorem config_accepted_iff_modes_complete_witness :
    readProviderConfig "default" (rawConfig (some "admin") none none none)
      = .error .inputError :=
  (config_accepted_iff_modes_complete "default" (rawConfig (some "admin") none none none)).2.1
    ⟨rfl, Or.inl (by decide)⟩

theorem credentialsOf_eq_none (provider : ProviderConfig) :
    credentialsOf provider = none ↔
      ¬ (truthy provider.username = true ∧ truthy provider.password = true) ∧
      ¬ (truthy provider.clientId = true ∧ truthy provider.clientSecret = true) := by
  cases hu : truthy provider.username <;> cases hp : truthy provider.password <;>
    cases hc : truthy provider.clientId <;> cases hs : truthy provider.clientSecret <;>
    simp [credentialsOf, hu, hp, hc, hs]

/-- C15 (authenticate): for every provider configuration and every remote, `authenticate`
issues no `auth` call if and only if neither the user name and password nor the client id and
secret are both set, and then fails with the input error; otherwise it issues exactly one
`auth` call, with the password grant (the client id defaulting to `admin-cli`) when the user
name and password are set and with the client-credentials grant otherwise, and it fails
exactly when the remote rejects that call. -/
theorem authenticate_contract (remote : Credentials → Option AccessToken)
    (provider : ProviderConfig) :
    (((authenticate remote provider).calls = [] ↔
        ¬ (truthy provider.username = true ∧ truthy provider.password = true) ∧
        ¬ (truthy provider.clientId = true ∧ truthy provider.clientSecret = true)) ∧
     ((authenticate remote provider).calls = [] →
        (authenticate remote provider).result = .error .inputError)) ∧
    ((truthy provider.username = true ∧ truthy provider.password = true) →
      (authenticate remote provider).calls
        = [{ grantType := "password", clientId := some (provider.clientId.getD "admin-cli"),
             username := provider.username, password := provider.password,
             clientSecret := none }]) ∧
    (¬ (truthy provider.username = true ∧ truthy provider.password = true) →
      (truthy provider.clientId = true ∧ truthy provider.clientSecret = true) →
      (authenticate remote provider).calls
        = [{ grantType := "client_credentials", clientId := provider.clientId,
             username := none, password := none, clientSecret := provider.clientSecret }]) ∧
    (∀ c, (authenticate remote provider).calls = [c] →
      ((∃ e, (authenticate remote provider).result = .error e) ↔ remote c = none)) := by
  have hcalls : (authenticate remote provider).calls = [] ↔ credentialsOf provider = none := by
    simp only [authenticate]
    cases hc : credentialsOf provider with
    | none => simp
    | some c => cases hr : remote c <;> simp [hr]
  refine ⟨⟨hcalls.trans (credentialsOf_eq_none provider), ?_⟩, ?_, ?_, ?_⟩
  · intro h
    have hnone := hcalls.1 h
    simp [authenticate, hnone]
  · rintro ⟨hu, hp⟩
    simp only [authenticate, credentialsOf, hu, hp, Bool.and_self, if_true]
    cases remote _ <;> rfl
  · intro hno hyes
    have hfirst : (truthy provider.username && truthy provider.password) = false := by
      cases hu : truthy provider.username <;> cases hp : truthy provider.password <;>
        simp_all
    simp only [authenticate, credentialsOf, hfirst, hyes.1, hyes.2, Bool.and_self, if_true,
      Bool.false_eq_true, if_false]
    cases remote _ <;> rfl
  · intro c hc
    simp only [authenticate] at hc ⊢
    cases hcred : credentialsOf provider with
    | none => simp [hcred] at hc
    | some c0 =>
      cases hr : remote c0 with
      | none =>
        simp only [hcred, hr, List.cons.injEq, and_true] at hc
        subst hc
        simp [hr]
      | some t =>
        simp only [hcred, hr, List.cons.injEq, and_true] at hc
        subst hc
        simp [hr]

/-- Witness of C15: the configuration `demoConfig` (user name and password) against a remote
that rejects. -/
theorem authenticate_contract_witness :
    (authenticate (fun _ => none) demoConfig).calls
      = [{ grantType := "password", clientId := some "admin-cli", username := some "admin",
           password := some "secret", clientSecret := none }] ∧
    (authenticate (fun _ => none) demoConfig).result = .error .authRejected :=
  ⟨(authenticate_contract (fun _ => none) demoConfig).2.1 ⟨rfl, rfl⟩, rfl⟩

theorem flatten_getD_eq_filterMap {α : Type} (pages : List (Option (List α))) :
    (pages.map fun p => p.getD []).flatten = (pages.filterMap fun p => p).flatten := by
  induction pages with
  | nil => rfl
  | cons p rest ih =>
    cases p with
    | none => simpa using ih
    | some x => simp [ih]

/-- C16 (failed pages): for every page size `P ≥ 1` and whatever pages fail, `getEntities`
returns: it issues the `ceil(N / P)` page calls, returns the concatenation, in page order, of
the records of the pages whose `find` did not fail, and increments the batch failure counter
once per failed page, every increment tagged with the task instance id. -/
theorem getEntities_absorbs_failed_pages {α : Type} (api : EntitiesAPI α)
    (config : ProviderConfig) (taskInstanceId : String) (K : Constants)
    (entityQuerySize : Option Nat) (P : Nat)
    (hP : 1 ≤ P) (hsize : entityQuerySize.getD K.KEYCLOAK_ENTITY_QUERY_SIZE = P) :
    ∃ r, getEntities api config taskInstanceId K entityQuerySize = some r ∧
      r.calls = (List.range ((entityCountOf (api.count config.realm) + P - 1) / P)).map
        (pageQuery config K P) ∧
      r.entities = (r.calls.filterMap api.find).flatten ∧
      r.failures = List.replicate
        (r.calls.filter fun q => (api.find q).isNone).length taskInstanceId := by
  have hne : P ≠ 0 := by omega
  refine ⟨_, by simp only [getEntities, pageCountOf, hsize, if_neg hne]; rfl, ?_, ?_, ?_⟩
  · rfl
  · simp only [flatten_getD_eq_filterMap, List.filterMap_map]
    rfl
  · have hconst : ∀ (l : List (Option (List α))),
        l.map (fun _ => taskInstanceId) = List.replicate l.length taskInstanceId := by
      intro l
      induction l with
      | nil => rfl
      | cons a rest ih => simp [List.replicate_succ, ih]
    simp only [hconst]
    congr 1
    rw [List.filter_map, List.length_map]
    rfl

/-- Witness of C16: five records in pages of two, the second page failing. -/
theorem getEntities_absorbs_failed_pages_witness :
    (getEntities (flakyApi [1, 2, 3, 4, 5] 2 [1]) demoConfig "t1" demoConstants (some 2)).map
        (fun r => (r.entities, r.failures)) = some ([1, 2, 5], ["t1"]) ∧
    ∃ r, getEntities (flakyApi [1, 2, 3, 4, 5] 2 [1]) demoConfig "t1" demoConstants (some 2)
        = some r ∧
      r.entities = (r.calls.filterMap (flakyApi [1, 2, 3, 4, 5] 2 [1]).find).flatten := by
  obtain ⟨r, hr, _, hent, _⟩ := getEntities_absorbs_failed_pages (flakyApi [1, 2, 3, 4, 5] 2 [1])
    demoConfig "t1" demoConstants (some 2) 2 (by decide) rfl
  exact ⟨by rfl, r, hr, hent⟩

theorem pageLoop_until_empty {α β : Type} (list : PageQuery → List α) (f : α → β)
    (id : Option String) (realm : String) (size n : Nat)
    (hfull : ∀ i, i < n →
      list { id := id, max := size, realm := realm, first := i * size } ≠ [])
    (hempty : list { id := id, max := size, realm := realm, first := n * size } = []) :
    ∀ (k p fuel : Nat) (calls : List PageQuery) (acc : List β), p + k = n → k < fuel →
      pageLoop list f id realm size fuel p calls acc
        = some (calls ++ (List.range' p (k + 1)).map (fun i =>
              ({ id := id, max := size, realm := realm, first := i * size } : PageQuery)),
            acc ++ ((List.range' p k).map fun i =>
              (list { id := id, max := size, realm := realm, first := i * size }).map
                f).flatten) := by
  intro k
  induction k with
  | zero =>
    intro p fuel calls acc hp hfuel
    obtain ⟨fuel', rfl⟩ : ∃ m, fuel = m + 1 := ⟨fuel - 1, by omega⟩
    have hpn : p = n := by omega
    subst hpn
    simp [pageLoop, hempty]
  | succ k ih =>
    intro p fuel calls acc hp hfuel
    obtain ⟨fuel', rfl⟩ : ∃ m, fuel = m + 1 := ⟨fuel - 1, by omega⟩
    have hne := hfull p (by omega)
    have hpos : 0 < (list { id := id, max := size, realm := realm, first := p * size }).length :=
      List.length_pos.2 hne
    simp only [pageLoop, hpos, gt_iff_lt, if_true]
    rw [ih (p + 1) fuel' _ _ (by omega) (by omega)]
    simp [List.range'_succ, List.append_assoc]

/-- C17, as stated, fails: with the page size 100 the first page of the group `id-s` returns
three members, fewer than 100, and `getAllGroupMembers` still issues a second `listMembers`
call, at `first = 100`. -/
theorem short_page_is_followed_by_another_call :
    (threeMemberClient.listMembers (memberQuery (some "id-s") demoConfig none 0)).length = 3 ∧
    (getAllGroupMembersTrace threeMemberClient (some "id-s") demoConfig none 5).map
        (fun t => (t.1.map (fun q => (q.first, q.max)), t.2))
      = some ([(0, 100), (100, 100)], ["u1", "u2", "u3"]) := by
  refine ⟨by rfl, by rfl⟩

/-- C17 (member pages, amended): for every group and page size `P` (`userQuerySize`, 100 when
unset or zero), when page `n` is the first page without members and the fuel exceeds `n`,
`getAllGroupMembers` requests exactly the pages `0, 1, ..., n`, at `first = 0, P, ..., n * P`
with `max = P`, and returns the user names of the pages before `n` in order: no call follows
the first empty page, while a non-empty page, also a short one, is followed by one more
call. -/
theorem getAllGroupMembers_stops_at_first_empty_page (client : KcAdminClient)
    (groupId : Option String) (config : ProviderConfig) (userQuerySize : Option Nat)
    (n fuel : Nat)
    (hfull : ∀ i, i < n → client.listMembers (memberQuery groupId config userQuerySize i) ≠ [])
    (hempty : client.listMembers (memberQuery groupId config userQuerySize n) = [])
    (hfuel : n < fuel) :
    getAllGroupMembersTrace client groupId config userQuerySize fuel
      = some ((List.range (n + 1)).map (memberQuery groupId config userQuerySize),
          ((List.range n).map fun i =>
            (client.listMembers (memberQuery groupId config userQuerySize i)).map
              fun m => m.username).flatten) ∧
    getAllGroupMembers client groupId config userQuerySize fuel
      = some ((List.range n).map fun i =>
            (client.listMembers (memberQuery groupId config userQuerySize i)).map
              fun m => m.username).flatten := by
  have h := pageLoop_until_empty client.listMembers (fun m => m.username) groupId config.realm
    (querySizeOr100 userQuerySize) n hfull hempty n 0 fuel [] [] (by omega) hfuel
  have htrace : getAllGroupMembersTrace client groupId config userQuerySize fuel
      = some ((List.range (n + 1)).map (memberQuery groupId config userQuerySize),
          ((List.range n).map fun i =>
            (client.listMembers (memberQuery groupId config userQuerySize i)).map
              fun m => m.username).flatten) := by
    rw [getAllGroupMembersTrace, h]
    simp only [List.nil_append, List.range_eq_range']
    rfl
  exact ⟨htrace, by rw [getAllGroupMembers, htrace]; rfl⟩

/-- Witness of C17: the three members of `id-s` in pages of two; the third page is the first
empty one. -/
theorem getAllGroupMembers_stops_at_first_empty_page_witness :
    getAllGroupMembers threeMemberClient (some "id-s") demoConfig (some 2) 5
      = some ["u1", "u2", "u3"] ∧
    (getAllGroupMembersTrace threeMemberClient (some "id-s") demoConfig (some 2) 5).map
        (fun t => t.1.map (fun q => q.first)) = some [0, 2, 4] := by
  have h := getAllGroupMembers_stops_at_first_empty_page threeMemberClient (some "id-s")
    demoConfig (some 2) 2 5
    (by
      intro i hi
      have : i = 0 ∨ i = 1 := by omega
      rcases this with rfl | rfl <;> simp [threeMemberClient, memberQuery, querySizeOr100])
    (by rfl) (by decide)
  exact ⟨by rw [h.2]; rfl, by rw [h.1]; rfl⟩

/-- C18 at the failing input: for the version string `100.0.0` the first two characters parse
to 10, so the embedded-subgroup strategy is selected although the major version 100 is at
least 23, and `createGroupEntities` misses the listed subgroup `n` of `p`; the versions
`23.0.1`, `24.0.0` select the recursive listing, `22.0.5` and `9.0.0` the embedded one. -/
theorem three_digit_major_selects_embedded_strategy :
    getServerVersion (some "100.0.0") = some 10 ∧
    isVersion23orHigher (some "100.0.0") = false ∧
    isVersion23orHigher (some "23.0.1") = true ∧
    isVersion23orHigher (some "24.0.0") = true ∧
    isVersion23orHigher (some "22.0.5") = false ∧
    isVersion23orHigher (some "9.0.0") = false ∧
    (createGroupEntities createProvider (versionedClient "24.0.0") demoConstants
        [KGroup.mk "id-p" "p" none none 1 [] none] 2 2).toOption.map
        (List.map fun g => g.entity.name) = some ["p", "n"] ∧
    (createGroupEntities createProvider (versionedClient "100.0.0") demoConstants
        [KGroup.mk "id-p" "p" none none 1 [] none] 2 2).toOption.map
        (List.map fun g => g.entity.name) = some ["p"] := by
  refine ⟨by rfl, by rfl, by rfl, by rfl, by rfl, by rfl, by rfl, by rfl⟩

mutual
theorem traverseFrom_eq_preorder :
    ∀ (stamp : Option String) (g : KGroup),
      traverseFrom stamp g = (preorderWithParent stamp g).map yieldedAs
  | stamp, .mk i n pid par c subs m => by
    have h := traverseSubGroups_eq_preorder n subs
    cases stamp <;>
      simp [traverseFrom, preorderWithParent, yieldedAs, stampedParent, KGroup.setParent, h]
theorem traverseSubGroups_eq_preorder :
    ∀ (parentName : String) (gs : List KGroup),
      traverseSubGroups parentName gs = (preorderForest parentName gs).map yieldedAs
  | _, [] => rfl
  | parentName, g :: rest => by
    have h1 := traverseFrom_eq_preorder (some parentName) g
    have h2 := traverseSubGroups_eq_preorder parentName rest
    simp [traverseSubGroups, preorderForest, h1, h2]
end

mutual
theorem preorderWithParent_length :
    ∀ (p : Option String) (g : KGroup), (preorderWithParent p g).length = treeSize g
  | p, .mk i n pid par c subs m => by
    have h := preorderForest_length n subs
    simp [preorderWithParent, treeSize, h]
theorem preorderForest_length :
    ∀ (parentName : String) (gs : List KGroup),
      (preorderForest parentName gs).length = forestSize gs
  | _, [] => rfl
  | parentName, g :: rest => by
    have h1 := preorderWithParent_length (some parentName) g
    have h2 := preorderForest_length parentName rest
    simp [preorderForest, forestSize, h1, h2]
end

mutual
theorem preorderWithParent_edges :
    ∀ (p : Option String) (g : KGroup) (entry : Option String × KGroup),
      entry ∈ preorderWithParent p g →
      entry = (p, g) ∨
        ∃ node ∈ (preorderWithParent p g).map Prod.snd,
          entry.1 = some node.name ∧ entry.2 ∈ node.subGroups
  | p, .mk i n pid par c subs m, entry, h => by
    simp only [preorderWithParent, List.mem_cons] at h
    rcases h with h | h
    · exact Or.inl h
    · right
      rcases preorderForest_edges n subs entry h with ⟨h1, h2⟩ | ⟨node, hnode, h1, h2⟩
      · exact ⟨.mk i n pid par c subs m, by simp [preorderWithParent], by simpa using h1,
          by simpa using h2⟩
      · exact ⟨node, by simp [preorderWithParent, hnode], h1, h2⟩
theorem preorderForest_edges :
    ∀ (parentName : String) (gs : List KGroup) (entry : Option String × KGroup),
      entry ∈ preorderForest parentName gs →
      (entry.1 = some parentName ∧ entry.2 ∈ gs) ∨
        ∃ node ∈ (preorderForest parentName gs).map Prod.snd,
          entry.1 = some node.name ∧ entry.2 ∈ node.subGroups
  | _, [], entry, h => by simp [preorderForest] at h
  | parentName, g :: rest, entry, h => by
    simp only [preorderForest, List.mem_append] at h
    rcases h with h | h
    · rcases preorderWithParent_edges (some parentName) g entry h with h1 | ⟨node, hnode, h1, h2⟩
      · left
        subst h1
        exact ⟨rfl, List.mem_cons_self _ _⟩
      · right
        refine ⟨node, ?_, h1, h2⟩
        simp only [preorderForest, List.map_append, List.mem_append]
        exact Or.inl hnode
    · rcases preorderForest_edges parentName rest entry h with ⟨h1, h2⟩ | ⟨node, hnode, h1, h2⟩
      · exact Or.inl ⟨h1, List.mem_cons_of_mem _ h2⟩
      · right
        refine ⟨node, ?_, h1, h2⟩
        simp only [preorderForest, List.map_append, List.mem_append]
        exact Or.inr hnode
end

/-- C19 (traversal): for every group, `traverseGroups` yields the nodes of the embedded tree in
depth-first pre-order (the group itself first, then the subtree of each subgroup in listing
order), one yield per node; the root is yielded as it is, and every other node with its
`parent` set to the name of its parent node, that is of a node of the tree that lists it among
its subgroups. -/
theorem traverseGroups_preorder (group : KGroup) :
    traverseGroups group = (preorderWithParent none group).map yieldedAs ∧
    (traverseGroups group).length = treeSize group ∧
    (traverseGroups group).head? = some group ∧
    (∀ entry ∈ preorderWithParent none group,
      (entry = (none, group) ∧ yieldedAs entry = group) ∨
      ∃ node ∈ (preorderWithParent none group).map Prod.snd,
        entry.2 ∈ node.subGroups ∧ (yieldedAs entry).parent = some node.name ∧
          (yieldedAs entry).name = entry.2.name ∧
          (yieldedAs entry).subGroups = entry.2.subGroups) := by
  have heq := traverseFrom_eq_preorder none group
  refine ⟨heq, ?_, ?_, ?_⟩
  · rw [traverseGroups, heq, List.length_map, preorderWithParent_length]
  · cases group with
    | mk i n pid par c subs m => simp [traverseGroups, traverseFrom, stampedParent]
  · intro entry hentry
    rcases preorderWithParent_edges none group entry hentry with h | ⟨node, hnode, h1, h2⟩
    · left
      subst h
      exact ⟨rfl, rfl⟩
    · right
      obtain ⟨p, g⟩ := entry
      simp only at h1 h2
      subst h1
      refine ⟨node, hnode, h2, ?_, ?_, ?_⟩ <;>
        cases g with
        | mk i n pid par c subs m => simp [yieldedAs, KGroup.setParent]

/-- Witness of C19: the tree `P > [G > [k], g]`. -/
theorem traverseGroups_preorder_witness :
    (traverseGroups (KGroup.mk "id-P" "P" none none 0
      [KGroup.mk "id-G" "G" none none 0 [KGroup.mk "id-k" "k" none none 0 [] none] none,
       KGroup.mk "id-g" "g" none none 0 [] none] none)).map
        (fun g => (g.name, g.parent))
      = [("P", none), ("G", some "P"), ("k", some "G"), ("g", some "P")] ∧
    (traverseGroups (KGroup.mk "id-P" "P" none none 0
      [KGroup.mk "id-G" "G" none none 0 [KGroup.mk "id-k" "k" none none 0 [] none] none,
       KGroup.mk "id-g" "g" none none 0 [] none] none)).length = 4 := by
  have h := traverseGroups_preorder (KGroup.mk "id-P" "P" none none 0
      [KGroup.mk "id-G" "G" none none 0 [KGroup.mk "id-k" "k" none none 0 [] none] none,
       KGroup.mk "id-g" "g" none none 0 [] none] none)
  exact ⟨by rfl, by rw [h.2.1]; rfl⟩

theorem indexUpTo_step (names : List String) (n : String) (done : List String)
    (index : List (String × List String)) (member : String)
    (hnew : member ∉ done) (h : IndexUpTo names n done index) :
    IndexUpTo names n (done ++ [member])
      (jsMapSet index member ((jsMapGet index member).getD [] ++ [n])) := by
  intro k v hget
  rw [jsMapGet_set] at hget
  by_cases hk : member = k
  · subst hk
    simp only [if_true, Option.some.injEq] at hget
    subst hget
    cases hcur : jsMapGet index member with
    | none => simp
    | some cur =>
      obtain ⟨hnd, helems, hdone⟩ := h member cur hcur
      have hn : n ∉ cur := fun hin => hnew (hdone hin)
      simp only [Option.getD_some]
      refine ⟨?_, ?_, ?_⟩
      · rw [List.nodup_append]
        refine ⟨hnd, List.nodup_singleton n, ?_⟩
        intro x hx hxn
        simp only [List.mem_singleton] at hxn
        exact hn (hxn ▸ hx)
      · intro x hx
        rcases List.mem_append.1 hx with hx | hx
        · exact helems x hx
        · exact Or.inr (by simpa using hx)
      · intro _
        simp
  · simp only [hk, if_false] at hget
    obtain ⟨hnd, helems, hdone⟩ := h k v hget
    exact ⟨hnd, helems, fun hin => List.mem_append_left _ (hdone hin)⟩

theorem indexUpTo_members (names : List String) (n : String) :
    ∀ (members done : List String) (index : List (String × List String)),
      (done ++ members).Nodup → IndexUpTo names n done index →
      IndexUpTo names n (done ++ members)
        (members.foldl (fun index member =>
          jsMapSet index member ((jsMapGet index member).getD [] ++ [n])) index) := by
  intro members
  induction members with
  | nil => intro done index _ h; simpa using h
  | cons m rest ih =>
    intro done index hnd h
    have hm : m ∉ done := by
      intro hin
      have := (List.nodup_append.1 hnd).2.2
      exact this hin (List.mem_cons_self _ _)
    have hnd' : ((done ++ [m]) ++ rest).Nodup := by simpa [List.append_assoc] using hnd
    have := ih (done ++ [m]) _ hnd' (indexUpTo_step names n done index m hm h)
    simpa [List.append_assoc] using this

theorem indexOver_groups :
    ∀ (groups : List ParsedGroup) (names : List String) (index : List (String × List String)),
      (names ++ groups.map fun g => g.entity.name).Nodup →
      (∀ g ∈ groups, ∀ ms, g.group.members = some ms → ms.Nodup) →
      IndexOver names index →
      IndexOver (names ++ groups.map fun g => g.entity.name)
        (groups.foldl (fun index group =>
          match group.group.members with
          | none => index
          | some members =>
            members.foldl (fun index member =>
              jsMapSet index member ((jsMapGet index member).getD [] ++ [group.entity.name]))
              index) index) := by
  intro groups
  induction groups with
  | nil => intro names index _ _ h; simpa using h
  | cons g rest ih =>
    intro names index hnd hmem h
    have hn : g.entity.name ∉ names := by
      intro hin
      have := (List.nodup_append.1 hnd).2.2
      exact this hin (by simp)
    have hnd' : ((names ++ [g.entity.name]) ++ rest.map fun g => g.entity.name).Nodup := by
      simpa [List.append_assoc] using hnd
    have hstep : IndexOver (names ++ [g.entity.name])
        (match g.group.members with
          | none => index
          | some members =>
            members.foldl (fun index member =>
              jsMapSet index member ((jsMapGet index member).getD [] ++ [g.entity.name]))
              index) := by
      cases hms : g.group.members with
      | none =>
        intro k v hget
        obtain ⟨h1, h2⟩ := h k v hget
        exact ⟨h1, fun x hx => List.mem_append_left _ (h2 x hx)⟩
      | some ms =>
        have hstart : IndexUpTo names g.entity.name [] index := by
          intro k v hget
          obtain ⟨h1, h2⟩ := h k v hget
          exact ⟨h1, fun x hx => Or.inl (h2 x hx), fun hin => absurd (h2 _ hin) hn⟩
        have hend := indexUpTo_members names g.entity.name ms [] index
          (by simpa using hmem g (List.mem_cons_self _ _) ms hms) hstart
        intro k v hget
        obtain ⟨h1, h2, _⟩ := hend k v hget
        refine ⟨h1, fun x hx => ?_⟩
        rcases h2 x hx with hx | hx
        · exact List.mem_append_left _ hx
        · exact List.mem_append_right _ (by simp [hx])
    have := ih (names ++ [g.entity.name]) _ hnd'
      (fun g' hg' => hmem g' (List.mem_cons_of_mem _ hg')) hstep
    simpa [List.append_assoc] using this

/-- C20, as stated, fails: the directory holds two groups named `team`, under `a` and under
`b`, and `alice` is a member of both; the group index of the full sync maps `alice` to the
list `team`, `team`, which ends up as her `memberOf`. -/
theorem group_index_repeats_shared_names :
    buildGroupIndex (parseGroups
        ((resolveHierarchy twinClient demoConfig demoConstants none false 1 2 twinTree).getD [])
        "demo" none)
      = [("alice", ["team", "team"])] ∧
    (readKeycloakRealm twinClient demoConfig demoConstants "t1" defaultOptions 1 2).toOption.map
        (fun r => r.users.map fun e => (e.name, e.memberOf))
      = some [("alice", some ["team", "team"])] := by
  refine ⟨by rfl, by rfl⟩

/-- C20 (group index, amended): for every list of resolved groups whose entities have pairwise
distinct names and none of which lists a member twice, the group index built during a full
sync maps every user name to a list of group names without duplicate, each of them the entity
name of one of the groups. -/
theorem group_index_has_no_duplicates (groups : List ParsedGroup)
    (hnames : (groups.map fun g => g.entity.name).Nodup)
    (hmembers : ∀ g ∈ groups, ∀ ms, g.group.members = some ms → ms.Nodup) :
    ∀ username names, jsMapGet (buildGroupIndex groups) username = some names →
      names.Nodup ∧ ∀ x ∈ names, x ∈ groups.map fun g => g.entity.name := by
  have h := indexOver_groups groups [] [] (by simpa using hnames) hmembers
    (fun k v hget => by simp [jsMapGet] at hget)
  intro username names hget
  have := h username names hget
  simpa using this

/-- Witness of C20: the groups of `rejectClient` accepted by `rejectOnly`. -/
theorem group_index_has_no_duplicates_witness :
    buildGroupIndex (parseGroups rejectGroups "demo" (some rejectOnly)) = [("alice", ["g"])] ∧
    ∀ username names,
      jsMapGet (buildGroupIndex (parseGroups rejectGroups "demo" (some rejectOnly))) username
        = some names →
      names.Nodup ∧
        ∀ x ∈ names,
          x ∈ (parseGroups rejectGroups "demo" (some rejectOnly)).map fun g => g.entity.name :=
  ⟨by rfl,
   group_index_has_no_duplicates (parseGroups rejectGroups "demo" (some rejectOnly))
    (by
      have : (parseGroups rejectGroups "demo" (some rejectOnly)).map (fun g => g.entity.name)
          = ["P", "k", "g"] := by rfl
      rw [this]
      decide)
    (by
      intro g hg ms hms
      have hmem := (parseGroups_mem _ _ _ g hg).1
      simp only [rejectGroups, List.mem_cons, List.mem_singleton, List.not_mem_nil,
        or_false] at hmem
      rcases hmem with h | h | h | h <;> rw [h] at hms <;>
        simp only [KGroup.members_mk, Option.some.injEq] at hms <;> subst hms <;> decide)⟩

/-- C21: for every group record and realm, `parseGroup` with the default transformer (absent,
or the identity transformer itself) returns a Group entity whose name and display name are the
group's name, whose annotations carry the group's id and the realm, whose children are the
names of the group's subgroups in order, whose parent is the group's parent and whose members
are the group's members. -/
theorem parseGroup_default_entity (keycloakGroup : KGroup) (realm : String) :
    ∃ entity, parseGroup keycloakGroup realm none = some entity ∧
      parseGroup keycloakGroup realm (some noopGroupTransformer) = some entity ∧
      entity.apiVersion = "backstage.io/v1beta1" ∧
      entity.kind = "Group" ∧
      entity.name = keycloakGroup.name ∧
      entity.displayName = some keycloakGroup.name ∧
      entity.keycloakId = some keycloakGroup.id ∧
      entity.realm = some realm ∧
      entity.specType = some "group" ∧
      entity.children = some (keycloakGroup.subGroups.map KGroup.name) ∧
      entity.parent = keycloakGroup.parent ∧
      entity.members = keycloakGroup.members :=
  ⟨_, rfl, rfl, rfl, rfl, rfl, rfl, rfl, rfl, rfl, rfl, rfl, rfl⟩

/-- C22: for every user record, realm, group list and group index, `parseUser` with the default
transformer returns a User entity whose name is the username, whose annotations carry the
user's id and the realm, whose email is the user's email, whose `memberOf` is the index entry of
the username (the empty list when there is none), and whose display name is present exactly
when the first or the last name is non-empty; it is then the non-empty ones joined by one
space. -/
theorem parseUser_default_entity (user : KUser) (realm : String)
    (keycloakGroups : List ParsedGroup) (groupIndex : List (String × List String)) :
    ∃ entity, parseUser user realm keycloakGroups groupIndex none = some entity ∧
      parseUser user realm keycloakGroups groupIndex (some noopUserTransformer) = some entity ∧
      entity.apiVersion = "backstage.io/v1beta1" ∧
      entity.kind = "User" ∧
      entity.name = user.username ∧
      entity.keycloakId = some user.id ∧
      entity.realm = some realm ∧
      entity.email = user.email ∧
      entity.memberOf = some ((jsMapGet groupIndex user.username).getD []) ∧
      entity.displayName.isSome = (truthy user.firstName || truthy user.lastName) ∧
      entity.displayName =
        (if truthy user.firstName then
          if truthy user.lastName then
            some (user.firstName.getD "" ++ " " ++ user.lastName.getD "")
          else user.firstName
        else if truthy user.lastName then user.lastName
        else none) := by
  refine ⟨_, rfl, rfl, rfl, rfl, rfl, rfl, rfl, rfl, rfl, ?_, ?_⟩
  · show (displayNameOf user.firstName user.lastName).isSome = _
    unfold displayNameOf
    split <;> simp_all
  · show displayNameOf user.firstName user.lastName = _
    cases hf : user.firstName with
    | none =>
      cases hl : user.lastName with
      | none => rfl
      | some l =>
        by_cases h : l = ""
        · subst h; rfl
        · simp [displayNameOf, truthy, h, List.filterMap_cons, String.intercalate,
            String.intercalate.go]
    | some f =>
      cases hl : user.lastName with
      | none =>
        by_cases h : f = ""
        · subst h; rfl
        · simp [displayNameOf, truthy, h, List.filterMap_cons, String.intercalate,
            String.intercalate.go]
      | some l =>
        by_cases h : f = "" <;> by_cases h2 : l = ""
        · subst h; subst h2; rfl
        · subst h
          simp [displayNameOf, truthy, h2, List.filterMap_cons, String.intercalate,
            String.intercalate.go]
        · subst h2
          simp [displayNameOf, truthy, h, List.filterMap_cons, String.intercalate,
            String.intercalate.go]
        · simp [displayNameOf, truthy, h, h2, List.filterMap_cons, String.intercalate,
            String.intercalate.go]

theorem onUserEventRun_result (P : Provider) (client : KcAdminClient) (K : Constants)
    (eventPayload : EventPayload) (fuelDepth fuelPages : Nat) :
    (onUserEventRun P client K eventPayload fuelDepth fuelPages).result
      = onUserEvent P client K eventPayload fuelDepth fuelPages := by
  unfold onUserEventRun onUserEvent guardedCall
  by_cases hc : (!P.connected) = true
  · simp [hc]
  · simp only [hc, if_false]
    by_cases h1 : eventPayload.eventType = TOPIC_USER_CREATE <;>
      by_cases h2 : eventPayload.eventType = TOPIC_USER_DELETE <;>
      by_cases h3 : eventPayload.eventType = TOPIC_USER_UPDATE <;>
      simp only [h1, h2, h3, decide_True, decide_False, if_true, if_false] <;>
      (repeat' split) <;> simp_all

theorem onGroupEventRun_result (P : Provider) (client : KcAdminClient) (K : Constants)
    (eventPayload : EventPayload) (fuelDepth fuelPages : Nat) :
    (onGroupEventRun P client K eventPayload fuelDepth fuelPages).result
      = onGroupEvent P client K eventPayload fuelDepth fuelPages := by
  unfold onGroupEventRun onGroupEvent guardedCall
  by_cases hc : (!P.connected) = true
  · simp [hc]
  · simp only [hc, if_false]
    by_cases h1 : eventPayload.eventType = "admin.GROUP-CREATE" <;>
      by_cases h2 : eventPayload.eventType = "admin.GROUP-DELETE" <;>
      simp only [h1, h2, decide_True, decide_False, if_true, if_false] <;>
      (repeat' split) <;> simp_all

theorem onMembershipChangeRun_result (P : Provider) (client : KcAdminClient)
    (eventPayload : EventPayload) (fuelPages : Nat) :
    (onMembershipChangeRun P client eventPayload fuelPages).result
      = onMembershipChange P client eventPayload fuelPages := by
  unfold onMembershipChangeRun onMembershipChange
  split
  · rfl
  · simp only []
    split
    · simp only [*]
    · split
      · simp only [*]
      · split
        · simp only [*]
        · split
          · simp only [*]
          · split
            · simp only [*]
            · split <;> simp only [*]

theorem readRun_result (P : Provider) (client : KcAdminClient)
    (remote : Credentials → Option AccessToken) (K : Constants) (taskInstanceId : String)
    (fuelDepth fuelPages : Nat) :
    (readRun P client remote K taskInstanceId fuelDepth fuelPages).result
      = read P client remote K taskInstanceId fuelDepth fuelPages := by
  unfold readRun read
  (repeat' split) <;> simp_all

/-- C23: for a provider without a sink connection, the run of each of `onUserEvent`,
`onMembershipChange`, `onGroupEvent` and `read` takes no step at all (no catalog query, no
directory call, no call of another method, no mutation) and ends with the not-initialized
error, whatever the directory, the catalog, the event and the fuel are. -/
theorem unconnected_provider_fails_fast (P : Provider) (client : KcAdminClient)
    (remote : Credentials → Option AccessToken) (K : Constants) (eventPayload : EventPayload)
    (taskInstanceId : String) (fuelDepth fuelPages : Nat) (h : P.connected = false) :
    onUserEventRun P client K eventPayload fuelDepth fuelPages
        = { steps := [], result := .error .notInitialized } ∧
      onMembershipChangeRun P client eventPayload fuelPages
        = { steps := [], result := .error .notInitialized } ∧
      onGroupEventRun P client K eventPayload fuelDepth fuelPages
        = { steps := [], result := .error .notInitialized } ∧
      readRun P client remote K taskInstanceId fuelDepth fuelPages
        = { steps := [], result := .error .notInitialized } ∧
      onUserEvent P client K eventPayload fuelDepth fuelPages = .error .notInitialized ∧
      onMembershipChange P client eventPayload fuelPages = .error .notInitialized ∧
      onGroupEvent P client K eventPayload fuelDepth fuelPages = .error .notInitialized ∧
      read P client remote K taskInstanceId fuelDepth fuelPages = .error .notInitialized := by
  have h1 : onUserEventRun P client K eventPayload fuelDepth fuelPages
      = { steps := [], result := .error .notInitialized } := by
    simp [onUserEventRun, h]
  have h2 : onMembershipChangeRun P client eventPayload fuelPages
      = { steps := [], result := .error .notInitialized } := by
    simp [onMembershipChangeRun, h]
  have h3 : onGroupEventRun P client K eventPayload fuelDepth fuelPages
      = { steps := [], result := .error .notInitialized } := by
    simp [onGroupEventRun, h]
  have h4 : readRun P client remote K taskInstanceId fuelDepth fuelPages
      = { steps := [], result := .error .notInitialized } := by
    simp [readRun, h]
  refine ⟨h1, h2, h3, h4, ?_, ?_, ?_, ?_⟩
  · rw [← onUserEventRun_result, h1]
  · rw [← onMembershipChangeRun_result, h2]
  · rw [← onGroupEventRun_result, h3]
  · rw [← readRun_result, h4]

/-- Witness of C23: the provider before `connect`, with no fuel at all, takes no step; once
connected, the same membership event begins with the request token and the catalog query. -/
theorem unconnected_provider_fails_fast_witness :
    unconnectedProvider.connected = false ∧
      (onMembershipChangeRun unconnectedProvider (membershipClient "bob") addToGroupEvent
        0).steps.length = 0 ∧
      onMembershipChangeRun unconnectedProvider (membershipClient "bob") addToGroupEvent 0
        = { steps := [], result := .error .notInitialized } ∧
      read unconnectedProvider createClient freshRemote demoConstants "task" 0 0
        = .error .notInitialized ∧
      (onMembershipChangeRun (membershipProvider "bob" none) (membershipClient "bob")
        addToGroupEvent 2).steps.length = 11 :=
  ⟨rfl, rfl,
    (unconnected_provider_fails_fast unconnectedProvider (membershipClient "bob") freshRemote
      demoConstants addToGroupEvent "task" 0 0 rfl).2.1,
    (unconnected_provider_fails_fast unconnectedProvider createClient freshRemote
      demoConstants addToGroupEvent "task" 0 0 rfl).2.2.2.2.2.2.2, by rfl⟩

/-- C25: every successful run of `read` applies exactly one mutation, of type full; its
entities are the users followed by the groups that `readKeycloakRealm` produced, in that
order and none added or left out, each under the location key `keycloak-org-provider:`
followed by the provider id. -/
theorem read_applies_one_full_mutation (P : Provider) (client : KcAdminClient)
    (remote : Credentials → Option AccessToken) (K : Constants) (taskInstanceId : String)
    (fuelDepth fuelPages : Nat) (mutations : List Mutation)
    (h : read P client remote K taskInstanceId fuelDepth fuelPages = .ok mutations) :
    ∃ realm,
      readKeycloakRealm client P.options.provider K taskInstanceId (readOptionsOf P)
        fuelDepth fuelPages = .ok realm ∧
      mutations = [Mutation.full ((realm.users ++ realm.groups).map fun entity =>
        { locationKey := "keycloak-org-provider:" ++ P.options.id
          entity := withLocations P.options.provider.baseUrl P.options.provider.realm
            entity })] ∧
      mutations.length = 1 := by
  unfold read at h
  split at h
  · cases h
  · split at h
    · cases h
    · split at h
      · cases h
      · split at h
        · cases h
        · rename_i realm hrealm
          injection h with h
          refine ⟨realm, hrealm, h.symm, ?_⟩
          rw [← h]
          rfl

/-- Witness of C25: the full synchronisation of a directory with the group `p` and its
subgroup `n`. -/
theorem read_applies_one_full_mutation_witness :
    ∃ realm,
      readKeycloakRealm createClient createProvider.options.provider demoConstants "task"
        (readOptionsOf createProvider) 3 3 = .ok realm ∧
      read createProvider createClient freshRemote demoConstants "task" 3 3
        = .ok [Mutation.full ((realm.users ++ realm.groups).map fun entity =>
          { locationKey := "keycloak-org-provider:default"
            entity := withLocations "http://kc" "demo" entity })] ∧
      (realm.users ++ realm.groups).map (fun e => e.name) = ["p", "n"] :=
  match read_applies_one_full_mutation createProvider createClient freshRemote demoConstants
      "task" 3 3 _ rfl with
  | ⟨realm, hr, _, _⟩ => ⟨realm, hr, by
      have h2 : readKeycloakRealm createClient createProvider.options.provider demoConstants
          "task" (readOptionsOf createProvider) 3 3 = .ok _ := rfl
      rw [h2] at hr
      injection hr with hr
      rw [← hr]
      exact ⟨rfl, rfl⟩⟩

theorem applyCalls_keeps_user (t : UserTransformer) :
    ∀ (calls : List SetterCall) (s : ExtensionPoint), s.userTransformer = some t →
      (applyCalls s calls).1.userTransformer = some t ∧
      ∀ p ∈ calls.zip (applyCalls s calls).2, p.1.isUser = true → p.2 = true := by
  intro calls
  induction calls with
  | nil => intro s h; exact ⟨h, by simp [applyCalls]⟩
  | cons call rest ih =>
    intro s h
    have hstep : (applyCall s call).1.userTransformer = some t ∧
        (call.isUser = true → (applyCall s call).2 = true) := by
      cases call with
      | user u => simp [applyCall, setUserTransformer, h]
      | group g =>
        by_cases hg : s.groupTransformer.isSome = true
        · simp [applyCall, setGroupTransformer, hg, h, SetterCall.isUser]
        · simp [applyCall, setGroupTransformer, hg, h, SetterCall.isUser]
    obtain ⟨ih1, ih2⟩ := ih (applyCall s call).1 hstep.1
    refine ⟨ih1, ?_⟩
    intro p hp hu
    simp only [applyCalls, List.zip_cons_cons, List.mem_cons] at hp
    rcases hp with hp | hp
    · subst hp
      exact hstep.2 hu
    · exact ih2 p hp hu

theorem applyCalls_keeps_group (t : GroupTransformer) :
    ∀ (calls : List SetterCall) (s : ExtensionPoint), s.groupTransformer = some t →
      (applyCalls s calls).1.groupTransformer = some t ∧
      ∀ p ∈ calls.zip (applyCalls s calls).2, p.1.isUser = false → p.2 = true := by
  intro calls
  induction calls with
  | nil => intro s h; exact ⟨h, by simp [applyCalls]⟩
  | cons call rest ih =>
    intro s h
    have hstep : (applyCall s call).1.groupTransformer = some t ∧
        (call.isUser = false → (applyCall s call).2 = true) := by
      cases call with
      | group g => simp [applyCall, setGroupTransformer, h]
      | user u =>
        by_cases hg : s.userTransformer.isSome = true
        · simp [applyCall, setUserTransformer, hg, h, SetterCall.isUser]
        · simp [applyCall, setUserTransformer, hg, h, SetterCall.isUser]
    obtain ⟨ih1, ih2⟩ := ih (applyCall s call).1 hstep.1
    refine ⟨ih1, ?_⟩
    intro p hp hu
    simp only [applyCalls, List.zip_cons_cons, List.mem_cons] at hp
    rcases hp with hp | hp
    · subst hp
      exact hstep.2 hu
    · exact ih2 p hp hu

/-- C26: on the transformer extension point, a call of `setUserTransformer` with a transformer
binds it when none is bound; once a user transformer is bound, after every sequence of calls it
is still the bound one and every call of `setUserTransformer` in the sequence has thrown the
input error; the same holds of `setGroupTransformer`; and a call of one setter leaves the
variable of the other as it was, its outcome depending on its own variable only. -/
theorem transformer_bound_once (s : ExtensionPoint) (calls : List SetterCall) :
    (∀ t, s.userTransformer = none →
      setUserTransformer (some t) s = .ok { s with userTransformer := some t }) ∧
    (∀ t, s.groupTransformer = none →
      setGroupTransformer (some t) s = .ok { s with groupTransformer := some t }) ∧
    (∀ t, s.userTransformer = some t →
      (∀ u, setUserTransformer u s = .error .inputError) ∧
      (applyCalls s calls).1.userTransformer = some t ∧
      ∀ p ∈ calls.zip (applyCalls s calls).2, p.1.isUser = true → p.2 = true) ∧
    (∀ t, s.groupTransformer = some t →
      (∀ g, setGroupTransformer g s = .error .inputError) ∧
      (applyCalls s calls).1.groupTransformer = some t ∧
      ∀ p ∈ calls.zip (applyCalls s calls).2, p.1.isUser = false → p.2 = true) ∧
    (∀ g, (applyCall s (.group g)).1.userTransformer = s.userTransformer ∧
      (applyCall s (.group g)).2 = s.groupTransformer.isSome) ∧
    (∀ u, (applyCall s (.user u)).1.groupTransformer = s.groupTransformer ∧
      (applyCall s (.user u)).2 = s.userTransformer.isSome) := by
  refine ⟨?_, ?_, ?_, ?_, ?_, ?_⟩
  · intro t h
    simp [setUserTransformer, h]
  · intro t h
    simp [setGroupTransformer, h]
  · intro t h
    exact ⟨fun u => by simp [setUserTransformer, h], applyCalls_keeps_user t calls s h⟩
  · intro t h
    exact ⟨fun g => by simp [setGroupTransformer, h], applyCalls_keeps_group t calls s h⟩
  · intro g
    by_cases hg : s.groupTransformer.isSome = true
    · simp [applyCall, setGroupTransformer, hg]
    · simp [applyCall, setGroupTransformer, hg]
  · intro u
    by_cases hu : s.userTransformer.isSome = true
    · simp [applyCall, setUserTransformer, hu]
    · simp [applyCall, setUserTransformer, hu]

/-- Witness of C26: the user transformer is bound, then both setters are called, the user
setter twice. -/
theorem transformer_bound_once_witness :
    (applyCalls { userTransformer := some sanitizeEmailTransformer, groupTransformer := none }
        [.user (some noopUserTransformer), .group (some noopGroupTransformer),
          .user none]).1.userTransformer = some sanitizeEmailTransformer ∧
      (applyCalls { userTransformer := some sanitizeEmailTransformer, groupTransformer := none }
        [.user (some noopUserTransformer), .group (some noopGroupTransformer),
          .user none]).2 = [true, false, true] :=
  ⟨((transformer_bound_once
      { userTransformer := some sanitizeEmailTransformer, groupTransformer := none }
      [.user (some noopUserTransformer), .group (some noopGroupTransformer),
        .user none]).2.2.1 sanitizeEmailTransformer rfl).2.1, rfl⟩

/-- C24, as worded, fails: an event of a type that is none of the seven makes `onEvent` raise
an error when the directory rejects the credentials, since `onEvent` authenticates before it
looks at the type; and the type `GROUP-UPDATE`, none of the seven either, passes the test that
guards `onGroupEvent`. -/
theorem unrecognised_event_can_raise :
    "admin.REALM-UPDATE" ∉ namedEventTypes ∧
    onEvent emptyCatalogProvider createClient rejectingRemote demoConstants
        (eventOf "admin.REALM-UPDATE" "realms/demo") 3 3 = .error .authRejected ∧
    TOPIC_GROUP_UPDATE ∉ namedEventTypes ∧
    isGroupEventType TOPIC_GROUP_UPDATE = true := by
  refine ⟨by decide, by rfl, by decide, by decide⟩

theorem isUserEventType_iff (t : String) :
    isUserEventType t = true ↔
      t = "admin.USER-CREATE" ∨ t = "admin.USER-DELETE" ∨ t = "admin.USER-UPDATE" := by
  simp [isUserEventType, TOPIC_USER_CREATE, TOPIC_USER_DELETE, TOPIC_USER_UPDATE, or_assoc]

theorem isMembershipEventType_iff (t : String) :
    isMembershipEventType t = true ↔
      t = "admin.GROUP_MEMBERSHIP-CREATE" ∨ t = "admin.GROUP_MEMBERSHIP-DELETE" := by
  simp [isMembershipEventType, TOPIC_USER_ADD_GROUP, TOPIC_USER_REMOVE_GROUP]

theorem isGroupEventType_iff (t : String) :
    isGroupEventType t = true ↔
      t = "admin.GROUP-CREATE" ∨ t = "admin.GROUP-UPDATE" ∨ t = "admin.GROUP-DELETE" := by
  simp [isGroupEventType, TOPIC_GROUP_CREATE, TOPIC_GROUP_UPDATE, TOPIC_GROUP_DELETE, or_assoc]

theorem not_named_iff (t : String) :
    t ∉ namedEventTypes ↔
      t ≠ "admin.USER-CREATE" ∧ t ≠ "admin.USER-UPDATE" ∧ t ≠ "admin.USER-DELETE" ∧
      t ≠ "admin.GROUP_MEMBERSHIP-CREATE" ∧ t ≠ "admin.GROUP_MEMBERSHIP-DELETE" ∧
      t ≠ "admin.GROUP-CREATE" ∧ t ≠ "admin.GROUP-DELETE" := by
  simp [namedEventTypes, TOPIC_USER_CREATE, TOPIC_USER_DELETE, TOPIC_USER_UPDATE,
    TOPIC_USER_ADD_GROUP, TOPIC_USER_REMOVE_GROUP, TOPIC_GROUP_CREATE, TOPIC_GROUP_DELETE]

/-- C24 (amended): for every event whose type is none of the seven, on a connected provider,
`onEvent` raises the error of the authentication when it fails and otherwise applies no
mutation and raises no error; the user and the membership handler are not invoked, and
`onGroupEvent` is invoked exactly when the type is `GROUP-UPDATE`; and for every type at most
one of the three tests that guard the handlers holds. -/
theorem onEvent_unrecognised_event (P : Provider) (client : KcAdminClient)
    (remote : Credentials → Option AccessToken) (K : Constants) (eventPayload : EventPayload)
    (fuelDepth fuelPages : Nat) (hconn : P.connected = true)
    (htype : eventPayload.eventType ∉ namedEventTypes) :
    onEvent P client remote K eventPayload fuelDepth fuelPages
        = (authenticate remote P.options.provider).result.map (fun _ => []) ∧
      isUserEventType eventPayload.eventType = false ∧
      isMembershipEventType eventPayload.eventType = false ∧
      (isGroupEventType eventPayload.eventType = true ↔
        eventPayload.eventType = TOPIC_GROUP_UPDATE) ∧
      ∀ t : String,
        (isUserEventType t && isMembershipEventType t) = false ∧
        (isUserEventType t && isGroupEventType t) = false ∧
        (isMembershipEventType t && isGroupEventType t) = false := by
  rw [not_named_iff] at htype
  obtain ⟨h1, h2, h3, h4, h5, h6, h7⟩ := htype
  have hu : isUserEventType eventPayload.eventType = false := by
    rw [Bool.eq_false_iff, Ne, isUserEventType_iff]
    rintro (h | h | h) <;> simp_all
  have hm : isMembershipEventType eventPayload.eventType = false := by
    rw [Bool.eq_false_iff, Ne, isMembershipEventType_iff]
    rintro (h | h) <;> simp_all
  have hg : isGroupEventType eventPayload.eventType = true ↔
      eventPayload.eventType = TOPIC_GROUP_UPDATE := by
    rw [isGroupEventType_iff]
    constructor
    · rintro (h | h | h)
      · exact absurd h h6
      · exact h
      · exact absurd h h7
    · intro h
      exact Or.inr (Or.inl h)
  refine ⟨?_, hu, hm, hg, ?_⟩
  · unfold onEvent
    cases hres : (authenticate remote P.options.provider).result with
    | error e => rfl
    | ok token =>
      by_cases hgt : isGroupEventType eventPayload.eventType = true
      · simp [hu, hm, hgt, onGroupEvent, hconn, h6, h7, Except.map]
      · simp [hu, hm, hgt, Except.map]
  · intro t
    refine ⟨?_, ?_, ?_⟩
    · rw [Bool.eq_false_iff, Ne, Bool.and_eq_true, isUserEventType_iff,
        isMembershipEventType_iff]
      rintro ⟨h | h | h, h2 | h2⟩ <;> (rw [h] at h2; revert h2; decide)
    · rw [Bool.eq_false_iff, Ne, Bool.and_eq_true, isUserEventType_iff, isGroupEventType_iff]
      rintro ⟨h | h | h, h2 | h2 | h2⟩ <;> (rw [h] at h2; revert h2; decide)
    · rw [Bool.eq_false_iff, Ne, Bool.and_eq_true, isMembershipEventType_iff,
        isGroupEventType_iff]
      rintro ⟨h | h, h2 | h2 | h2⟩ <;> (rw [h] at h2; revert h2; decide)

/-- Witness of C24 (amended): a `GROUP-UPDATE` event on a connected provider whose directory
accepts the credentials. -/
theorem onEvent_unrecognised_event_witness :
    emptyCatalogProvider.connected = true ∧
      "admin.GROUP-UPDATE" ∉ namedEventTypes ∧
      onEvent emptyCatalogProvider createClient freshRemote demoConstants
        (eventOf "admin.GROUP-UPDATE" "groups/id-p") 3 3 = .ok [] :=
  ⟨rfl, by decide,
    (onEvent_unrecognised_event emptyCatalogProvider createClient freshRemote demoConstants
      (eventOf "admin.GROUP-UPDATE" "groups/id-p") 3 3 rfl (by decide)).1.trans rfl⟩

set_option maxRecDepth 8000 in
/-- C27 at the failing inputs: for an email address of 72 characters the transformer returns
a name of 72 characters, and for `_bob@example.org` it returns `-bob-example-org`, which begins
with a hyphen; neither is a valid entity name.  For `alice@example.org` the returned name
`alice-example-org` is valid. -/
theorem sanitizeEmailTransformer_yields_invalid_names :
    ((sanitizeEmailTransformer (userNamed longEmail) (plainUser "u-1" longEmail) "demo"
        []).map fun e => (e.name, e.name.length, isValidEntityName e.name))
      = some ("firstname-lastname-with-a-rather-long-local-part-indeed-mail-example-org", 72,
          false) ∧
    ((sanitizeEmailTransformer (userNamed "_bob@example.org")
        (plainUser "u-1" "_bob@example.org") "demo" []).map fun e =>
          (e.name, isValidEntityName e.name))
      = some ("-bob-example-org", false) ∧
    ((sanitizeEmailTransformer (userNamed "alice@example.org")
        (plainUser "u-1" "alice@example.org") "demo" []).map fun e =>
          (e.name, isValidEntityName e.name))
      = some ("alice-example-org", true) := by
  refine ⟨by decide, by decide, by decide⟩

theorem settleOne_running_le (width : Nat) (s : BatchState) (h : s.running ≤ width) :
    (settleOne s).running ≤ width := by
  unfold settleOne
  split
  · exact h
  · split
    · exact le_trans (Nat.sub_le _ _) h
    · exact h

theorem settleMany_running_le (width : Nat) :
    ∀ (k : Nat) (s : BatchState), s.running ≤ width → (settleMany k s).running ≤ width := by
  intro k
  induction k with
  | zero => intro s h; exact h
  | succ k ih => intro s h; exact ih (settleOne s) (settleOne_running_le width s h)

/-- The tasks of a batch started through the limiter never exceed its width. -/
theorem throughLimit_running_le (width tasks k : Nat) :
    (settleMany k (startBatch (.throughLimit width) tasks)).running ≤ width :=
  settleMany_running_le width k _ (Nat.min_le_right _ _)

/-- C28 at the failing input: `maxConcurrency` is 1 and a `GROUP-CREATE` event names the group
`p`, which has the subgroup `n`.  The enrichment batch of `createGroupEntities` starts with two
tasks running, each fetching the members of its group, and none waiting; the enrichment batch
of `readKeycloakRealm` over the same groups starts with one task running and one waiting. -/
theorem createGroupEntities_enrichment_is_not_limited :
    concurrencyOf narrowProvider.options.provider = 1 ∧
    createGroupEntitiesLaunch = Launch.direct ∧
    createGroupEntitiesBatch narrowProvider createClient demoConstants
        [KGroup.mk "id-p" "p" none none 1 [] none] 3
      = some { waiting := 0, running := 2, settled := 0 } ∧
    readKeycloakRealmBatch createClient narrowProvider.options.provider demoConstants
        [KGroup.mk "id-p" "p" none none 1 [] none] 3
      = some { waiting := 1, running := 1, settled := 0 } := by
  refine ⟨by rfl, by rfl, by rfl, by rfl⟩

theorem slice_ne_nil {α : Type} (l : List α) (P i : Nat) (hP : 1 ≤ P) (h : i * P < l.length) :
    (l.drop (i * P)).take P ≠ [] := by
  intro hnil
  have hlen := congrArg List.length hnil
  simp only [List.length_take, List.length_drop, List.length_nil] at hlen
  omega

/-- C29: when `listMembers` returns, for the group and the page size `P ≥ 1`, the slice of a
fixed list of member records that begins at `first` and has at most `P` records, then
`getAllGroupMembers` returns (given fuel for one call more than the number of pages) exactly
the user names of the list, each record once and in the order of the list, after one call per
page and one more call, which finds the empty page. -/
theorem getAllGroupMembers_returns_every_member (client : KcAdminClient)
    (groupId : Option String) (config : ProviderConfig) (P : Nat) (records : List KUser)
    (fuel : Nat) (hP : 1 ≤ P)
    (hslice : ∀ first : Nat,
      client.listMembers { id := groupId, max := P, realm := config.realm, first := first }
        = (records.drop first).take P)
    (hfuel : (records.length + P - 1) / P < fuel) :
    getAllGroupMembers client groupId config (some P) fuel
        = some (records.map fun m => m.username) ∧
      (getAllGroupMembersTrace client groupId config (some P) fuel).map
          (fun run => run.1.length)
        = some ((records.length + P - 1) / P + 1) := by
  have hq : querySizeOr100 (some P) = P := by
    simp only [querySizeOr100]
    rw [if_neg (by omega)]
  have hle : records.length ≤ (records.length + P - 1) / P * P :=
    (ceil_div_le_iff records.length P _ hP).mp (le_refl _)
  have hfull : ∀ i, i < (records.length + P - 1) / P →
      client.listMembers { id := groupId, max := P, realm := config.realm, first := i * P }
        ≠ [] := by
    intro i hi
    rw [hslice]
    apply slice_ne_nil records P i hP
    by_contra hnot
    have := (ceil_div_le_iff records.length P i hP).mpr (Nat.le_of_not_lt hnot)
    omega
  have hempty : client.listMembers
      { id := groupId, max := P, realm := config.realm,
        first := (records.length + P - 1) / P * P } = [] := by
    rw [hslice, List.drop_eq_nil_of_le hle, List.take_nil]
  have hrun := pageLoop_until_empty client.listMembers (fun m : KUser => m.username) groupId
    config.realm P _ hfull hempty ((records.length + P - 1) / P) 0 fuel [] []
    (Nat.zero_add _) hfuel
  have hpages : ((List.range' 0 ((records.length + P - 1) / P)).map fun i =>
      (client.listMembers
        { id := groupId, max := P, realm := config.realm, first := i * P }).map
        (fun m : KUser => m.username)).flatten = records.map fun m => m.username := by
    have h1 : ((List.range' 0 ((records.length + P - 1) / P)).map fun i =>
        (client.listMembers
          { id := groupId, max := P, realm := config.realm, first := i * P }).map
          (fun m : KUser => m.username))
        = (List.range ((records.length + P - 1) / P)).map fun i =>
          (((records.map fun m => m.username).drop (i * P)).take P) := by
      rw [List.range_eq_range']
      apply List.map_congr_left
      intro i _
      rw [hslice, List.map_take, List.map_drop]
    rw [h1]
    exact join_pages_eq P _ _ (by simpa using hle)
  unfold getAllGroupMembers getAllGroupMembersTrace
  rw [hq, hrun]
  simp only [Option.map_some', List.nil_append, hpages, List.length_map, List.length_range']
  exact ⟨trivial, trivial⟩

/-- Witness of C29: three members read by pages of two. -/
theorem getAllGroupMembers_returns_every_member_witness :
    getAllGroupMembers threeMemberClient (some "id-s") demoConfig (some 2) 3
        = some ["u1", "u2", "u3"] ∧
      (getAllGroupMembersTrace threeMemberClient (some "id-s") demoConfig (some 2) 3).map
          (fun run => run.1.length)
        = some 3 :=
  getAllGroupMembers_returns_every_member threeMemberClient (some "id-s") demoConfig 2
    [plainUser "u-1" "u1", plainUser "u-2" "u2", plainUser "u-3" "u3"] 3 (by decide)
    (fun _ => rfl) (by decide)

/-- C30 at the failing inputs: the catalog returns the entity of `bob` with the memberships
`d`; after the event that adds `bob` to the group `s`, the entity passed as removed has the
memberships `d`, `s`.  The catalog returns the entity with the memberships `d`, `s`; after the
event that removes `bob` from `s`, the entity passed as removed has the memberships `d`. -/
theorem membership_change_rewrites_removed_entity :
    ((memberOfCatalog ["d"]).getEntities "User" (some "u-bob")).map (fun e => e.memberOf)
      = [some ["d"]] ∧
    onMembershipChange (memberOfProvider ["d"]) (membershipClient "bob")
        (eventOf "admin.GROUP_MEMBERSHIP-CREATE" "users/u-bob/groups/id-s") 2
      = .ok [Mutation.delta
          (addEntitiesOperation (memberOfProvider ["d"])
            [userEntityOf (plainUser "u-bob" "bob") "demo" ["d", "s"]])
          (removeEntitiesOperation (memberOfProvider ["d"])
            [catalogUser "bob" "u-bob" ["d", "s"] []])] ∧
    ((memberOfCatalog ["d", "s"]).getEntities "User" (some "u-bob")).map (fun e => e.memberOf)
      = [some ["d", "s"]] ∧
    onMembershipChange (memberOfProvider ["d", "s"]) (membershipClient "bob")
        (eventOf "admin.GROUP_MEMBERSHIP-DELETE" "users/u-bob/groups/id-s") 2
      = .ok [Mutation.delta
          (addEntitiesOperation (memberOfProvider ["d", "s"])
            [userEntityOf (plainUser "u-bob" "bob") "demo" ["d"]])
          (removeEntitiesOperation (memberOfProvider ["d", "s"])
            [catalogUser "bob" "u-bob" ["d"] []])] := by
  refine ⟨by rfl, by rfl, by rfl, by rfl⟩

/-- Witness of C1: three records paged two by two. -/
theorem getEntities_pagination_complete_witness :
    ∃ r, getEntities (sliceApi threeNames) demoConfig "t1" demoConstants (some 2) = some r ∧
      (∀ k, r.calls.length ≤ k ↔ threeNames.length ≤ k * 2) ∧
      r.calls.map (fun q => (q.first, q.max))
        = (List.range r.calls.length).map (fun i => (i * 2, 2)) ∧
      r.entities = threeNames ∧
      r.entities.length = threeNames.length ∧
      (r.entities.map fun x => x).Nodup ∧
      r.failures = [] :=
  getEntities_pagination_complete (fun x => x) threeNames 2 (sliceApi threeNames) demoConfig
    "t1" demoConstants (some 2) (by decide) rfl rfl (fun _ => rfl) (by decide)

end Keycloak
